import Mathlib

/-!
A verification development for the PC-BASIC program bytecode engine:
the tokeniser (`tokenise.py`), the program buffer (`program.py`) and the
statement parser (`parser.py`) are embedded shallowly as executable Lean
functions over byte lists, and the behavioural properties stated in the
design document are settled against them.

Machine bytes are `Nat` values below 256; streams are a byte list plus an
explicit cursor, mirroring the `StringIO` seek/read/write discipline of the
source.  Helper modules of the repository that are not part of the excerpt
(`util.py`, `vartypes.py`, `basictoken.py`, `error.py`, the `fp` numeric
library) are modelled from the specification text, and are marked as such
in their doc comments.
-/

namespace PCBasic

/-! ## Bytes, characters and integer encoding -/

/-- ASCII decimal digit. -/
def isDigit (b : Nat) : Bool := 48 ≤ b && b ≤ 57

/-- Modelled from the spec: the tokeniser's whitespace class
`' ', '\t', '\n'` (`Tokeniser._ascii_whitespace`). -/
def isWS (b : Nat) : Bool := b = 32 || b = 9 || b = 10

/-- Modelled from the spec: `vartypes.integer_to_bytes` composed with
`vartypes.int_to_integer_unsigned` — a 2-byte little-endian unsigned
encoding of a line number / offset. -/
def enc2 (n : Nat) : List Nat := [n % 256, n / 256 % 256]

/-- Modelled from the spec: `vartypes.integer_to_int_unsigned` composed with
`vartypes.bytes_to_integer` — decode a 2-byte little-endian unsigned value. -/
def dec2 (lo hi : Nat) : Nat := lo % 256 + 256 * (hi % 256)

/-- Decimal value of a digit string (list of ASCII digit bytes),
as Python `int(word)`. -/
def digitsVal (ds : List Nat) : Nat := ds.foldl (fun a b => a * 10 + (b - 48)) 0

/-! ## Stream primitives

Streams are a byte list together with a cursor.  `read`/`peek`/`seek`
mirror the `StringIO` calls of the source: reading past the end returns a
short (possibly empty) list, and the cursor never moves beyond the length
of the buffer. -/

/-- `ins.read(n)` at cursor `pos`: the bytes read, in order. -/
def sread (code : List Nat) (pos n : Nat) : List Nat := (code.drop pos).take n

/-- Cursor position after `ins.read(n)` at `pos`. -/
def safter (code : List Nat) (pos n : Nat) : Nat := min (pos + n) code.length

/-- `util.peek(ins)`: the next byte, if any, without moving the cursor. -/
def speek (code : List Nat) (pos : Nat) : Option Nat := code.get? pos

/-- In-place overwrite of `bs` starting at `pos` (a seek followed by a
`write` that stays inside the buffer). -/
def swrite (code : List Nat) (pos : Nat) (bs : List Nat) : List Nat :=
  code.take pos ++ bs ++ code.drop (pos + bs.length)

/-! ## `Tokeniser._tokenise_uint` (tokenise.py, lines 345-376)

Reads a run of digits and whitespace, strips trailing whitespace (seeking
back over it), removes all embedded whitespace, and encodes the resulting
digit string as a 2-byte unsigned integer.  A value of 65530 or more keeps
only the first four digits and seeks the stream back by
`len(digits) - 4` characters. -/

/-- `Tokeniser._tokenise_uint`.  Input: the text buffer and cursor.
Output: the returned byte string (empty list for Python `''`) and the new
cursor position. -/
def tokenise_uint (code : List Nat) (pos : Nat) : List Nat × Nat :=
  -- while True: c = ins.read(1); collect digits and whitespace
  let run := (code.drop pos).takeWhile (fun b => isDigit b || isWS b)
  let pos1 := pos + run.length
  -- don't claim trailing whitespace: drop it and seek back one per char
  let word := (run.reverse.dropWhile isWS).reverse
  let pos2 := pos1 - (run.length - word.length)
  -- remove all whitespace
  let trim := word.filter isDigit
  if trim.isEmpty then ([], pos2)
  else if digitsVal trim ≥ 65530 then
    -- ins.seek(4 - len(word), 1); word = word[:4]
    (enc2 (digitsVal (trim.take 4)), pos2 + 4 - trim.length)
  else
    (enc2 (digitsVal trim), pos2)

/-! ### Helper lemmas for `tokenise_uint` -/

/-! ## Token and error constants

Modelled from the spec: `basictoken.py` and `error.py` are outside the
excerpt.  Token byte values follow the classic tokenised-BASIC table the
spec says the keyword table reproduces; error numbers follow the classic
error taxonomy of §7.  Only distinctness and identity of these constants
matter to the development. -/

namespace tk

def T_OCT : Nat := 0x0B

def T_HEX : Nat := 0x0C

def T_BYTE : Nat := 0x0F

def T_INT : Nat := 0x1C

def T_SINGLE : Nat := 0x1D

def T_DOUBLE : Nat := 0x1F

/-- Jump-number (line number pointer) token. -/
def T_UINT : Nat := 0x0E

def LINE_PTR : Nat := 0x0D

def REM : Nat := 0x8F

def O_REM : Nat := 0xD9

def O_PLUS : Nat := 0xE9

def DATA : Nat := 0x84

def GOTO : Nat := 0x89

def ERROR : Nat := 0xA7

def ELSE : Nat := 0xA1

def WHILE : Nat := 0xB1

def PRINT : Nat := 0x91

/-- Bytes of `tk.end_statement` other than end-of-stream: NUL and `:`. -/
def isEndStatementByte (b : Nat) : Bool := b = 0 || b = 58

/-- Bytes of `tk.end_line` other than end-of-stream: NUL. -/
def isEndLineByte (b : Nat) : Bool := b = 0

/-- Extra payload bytes carried by multi-byte tokens (`tk.plus_bytes`). -/
def plus_bytes (b : Nat) : Nat :=
  if b = T_OCT || b = T_HEX || b = T_INT || b = LINE_PTR || b = T_UINT then 2
  else if b = T_BYTE then 1
  else if b = T_SINGLE then 4
  else if b = T_DOUBLE then 8
  else 0

end tk

namespace err

def NEXT_WITHOUT_FOR : Nat := 1

def STX : Nat := 2

def RETURN_WITHOUT_GOSUB : Nat := 3

def OUT_OF_DATA : Nat := 4

def IFC : Nat := 5

def OVERFLOW : Nat := 6

def UNDEFINED_LINE_NUMBER : Nat := 8

def DIVISION_BY_ZERO : Nat := 11

def NO_RESUME : Nat := 19

def DIRECT_STATEMENT_IN_FILE : Nat := 66

end err

/-- `error.RunError`: a BASIC error, carrying its number and an optional
stream position (`None` until `trap_error` assigns one). -/
structure RunErrorT where
  errnum : Nat
  pos : Option Int
deriving Repr, DecidableEq

/-! ## Shared stream-walking helpers

Modelled from the spec: these live in `util.py`, outside the excerpt.
Their behaviour is fixed by the byte grammar of §3 and the walking rules
described in §4.1/§4.2: a line header is NUL + 2-byte next-line offset +
2-byte line number, the stream ends when the offset field reads `00 00`,
string literals and REM comments protect their contents, and multi-byte
numeric tokens are skipped whole. -/

/-- `util.parse_line_number`: read the 2-byte next-line offset; `00 00`
(or a truncated read) means end of program and restores the cursor;
otherwise read and return the 2-byte line number. -/
def parse_line_number (code : List Nat) (pos : Nat) : Option Nat × Nat :=
  match sread code pos 2 with
  | [o1, o2] =>
    if o1 = 0 && o2 = 0 then (none, pos)
    else
      match sread code (pos + 2) 2 with
      | [n1, n2] => (some (dec2 n1 n2), pos + 4)
      | _ => (none, pos + 2)
  | _ => (none, pos)

/-- `util.skip_white`: advance the cursor past whitespace and peek the
first non-white byte (without consuming it). -/
def skip_white (code : List Nat) (pos : Nat) : Option Nat × Nat :=
  let k := ((code.drop pos).takeWhile isWS).length
  (speek code (pos + k), pos + k)

/-- `util.skip_white_read`: `skip_white`, then consume the peeked byte. -/
def skip_white_read (code : List Nat) (pos : Nat) : Option Nat × Nat :=
  match skip_white code pos with
  | (some c, p) => (some c, p + 1)
  | (none, p) => (none, p)

/-- `util.backskip_white`: seek one byte back, keep seeking back over
whitespace, and peek the byte the cursor lands on. -/
def backskip_white (code : List Nat) : Nat → Option Nat × Nat
  | 0 => (none, 0)
  | p + 1 =>
    match code.get? p with
    | some b => if isWS b then backskip_white code p else (some b, p)
    | none => (none, p)

/-- `util.skip_to`: advance the cursor until a byte of `findrange` is
found (cursor left on it), honouring string literals, REM comments, line
headers (stop after an end-of-program `00 00` offset field) and multi-byte
token payloads.  `fuel` bounds the recursion; `code.length - pos` steps
always suffice. -/
def skip_to_aux (code : List Nat) (findrange : List Nat) :
    Nat → Nat → Bool → Bool → Nat
  | 0, pos, _, _ => pos
  | fuel + 1, pos, litstr, remfl =>
    match code.get? pos with
    | none => pos
    | some c =>
      let pos1 := pos + 1
      let litstr := if c = 34 then !litstr else if c = 0 then false else litstr
      let remfl := if c = tk.REM then true else if c = 0 then false else remfl
      if litstr || remfl then skip_to_aux code findrange fuel pos1 litstr remfl
      else if c ∈ findrange then pos
      else if c = 0 then
        match sread code pos1 2 with
        | [o1, o2] =>
          if o1 = 0 && o2 = 0 then pos1 + 2
          else skip_to_aux code findrange fuel (safter code pos1 4) litstr remfl
        | _ => safter code pos1 2
      else skip_to_aux code findrange fuel (safter code pos1 (tk.plus_bytes c)) litstr remfl

/-- `util.skip_to` at standard fuel. -/
def skip_to (code : List Nat) (pos : Nat) (findrange : List Nat) : Nat :=
  skip_to_aux code findrange (code.length + 1) pos false false

/-- `util.skip_to_read`: `skip_to`, then read one byte. -/
def skip_to_read (code : List Nat) (pos : Nat) (findrange : List Nat) : Option Nat × Nat :=
  let p := skip_to code pos findrange
  match code.get? p with
  | some c => (some c, p + 1)
  | none => (none, p)

/-! ## Parser state (parser.py)

The `Parser` object's mutable state, together with the session members the
excerpt's code reads: the program bytecode and its line-number index
(`session.program`), the direct-mode buffer (`session.direct_line`), the
event list (`session.events`) and the screen transcript.  Scalar variable
storage is the spec's variable-storage collaborator, modelled as a mapping
from name to value with the spec's opaque numeric type rendered as exact
integers (it only needs add, negate, sign and greater-than here). -/

/-- Modelled from the spec: an `fp` floating-point value — an opaque
numeric type with a known maximum-magnitude constant per width. -/
structure FPFloat where
  isDouble : Bool
  mag : ℚ
deriving Repr, DecidableEq

/-- Modelled from the spec: `fp.Single.max`. -/
def Single_max : FPFloat := ⟨false, (2 ^ 127 : ℚ) * (1 - 1 / 2 ^ 24)⟩

/-- Modelled from the spec: `fp.Double.max`. -/
def Double_max : FPFloat := ⟨true, (2 ^ 127 : ℚ) * (1 - 1 / 2 ^ 56)⟩

/-- Messages the excerpt's code writes to the screen. -/
inductive ScreenMsg where
  | errmsg (code : Nat)
  | undefLine (jumpnum : Nat) (linum : Int)
  | traceLine (linum : Nat)
deriving Repr, DecidableEq

/-- Modelled from the spec: one entry of `session.events.all` — an event
trap with enabled/triggered/stopped flags and an optional handler line. -/
structure EventRec where
  enabled : Bool
  triggered : Bool
  stopped : Bool
  gosub : Option Nat
deriving Repr, DecidableEq

/-- One FOR-stack record: `(forpos, nextpos, varname[-1], loopvar, stop,
step, sgn)`.  The in-place `loopvar` buffer reference is modelled as the
variable's name, used as a handle into scalar storage. -/
structure ForRecord where
  forpos : Nat
  nextpos : Nat
  typechar : Char
  varname : String
  stop : Int
  step : Int
  sgn : Int
deriving Repr, DecidableEq

/-- The parser's mutable state. -/
structure ParserState where
  program_code : List Nat
  program_pos : Nat
  direct_line : List Nat
  direct_pos : Nat
  run_mode : Bool
  current_statement : Nat
  error_num : Nat
  error_pos : Int
  error_handle_mode : Bool
  error_resume : Option (Nat × Bool)
  on_error : Option Nat
  line_numbers : List (Nat × Nat)
  suspend_all : Bool
  events : List EventRec
  gosub_stack : List (Nat × Bool × Option Nat)
  for_stack : List ForRecord
  scalars : String → Int
  data_pos : Nat
  screen_output : List ScreenMsg

/-- Pointwise update of scalar storage (the single `mutate(handle, value)`
entry point of the spec's variable-storage collaborator). -/
def updf (f : String → Int) (x : String) (v : Int) : String → Int :=
  fun y => if y = x then v else f y

/-- Lookup in the line-number index (`line_numbers[n]`). -/
def lookupLine (lns : List (Nat × Nat)) (n : Nat) : Option Nat :=
  (lns.find? (fun p => p.1 = n)).map Prod.snd

/-- The current codestream's bytes (`get_codestream`). -/
def cs_code (st : ParserState) : List Nat :=
  if st.run_mode then st.program_code else st.direct_line

/-- The current codestream's cursor (`get_codestream().tell()`). -/
def cs_pos (st : ParserState) : Nat :=
  if st.run_mode then st.program_pos else st.direct_pos

/-- Seek the current codestream (`get_codestream().seek(p)`). -/
def seek_ins (st : ParserState) (p : Nat) : ParserState :=
  if st.run_mode then { st with program_pos := p } else { st with direct_pos := p }

/-- `Parser.set_pointer`: select run mode and seek the newly selected
codestream to the given position, or to its end if none is given.  The
event/sound/cassette collaborator notifications carry no state in this
model. -/
def set_pointer (st : ParserState) (new_runmode : Bool) (pos : Option Nat) : ParserState :=
  let st := { st with run_mode := new_runmode }
  match pos with
  | some p => seek_ins st p
  | none => seek_ins st (cs_code st).length

/-- `Parser.jump`: jump for GOTO/RUN.  `none` means stream start; an
absent target raises the caller-supplied error (state untouched). -/
def jump (st : ParserState) (jumpnum : Option Nat) (errn : Nat) :
    Except RunErrorT ParserState :=
  match jumpnum with
  | none => .ok (set_pointer st true (some 0))
  | some n =>
    match lookupLine st.line_numbers n with
    | some p => .ok (set_pointer st true (some p))
    | none => .error ⟨errn, none⟩

/-- `Parser.jump_gosub`: push the return record, then jump. -/
def jump_gosub (st : ParserState) (jumpnum : Option Nat) (handler : Option Nat) :
    Except (RunErrorT × ParserState) ParserState :=
  let st := { st with gosub_stack := st.gosub_stack ++ [(cs_pos st, st.run_mode, handler)] }
  match jump st jumpnum err.UNDEFINED_LINE_NUMBER with
  | .ok st2 => .ok st2
  | .error e => .error (e, st)

/-- Body of `Parser.handle_basic_events`: walk the event list from index
`i`, firing each eligible event through a synthetic GOSUB. -/
def hbe_go (fuel : Nat) (st : ParserState) (i : Nat) :
    Except (RunErrorT × ParserState) ParserState :=
  match fuel with
  | 0 => .ok st
  | fuel + 1 =>
    match st.events.get? i with
    | none => .ok st
    | some ev =>
      if ev.enabled && ev.triggered && !ev.stopped && ev.gosub.isSome then
        let st := { st with
          events := st.events.set i { ev with triggered := false, stopped := true } }
        match jump_gosub st ev.gosub (some i) with
        | .ok st2 => hbe_go fuel st2 (i + 1)
        | .error e => .error e
      else hbe_go fuel st (i + 1)

/-- `Parser.handle_basic_events`: dispatch pending event traps when not
suspended and in run mode. -/
def handle_basic_events (st : ParserState) :
    Except (RunErrorT × ParserState) ParserState :=
  if st.suspend_all || !st.run_mode then .ok st
  else hbe_go (st.events.length + 1) st 0

/-- `Parser.trap_error`: handle a BASIC error through trapping.  Returns
the updated state and, when the error propagates to the caller, the
(position-assigned) error. -/
def trap_error (st : ParserState) (e : RunErrorT) : ParserState × Option RunErrorT :=
  let epos : Int :=
    match e.pos with
    | some p => p
    | none => if st.run_mode then (st.program_pos : Int) - 1 else -1
  let e := RunErrorT.mk e.errnum (some epos)
  let st := { st with error_num := e.errnum, error_pos := epos }
  let armed : Bool :=
    match st.on_error with
    | some n => n != 0
    | none => false
  if armed && !st.error_handle_mode then
    let st := { st with error_resume := some (st.current_statement, st.run_mode) }
    match jump st st.on_error err.UNDEFINED_LINE_NUMBER with
    | .ok st2 => ({ st2 with error_handle_mode := true, suspend_all := true }, none)
    | .error je => (st, some je)
  else
    (set_pointer { st with error_handle_mode := false } false none, some e)

/-! ## FOR/NEXT loop primitives (parser.py, lines 252-295) -/

/-- `Parser.loop_init`: set the loop variable to `start - step`, push the
FOR record, and seek to the NEXT statement. -/
def loop_init (st : ParserState) (forpos nextpos : Nat) (varname : String)
    (start stop stepv : Int) : ParserState :=
  let st := { st with scalars := updf st.scalars varname (start + (-stepv)) }
  let sgn := Int.sign stepv
  let st := { st with for_stack := st.for_stack ++
    [⟨forpos, nextpos, varname.toList.getLastD '!', varname, stop, stepv, sgn⟩] }
  seek_ins st nextpos

/-- `Parser.number_inc_gt`: advance the loop variable in place by `step`
and test the sign-dependent exit condition.  A zero step never ends the
loop and performs no increment.  Both the float (`#`/`!`) and the integer
branch are exact arithmetic on the modelled numeric type. -/
def number_inc_gt (st : ParserState) (varname : String) (stop stepv sgn : Int) :
    ParserState × Bool :=
  if sgn = 0 then (st, false)
  else
    let left := st.scalars varname + stepv
    let st := { st with scalars := updf st.scalars varname left }
    (st, if sgn > 0 then decide (stop < left) else decide (left < stop))

/-- `Parser.loop_iterate`: find the FOR record matching this NEXT, drop
records above it, advance the loop variable and either pop (loop ends,
returns `false`) or seek back to the loop body (returns `true`). -/
def loop_iterate (st : ParserState) (pos : Nat) :
    Except RunErrorT (ParserState × Bool) :=
  match st.for_stack.reverse.findIdx? (fun r => r.nextpos = pos) with
  | none => .error ⟨err.NEXT_WITHOUT_FOR, none⟩
  | some depth =>
    let st := { st with for_stack := st.for_stack.take (st.for_stack.length - depth) }
    match st.for_stack.getLast? with
    | none => .error ⟨err.NEXT_WITHOUT_FOR, none⟩
    | some r =>
      let (st, loop_ends) := number_inc_gt st r.varname r.stop r.step r.sgn
      if loop_ends then .ok ({ st with for_stack := st.for_stack.dropLast }, false)
      else .ok (seek_ins st r.forpos, true)

/-! ## Math-error handling (parser.py, lines 526-547) -/

/-- Modelled from the spec: the Python exception classes
`_handle_math_error` dispatches on.  Per the spec, an overflow or
divide-by-zero raised by the `fp` collaborator carries the
maximum-magnitude value of the operation's float type as its argument. -/
inductive PyExc where
  | valueErr
  | overflowErr (arg : Option FPFloat)
  | zeroDivErr (arg : Option FPFloat)
  | otherExc
deriving Repr, DecidableEq

/-- Outcome channel for `_handle_math_error`: a BASIC `RunError`, or the
original non-arithmetic exception re-raised. -/
inductive HandlerRaise where
  | basic (e : RunErrorT)
  | rethrown (e : PyExc)
deriving Repr, DecidableEq

/-- Truthiness of `self.session.parser.on_error`. -/
def trapArmed (st : ParserState) : Bool :=
  match st.on_error with
  | some n => n != 0
  | none => false

/-- Shared tail of `_handle_math_error` for Overflow and DivisionByZero. -/
def handle_ovf_dbz (st : ParserState) (math_error : Nat) (arg : Option FPFloat) :
    Except HandlerRaise (ParserState × FPFloat) :=
  if trapArmed st then .error (.basic ⟨math_error, none⟩)
  else
    let st := { st with screen_output := st.screen_output ++ [.errmsg math_error] }
    match arg with
    | some f => .ok (st, f)
    | none => .ok (st, Single_max)

/-- `Parser._handle_math_error`: math-domain errors raise
IllegalFunctionCall; Overflow/DivisionByZero raise the matching runtime
error when a trap is armed, and otherwise print a message and return the
substituted maximum value. -/
def handle_math_error (st : ParserState) (e : PyExc) :
    Except HandlerRaise (ParserState × FPFloat) :=
  match e with
  | .valueErr => .error (.basic ⟨err.IFC, none⟩)
  | .overflowErr arg => handle_ovf_dbz st err.OVERFLOW arg
  | .zeroDivErr arg => handle_ovf_dbz st err.DIVISION_BY_ZERO arg
  | .otherExc => .error (.rethrown .otherExc)

/-! ## DATA/READ (parser.py, lines 300-343) -/

/-- Value-collection loop of `Parser.read_entry`.  Walks the stream from
`pos` gathering one comma/quote-delimited DATA value: leading whitespace
is skipped while nothing has been collected, quoted segments are copied
verbatim, unquoted trailing whitespace is withheld in `word` until a
non-white byte flushes it.  A closing quote must be followed by a
statement end or a comma (`util.require`), else SyntaxError.  Errors carry
the cursor at the raise.  Returns the collected value and the cursor at
the delimiter. -/
def read_entry_loop (code : List Nat) :
    Nat → Nat → List Nat → List Nat → Bool → Except (RunErrorT × Nat) (List Nat × Nat)
  | 0, pos, vals, _, _ => .ok (vals, pos)
  | fuel + 1, pos, vals, word, litfl =>
    let (c?, pos) :=
      if !litfl && vals.isEmpty then skip_white code pos
      else (speek code pos, pos)
    match c? with
    | none => .ok (vals, pos)
    | some c =>
      if (!litfl && c = 44) || c = 0 || (!litfl && c = 58) then .ok (vals, pos)
      else if c = 34 then
        let pos := pos + 1
        let litfl := !litfl
        if !litfl then
          let (c2?, pos2) := skip_white code pos
          match c2? with
          | none => read_entry_loop code fuel pos2 vals word litfl
          | some c2 =>
            if c2 = 0 || c2 = 58 || c2 = 44 then
              read_entry_loop code fuel pos2 vals word litfl
            else .error (⟨err.STX, none⟩, pos2)
        else read_entry_loop code fuel pos vals word litfl
      else
        let pos := pos + 1
        let (vals, word) :=
          if litfl then (vals ++ [c], word) else (vals, word ++ [c])
        let (vals, word) :=
          if !isWS c then (vals ++ word, ([] : List Nat)) else (vals, word)
        read_entry_loop code fuel pos vals word litfl

/-- `Parser.read_entry`: READ one unit of DATA.  Saves the execution
cursor, seeks to the DATA cursor, skips to the next DATA statement when at
a statement boundary, collects one value, advances the DATA cursor and
restores the execution cursor.  OutOfData when no DATA statement follows. -/
def read_entry (st : ParserState) :
    Except (RunErrorT × ParserState) (List Nat × ParserState) :=
  let current := st.program_pos
  let code := st.program_code
  let pos := st.data_pos
  let atBoundary :=
    match speek code pos with
    | none => true
    | some b => tk.isEndStatementByte b
  let pos := if atBoundary then skip_to code pos [tk.DATA] else pos
  match speek code pos with
  | some b =>
    if b = tk.DATA || b = 44 then
      match read_entry_loop code (code.length + 1) (pos + 1) [] [] false with
      | .ok (vals, p) => .ok (vals, { st with data_pos := p, program_pos := current })
      | .error (e, p) => .error (e, { st with program_pos := p })
    else .error (⟨err.OUT_OF_DATA, none⟩, { st with program_pos := pos + 1 })
  | none => .error (⟨err.OUT_OF_DATA, none⟩, { st with program_pos := pos })

/-! ## Statement stepping (parser.py, lines 63-115) -/

/-- Modelled from the spec: the statement dispatch table
(`statements.Statements`, outside the excerpt) — the token keys it knows
and the handlers it dispatches to, plus the implicit-LET path. -/
structure StmtTable where
  keys : List Nat
  run : Nat → ParserState → Except (RunErrorT × ParserState) ParserState
  exec_let : ParserState → Except (RunErrorT × ParserState) ParserState

/-- ASCII letter (`string.ascii_letters`). -/
def isLetter (b : Nat) : Bool := (65 ≤ b && b ≤ 90) || (97 ≤ b && b ≤ 122)

/-- Two-byte statement token lead bytes (`tk.twobyte`). -/
def isTwoByte (b : Nat) : Bool := b = 0xFD || b = 0xFE || b = 0xFF

/-- Statement-dispatch tail of `parse_statement`: after the line-number
marker or `:` has been handled, skip whitespace and dispatch on the next
token (empty statement, implicit LET, or table lookup; unknown tokens are
a SyntaxError). -/
def parse_statement_rest (tbl : StmtTable) (st : ParserState) :
    Except (RunErrorT × ParserState) (Bool × ParserState) :=
  let code := cs_code st
  let (c?, p) := skip_white code (cs_pos st)
  let st := seek_ins st p
  match c? with
  | none => .ok (true, st)
  | some c =>
    if tk.isEndStatementByte c then .ok (true, st)
    else if isLetter c then
      match tbl.exec_let st with
      | .ok st2 => .ok (true, st2)
      | .error e => .error e
    else
      let st := seek_ins st (p + 1)
      let (key, st) :=
        if isTwoByte c then
          match code.get? (p + 1) with
          | some c2 => (c * 256 + c2, seek_ins st (p + 2))
          | none => (c, st)
        else (c, st)
      if key ∈ tbl.keys then
        match tbl.run key st with
        | .ok st2 => .ok (true, st2)
        | .error e => .error e
      else .error (⟨err.STX, none⟩, st)

/-- Body of `Parser.parse_statement` (the `try` block): service pending
events, record the statement start, and parse a line-number marker or `:`
at the start of the statement.  At the end-of-program marker, an
outstanding error-resume position raises NoResume (with the handling flag
set so the trap does not catch it); otherwise run mode is deactivated and
`False` ("no more statements") is returned. -/
def parse_statement_body (tbl : StmtTable) (st0 : ParserState) :
    Except (RunErrorT × ParserState) (Bool × ParserState) :=
  match handle_basic_events st0 with
  | .error e => .error e
  | .ok st =>
    let st := { st with current_statement := cs_pos st }
    let code := cs_code st
    let (c?, p1) := skip_white code (cs_pos st)
    let st := seek_ins st p1
    match c? with
    | none => .ok (false, set_pointer st false none)
    | some c =>
      if c = 0 then
        let prepos := p1
        let st := seek_ins st (p1 + 1)
        match parse_line_number code (p1 + 1) with
        | (none, p2) =>
          let st := seek_ins st p2
          if st.error_resume.isSome then
            let st := { st with error_handle_mode := true }
            .error (⟨err.NO_RESUME, some ((prepos : Int) - 1)⟩, st)
          else .ok (false, set_pointer st false none)
        | (some linenum, p2) =>
          -- tron trace goes to the screen; the debugger hook is a
          -- collaborator with no state here
          let st := { st with screen_output :=
            st.screen_output ++ [.traceLine linenum] }
          parse_statement_rest tbl (seek_ins st p2)
      else if c = 58 then parse_statement_rest tbl (seek_ins st (p1 + 1))
      else parse_statement_rest tbl st

/-- `Parser.parse_statement`: the body under the `except error.RunError`
handler — a raised BASIC error goes through `trap_error`, after which the
statement loop continues (`True`) unless the error propagated. -/
def parse_statement (tbl : StmtTable) (st : ParserState) :
    Except (RunErrorT × ParserState) (Bool × ParserState) :=
  match parse_statement_body tbl st with
  | .ok r => .ok r
  | .error (e, st1) =>
    match trap_error st1 e with
    | (st2, none) => .ok (true, st2)
    | (st2, some e2) => .error (e2, st2)

/-! ## Concrete states for witnesses and counterexamples -/

/-- A quiescent parser over an empty program. -/
def baseState : ParserState where
  program_code := [0, 0, 0]
  program_pos := 0
  direct_line := [58]
  direct_pos := 0
  run_mode := false
  current_statement := 0
  error_num := 0
  error_pos := 0
  error_handle_mode := false
  error_resume := none
  on_error := none
  line_numbers := [(65536, 0)]
  suspend_all := false
  events := []
  gosub_stack := []
  for_stack := []
  scalars := fun _ => 0
  data_pos := 0
  screen_output := []

/-- A program whose single line is `10 DATA 1`. -/
def dataState : ParserState :=
  { baseState with
    program_code := [0, 1, 1, 10, 0, tk.DATA, 49, 0, 0, 0],
    line_numbers := [(10, 0), (65536, 7)] }

/-- Position `trap_error` assigns to an error whose position is unset: the
current stream position minus one in run mode, `-1` in direct mode. -/
def trapPos (st : ParserState) (e : RunErrorT) : Int :=
  match e.pos with
  | some p => p
  | none => if st.run_mode then (st.program_pos : Int) - 1 else -1

/-- A parser mid-statement: the statement started at 5, the cursor is 9. -/
def cexState : ParserState :=
  { baseState with run_mode := true, program_pos := 9, current_statement := 5 }

/-- A parser with a trap armed at line 900, which the index maps to 13. -/
def armedState : ParserState :=
  { baseState with
    run_mode := true, program_pos := 9, current_statement := 5,
    on_error := some 900, line_numbers := [(900, 13), (65536, 20)] }

/-! ## Program buffer (program.py)

The `Program` object's state: the bytecode stream, the line-number index,
the protection flag, the last stored line and the code start address. -/

structure ProgramState where
  bytecode : List Nat
  line_numbers : List (Nat × Nat)
  protected_flag : Bool
  last_stored : Option Int
  code_start : Nat

/-- Low byte of the 2-byte little-endian encoding. -/
def encLo (n : Nat) : Nat := n % 256

/-- High byte of the 2-byte little-endian encoding. -/
def encHi (n : Nat) : Nat := n / 256 % 256

/-- `Program.erase`: the empty-program sentinel stream and an index
holding only the 65536 end sentinel. -/
def erase (code_start : Nat) : ProgramState :=
  { bytecode := [0, 0, 0]
    line_numbers := [(65536, 0)]
    protected_flag := false
    last_stored := none
    code_start := code_start }

/-- `Program.get_line_number`: the greatest indexed line number whose
start offset is at most `pos`, or -1. -/
def get_line_number (lns : List (Nat × Nat)) (pos : Nat) : Int :=
  lns.foldl (fun pre p => if p.2 ≤ pos ∧ pre < (p.1 : Int) then (p.1 : Int) else pre) (-1)

/-- Index keys within the (inclusive) line range. -/
def keys_in (lns : List (Nat × Nat)) (a b : Int) : List Nat :=
  (lns.map Prod.fst).filter (fun k => a ≤ (k : Int) ∧ (k : Int) ≤ b)

/-- Index keys strictly above the range. -/
def keys_gt (lns : List (Nat × Nat)) (b : Int) : List Nat :=
  (lns.map Prod.fst).filter (fun k => b < (k : Int))

/-- `Program.find_pos_line_dict`: code positions for a line range —
(start position, position of the first line above the range, deleteable
keys, keys beyond the range). -/
def find_pos_line_dict (lns : List (Nat × Nat)) (fromline toline : Int) :
    Nat × Nat × List Nat × List Nat :=
  let deleteable := keys_in lns fromline toline
  let beyond := keys_gt lns toline
  let afterpos :=
    match beyond.minimum? with
    | some m => (lookupLine lns m).getD 0
    | none => 0
  let startpos :=
    match deleteable.minimum? with
    | some m => (lookupLine lns m).getD 0
    | none => afterpos
  (startpos, afterpos, deleteable, beyond)

/-- Offset-field walk of `Program.update_line_dict`: from the first
next-line-offset field after the edit, shift every in-stream offset by the
byte delta, following the offset chain, until the end marker `00 00`. -/
def update_line_dict_loop (fuel : Nat) (code : List Nat) (pos : Nat)
    (len2 : Int) (addr : Int) : List Nat :=
  match fuel with
  | 0 => code
  | fuel + 1 =>
    match sread code pos 2 with
    | [a1, a2] =>
      if a1 = 0 && a2 = 0 then code
      else
        let next_addr : Int := (dec2 a1 a2 : Nat)
        let code := swrite code pos (enc2 (next_addr + len2).toNat)
        let pos2 := safter code (pos + 2) (next_addr - addr - 2).toNat
        update_line_dict_loop fuel code pos2 len2 next_addr
    | _ => code

/-- `Program.update_line_dict`: after an edit of byte delta
`length - (afterpos - pos)`, shift the in-stream offset chain, delete the
replaced keys from the index and shift the offsets of keys beyond. -/
def update_line_dict (st : ProgramState) (pos afterpos length : Nat)
    (deleteable beyond : List Nat) : ProgramState :=
  let len2 : Int := (length : Int) - ((afterpos : Int) - (pos : Int))
  let addr : Int := (st.code_start : Int) + 1 + (afterpos : Int)
  let start : Int := (afterpos : Int) + len2 + 1
  let code := update_line_dict_loop (st.bytecode.length + 1) st.bytecode
    start.toNat len2 addr
  let lns := st.line_numbers.filter (fun p => decide (p.1 ∉ deleteable))
  let lns := lns.map (fun p =>
    if p.1 ∈ beyond then (p.1, ((p.2 : Int) + len2).toNat) else p)
  { st with bytecode := code, line_numbers := lns }

/-- Insert or overwrite a key in the index (`line_numbers[k] = v`). -/
def lns_set (lns : List (Nat × Nat)) (k v : Nat) : List (Nat × Nat) :=
  if (lookupLine lns k).isSome then
    lns.map (fun p => if p.1 = k then (k, v) else p)
  else lns ++ [(k, v)]

/-- `Program.store_line`: insert, replace or delete (empty body) the line
at the line number encoded in the line buffer.  IllegalFunctionCall on a
protected program; UndefinedLineNumber when an empty-body line targets an
absent line. -/
def store_line (st : ProgramState) (linebuf : List Nat) :
    Except RunErrorT ProgramState :=
  if st.protected_flag then .error ⟨err.IFC, none⟩
  else
    let (scanline?, p1) := parse_line_number linebuf 1
    let scanline : Int :=
      match scanline? with
      | some n => (n : Int)
      | none => -1
    let (c?, _) := skip_white_read linebuf p1
    let empty : Bool :=
      match c? with
      | none => true
      | some c => decide (c = 0)
    let (pos, afterpos, deleteable, beyond) :=
      find_pos_line_dict st.line_numbers scanline scanline
    if empty ∧ deleteable = [] then .error ⟨err.UNDEFINED_LINE_NUMBER, none⟩
    else
      let rest := st.bytecode.drop afterpos
      let length := if empty then 0 else linebuf.length
      let inserted :=
        if empty then []
        else 0 :: (enc2 (st.code_start + 1 + pos + length) ++ linebuf.drop 3)
      let st1 := { st with bytecode := st.bytecode.take pos ++ inserted ++ rest }
      let st2 := update_line_dict st1 pos afterpos length deleteable beyond
      let st3 :=
        if empty then st2
        else { st2 with line_numbers := lns_set st2.line_numbers scanline.toNat pos }
      .ok { st3 with last_stored := some scanline }

/-- `Program.delete`: delete a range of lines.  IllegalFunctionCall when
the range holds no lines. -/
def delete (st : ProgramState) (fromline toline : Option Nat) :
    Except RunErrorT ProgramState :=
  let fromline : Int :=
    match fromline with
    | some n => (n : Int)
    | none => ((st.line_numbers.map Prod.fst).minimum?.getD 0 : Nat)
  let toline : Int :=
    match toline with
    | some n => (n : Int)
    | none => 65535
  let (startpos, afterpos, deleteable, beyond) :=
    find_pos_line_dict st.line_numbers fromline toline
  if deleteable = [] then .error ⟨err.IFC, none⟩
  else
    let st1 := { st with bytecode := st.bytecode.take startpos ++ st.bytecode.drop afterpos }
    .ok (update_line_dict st1 startpos afterpos 0 deleteable beyond)

/-- Ascending sort (Python `sorted`). -/
def sortNat (l : List Nat) : List Nat := l.insertionSort (· ≤ ·)

/-- New-number assignment loop of `Program.renum`: walk the sorted old
line numbers, failing with IllegalFunctionCall when a line below 65535
would get a number above 65529, stopping at the 65536 sentinel, tracking
`last_stored`. -/
def renum_assign (stepn : Nat) :
    List Nat → Nat → Option Int → Except RunErrorT (List (Nat × Nat)) × Option Int
  | [], _, ls => (.ok [], ls)
  | k :: rest, new_line, ls =>
    if k < 65535 ∧ 65529 < new_line then (.error ⟨err.IFC, none⟩, ls)
    else if k = 65536 then (.ok [], ls)
    else
      match renum_assign stepn rest (new_line + stepn) (some (new_line : Int)) with
      | (.ok m, ls2) => (.ok ((k, new_line) :: m), ls2)
      | (.error e, ls2) => (.error e, ls2)

/-- The `ERROR GOTO` detection of the renumber loop: from the jump
token's marker (three bytes before the cursor), skip whitespace backwards
and test for the GOTO token, then again for the ERROR token. -/
def errGotoCheck (code : List Nat) (pP : Nat) : Bool :=
  match backskip_white code (pP - 3) with
  | (some b1, q1) =>
    if b1 = tk.GOTO then
      match backskip_white code q1 with
      | (some b2, _) => b2 = tk.ERROR
      | (none, _) => false
    else false
  | (none, _) => false

/-- Jump-number rewrite loop of `Program.renum` (lines 250-273): find each
jump-number token, special-case a zero target immediately preceded by the
`ERROR GOTO` byte pair, rewrite renumbered targets, and report targets
absent from the (old) index with a printed notice. -/
def renum_jumps (lnsOld o2n : List (Nat × Nat)) :
    Nat → List Nat → Nat → List ScreenMsg → List Nat × List ScreenMsg
  | 0, code, _, acc => (code, acc)
  | fuel + 1, code, pos, acc =>
    match skip_to_read code pos [tk.T_UINT] with
    | (some c, p1) =>
      if c = tk.T_UINT then
        match sread code p1 2 with
        | [a1, a2] =>
          let jumpnum := dec2 a1 a2
          let pP := safter code p1 2
          let skipErrGoto : Bool :=
            if jumpnum = 0 then errGotoCheck code pP else false
          if skipErrGoto then renum_jumps lnsOld o2n fuel code pP acc
          else
            match lookupLine o2n jumpnum with
            | some newjump =>
              renum_jumps lnsOld o2n fuel (swrite code (pP - 2) (enc2 newjump)) pP acc
            | none =>
              let acc :=
                if (lookupLine lnsOld jumpnum).isSome then acc
                else acc ++ [.undefLine jumpnum (get_line_number lnsOld (pP - 1))]
              renum_jumps lnsOld o2n fuel (swrite code (pP - 2) (enc2 jumpnum)) pP acc
        | _ => (code, acc)
      else (code, acc)
    | (none, _) => (code, acc)

/-- `Program.renum`: renumber the stored program — assign new numbers,
rewrite each line's own number field, rewrite every jump-number token,
rebuild the index.  Returns the new state, the printed notices and the
old-to-new mapping; on failure the stream and the index are untouched
(only `last_stored` may already have moved). -/
def renum (st : ProgramState) (new_line start_line stepn : Option Nat) :
    Except (RunErrorT × ProgramState) (ProgramState × List ScreenMsg × List (Nat × Nat)) :=
  let new_line := new_line.getD 10
  let start_line := start_line.getD 0
  let stepn := stepn.getD 10
  let keys := sortNat ((st.line_numbers.map Prod.fst).filter (fun k => start_line ≤ k))
  match renum_assign stepn keys new_line st.last_stored with
  | (.error e, ls2) => .error (e, { st with last_stored := ls2 })
  | (.ok old_to_new, ls2) =>
    let st := { st with last_stored := ls2 }
    -- write the new numbers into each line's number field
    let code := old_to_new.foldl (fun code kv =>
      match lookupLine st.line_numbers kv.1 with
      | some pos => swrite code (pos + 3) (enc2 kv.2)
      | none => code) st.bytecode
    -- write the indirect line numbers
    let (code, notices) := renum_jumps st.line_numbers old_to_new
      (code.length + 1) code 0 []
    -- rebuild the line number dictionary
    let removed := st.line_numbers.filter
      (fun p => decide ((lookupLine old_to_new p.1).isSome = false))
    let lns := old_to_new.foldl
      (fun l kv => lns_set l kv.2 ((lookupLine st.line_numbers kv.1).getD 0)) removed
    .ok ({ st with bytecode := code, line_numbers := lns }, notices, old_to_new)

/-- Reading a line header at an index offset: the line number encoded two
bytes past the offset field that starts one byte in (none when the offset
field is the end marker). -/
def readLineHeader (code : List Nat) (off : Nat) : Option Nat :=
  (parse_line_number code (off + 1)).1

/-! ## A byte-grammar for statement bodies (for the renumber theorem)

A well-formed stream, as the jump-rewrite loop of `renum` walks it, is a
sequence of units — plain one-byte tokens, five-byte line headers, and
three-byte jump-number tokens — closed by the `00 00 00` sentinel. -/

/-- One stream unit. -/
inductive SU where
  | pl (b : Nat)
  | hd (addr num : Nat)
  | un (v : Nat)
deriving Repr, DecidableEq

/-- Bytes of one unit. -/
def suBytes : SU → List Nat
  | .pl b => [b]
  | .hd addr num => 0 :: (enc2 addr ++ enc2 num)
  | .un v => tk.T_UINT :: enc2 v

/-- Bytes of a unit sequence. -/
def susBytes (us : List SU) : List Nat := (us.map suBytes).join

/-- Well-formedness of one unit: a plain byte is nonzero, not a quote,
not REM, and not a multi-byte token lead; a header's offset field is not
the end marker; a jump number fits in two bytes. -/
def suOK : SU → Prop
  | .pl b => 0 < b ∧ b < 256 ∧ b ≠ 34 ∧ b ≠ tk.REM ∧ tk.plus_bytes b = 0
  | .hd addr _ => ¬(encLo addr = 0 ∧ encHi addr = 0)
  | .un v => v < 65536

/-- Number of jump-number tokens in a unit sequence. -/
def uintCount : List SU → Nat
  | [] => 0
  | .un _ :: us => uintCount us + 1
  | .pl _ :: us => uintCount us
  | .hd _ _ :: us => uintCount us

/-- The `ERROR GOTO` byte test of the renumber loop, expressed on the
reversed list of bytes preceding a jump token's marker: the first non-white
byte going backwards is the GOTO token, and the one before it the ERROR
token. -/
def errorGotoZero (prevRev : List Nat) : Bool :=
  match prevRev.dropWhile isWS with
  | b1 :: rest1 =>
    if b1 = tk.GOTO then
      match rest1.dropWhile isWS with
      | b2 :: _ => b2 = tk.ERROR
      | [] => false
    else false
  | [] => false

/-- The specification of the jump-rewrite pass, unit by unit: a jump
number with a renumbered target is rewritten to it; a zero jump number
immediately preceded by the `ERROR GOTO` byte pair is left untouched; any
other jump number keeps its value, and is reported with an `Undefined
line` notice exactly when it is absent from the (old) index.  `prevRev`
is the reversed byte stream already emitted, `pos` the stream position. -/
def renumJumpSpec (lnsOld o2n : List (Nat × Nat)) :
    List SU → List Nat → Nat → List SU × List ScreenMsg
  | [], _, _ => ([], [])
  | .pl b :: us, prev, pos =>
    let (us2, m) := renumJumpSpec lnsOld o2n us (b :: prev) (pos + 1)
    (.pl b :: us2, m)
  | .hd addr num :: us, prev, pos =>
    let (us2, m) := renumJumpSpec lnsOld o2n us
      (encHi num :: encLo num :: encHi addr :: encLo addr :: 0 :: prev) (pos + 5)
    (.hd addr num :: us2, m)
  | .un v :: us, prev, pos =>
    if v = 0 ∧ errorGotoZero prev then
      let (us2, m) := renumJumpSpec lnsOld o2n us
        (encHi v :: encLo v :: tk.T_UINT :: prev) (pos + 3)
      (.un v :: us2, m)
    else
      match lookupLine o2n v with
      | some nj =>
        let (us2, m) := renumJumpSpec lnsOld o2n us
          (encHi nj :: encLo nj :: tk.T_UINT :: prev) (pos + 3)
        (.un nj :: us2, m)
      | none =>
        let (us2, m) := renumJumpSpec lnsOld o2n us
          (encHi v :: encLo v :: tk.T_UINT :: prev) (pos + 3)
        if (lookupLine lnsOld v).isSome then (.un v :: us2, m)
        else (.un v :: us2, .undefLine v (get_line_number lnsOld (pos + 2)) :: m)

/-! ## Concrete program-buffer states -/

/-- The failing operation sequence for the index invariant: store lines
10 and 20, renumber line 20 to 5 (`renum(5, 15, 1)` — legal, but it makes
stream order diverge from numeric order), then store line 7.  `none`
would mean one of the operations raised. -/
def c1run : Option ProgramState :=
  (store_line (erase 0) [0, 192, 222, 10, 0, 65]).toOption.bind fun s1 =>
  (store_line s1 [0, 192, 222, 20, 0, 66]).toOption.bind fun s2 =>
  (renum s2 (some 5) (some 15) (some 1)).toOption.bind fun r3 =>
  (store_line r3.1 [0, 192, 222, 7, 0, 67]).toOption

/-- A program whose single stored line is 65535 (reachable only in
tokenised form), with one body byte. -/
def c5state : ProgramState :=
  { bytecode := [0, 7, 0, 255, 255, 66, 0, 0, 0]
    line_numbers := [(65535, 0), (65536, 6)]
    protected_flag := false
    last_stored := none
    code_start := 0 }

/-- A program with lines 10 and 20. -/
def c5wit : ProgramState :=
  { bytecode := [0, 7, 0, 10, 0, 65, 0, 13, 0, 20, 0, 66, 0, 0, 0]
    line_numbers := [(10, 0), (20, 6), (65536, 12)]
    protected_flag := false
    last_stored := none
    code_start := 0 }

/-- A program whose single line 100 reads `GOTO 50`: a GOTO token followed
by a jump-number token for the absent line 50. -/
def c4state : ProgramState :=
  { bytecode := [0, 10, 0, 100, 0, tk.GOTO, tk.T_UINT, 50, 0, 0, 0, 0]
    line_numbers := [(100, 0), (65536, 9)]
    protected_flag := false
    last_stored := none
    code_start := 0 }

/-- Repeated NEXT: `iterateCalls pos k st` performs `k` successive
`loop_iterate` calls at the same NEXT offset (as the drive loop does while
a FOR loop runs), reporting the state and the last call's outcome. -/
def iterateCalls (pos : Nat) : Nat → ParserState → Except RunErrorT (ParserState × Bool)
  | 0, st => .ok (st, true)
  | k + 1, st =>
    match iterateCalls pos k st with
    | .ok (s, _) => loop_iterate s pos
    | .error e => .error e

/-! ## Tokeniser (tokenise.py)

The text-to-bytecode codec of `tokenise.py`: `tokenise_line` and
`detokenise_line` with their helpers, over byte lists.  The keyword byte
table itself lives in `basictoken.py`, outside the excerpt, and is
modelled from the spec (§4.1 keyword tokens, classic token assignments);
the numeric-literal codec lives in `representation.py`, also outside the
excerpt, and is modelled from the spec (§4.1 numeric token forms).  The
tokeniser is embedded with the debug/pcjr/tandy syntax extensions off.
The byte-position-to-text-position return component of
`detokenise_line`/`detokenise_compound_statement` (used only to place
the EDIT cursor) is omitted; no property below concerns it. -/

namespace tk

def GOSUB : Nat := 0x8D

def RUN : Nat := 0x8A

def THEN : Nat := 0xCF

def RETURN : Nat := 0x8E

def RESTORE : Nat := 0x8C

def LIST : Nat := 0x93

def RENUM : Nat := 0xAB

def EDIT : Nat := 0xA6

def LLIST : Nat := 0x9E

def DELETE : Nat := 0xA9

def RESUME : Nat := 0xA8

def AUTO : Nat := 0xAA

def USR : Nat := 0xD0

def FN : Nat := 0xD1

def SPC : Nat := 0xD2

def TAB : Nat := 0xD3

/-- Modelled from the spec: the operator token bytes. -/
def isOperatorToken (b : Nat) : Bool :=
  b = 0xE6 || b = 0xE7 || b = 0xE8 || b = 0xE9 || b = 0xEA ||
  b = 0xEB || b = 0xEC || b = 0xED || b = 0xF4

/-- Modelled from the spec: the numeric-token lead bytes (`tk.number`):
octal, hex, byte, the inline constants 0-10, integer, single, double. -/
def isNumberToken (b : Nat) : Bool :=
  b = 0x0B || b = 0x0C || b = 0x0F || (0x11 ≤ b && b ≤ 0x1B) ||
  b = 0x1C || b = 0x1D || b = 0x1F

/-- Modelled from the spec: the jump-number token bytes (`tk.linenum`):
line pointer and line number. -/
def isLinenumToken (b : Nat) : Bool := b = 0x0D || b = 0x0E

/-- Modelled from the spec: `tk.name_chars` — letters, digits and the
dot are BASIC name characters. -/
def isNameChar (b : Nat) : Bool := isLetter b || isDigit b || b = 46

end tk

/-- Upper-casing of an ASCII byte (Python `str.upper` per byte). -/
def toUpperB (b : Nat) : Nat := if 97 ≤ b ∧ b ≤ 122 then b - 32 else b

/-- The operator characters of `Tokeniser._ascii_operators`. -/
def isOperatorChar (b : Nat) : Bool :=
  b = 43 || b = 45 || b = 61 || b = 47 || b = 92 || b = 94 ||
  b = 42 || b = 60 || b = 62

/-- Keyword text bytes of `END`. -/
def kwEND : List Nat := [69, 78, 68]

/-- Keyword text bytes of `FOR`. -/
def kwFOR : List Nat := [70, 79, 82]

/-- Keyword text bytes of `NEXT`. -/
def kwNEXT : List Nat := [78, 69, 88, 84]

/-- Keyword text bytes of `DATA`. -/
def kwDATA : List Nat := [68, 65, 84, 65]

/-- Keyword text bytes of `INPUT`. -/
def kwINPUT : List Nat := [73, 78, 80, 85, 84]

/-- Keyword text bytes of `LET`. -/
def kwLET : List Nat := [76, 69, 84]

/-- Keyword text bytes of `GOTO`. -/
def kwGOTO : List Nat := [71, 79, 84, 79]

/-- Keyword text bytes of `RUN`. -/
def kwRUN : List Nat := [82, 85, 78]

/-- Keyword text bytes of `IF`. -/
def kwIF : List Nat := [73, 70]

/-- Keyword text bytes of `RESTORE`. -/
def kwRESTORE : List Nat := [82, 69, 83, 84, 79, 82, 69]

/-- Keyword text bytes of `GOSUB`. -/
def kwGOSUB : List Nat := [71, 79, 83, 85, 66]

/-- Keyword text bytes of `RETURN`. -/
def kwRETURN : List Nat := [82, 69, 84, 85, 82, 78]

/-- Keyword text bytes of `REM`. -/
def kwREM : List Nat := [82, 69, 77]

/-- Keyword text bytes of `STOP`. -/
def kwSTOP : List Nat := [83, 84, 79, 80]

/-- Keyword text bytes of `PRINT`. -/
def kwPRINT : List Nat := [80, 82, 73, 78, 84]

/-- Keyword text bytes of `LIST`. -/
def kwLIST : List Nat := [76, 73, 83, 84]

/-- Keyword text bytes of `NEW`. -/
def kwNEW : List Nat := [78, 69, 87]

/-- Keyword text bytes of `LLIST`. -/
def kwLLIST : List Nat := [76, 76, 73, 83, 84]

/-- Keyword text bytes of `ELSE`. -/
def kwELSE : List Nat := [69, 76, 83, 69]

/-- Keyword text bytes of `EDIT`. -/
def kwEDIT : List Nat := [69, 68, 73, 84]

/-- Keyword text bytes of `ERROR`. -/
def kwERROR : List Nat := [69, 82, 82, 79, 82]

/-- Keyword text bytes of `RESUME`. -/
def kwRESUME : List Nat := [82, 69, 83, 85, 77, 69]

/-- Keyword text bytes of `DELETE`. -/
def kwDELETE : List Nat := [68, 69, 76, 69, 84, 69]

/-- Keyword text bytes of `AUTO`. -/
def kwAUTO : List Nat := [65, 85, 84, 79]

/-- Keyword text bytes of `RENUM`. -/
def kwRENUM : List Nat := [82, 69, 78, 85, 77]

/-- Keyword text bytes of `WHILE`. -/
def kwWHILE : List Nat := [87, 72, 73, 76, 69]

/-- Keyword text bytes of `WEND`. -/
def kwWEND : List Nat := [87, 69, 78, 68]

/-- Keyword text bytes of `CLS`. -/
def kwCLS : List Nat := [67, 76, 83]

/-- Keyword text bytes of `BEEP`. -/
def kwBEEP : List Nat := [66, 69, 69, 80]

/-- Keyword text bytes of `TO`. -/
def kwTO : List Nat := [84, 79]

/-- Keyword text bytes of `THEN`. -/
def kwTHEN : List Nat := [84, 72, 69, 78]

/-- Keyword text bytes of `USR`. -/
def kwUSR : List Nat := [85, 83, 82]

/-- Keyword text bytes of `FN`. -/
def kwFN : List Nat := [70, 78]

/-- Keyword text bytes of `SPC(`. -/
def kwSPCb : List Nat := [83, 80, 67, 40]

/-- Keyword text bytes of `TAB(`. -/
def kwTABb : List Nat := [84, 65, 66, 40]

/-- Keyword text bytes of `the REM quote mark`. -/
def kwQuote : List Nat := [39]

/-- Keyword text bytes of `ERL`. -/
def kwERL : List Nat := [69, 82, 76]

/-- Keyword text bytes of `>`. -/
def kwGt : List Nat := [62]

/-- Keyword text bytes of `=`. -/
def kwEq : List Nat := [61]

/-- Keyword text bytes of `<`. -/
def kwLt : List Nat := [60]

/-- Keyword text bytes of `+`. -/
def kwPlus : List Nat := [43]

/-- Keyword text bytes of `-`. -/
def kwMinus : List Nat := [45]

/-- Keyword text bytes of `*`. -/
def kwTimes : List Nat := [42]

/-- Keyword text bytes of `/`. -/
def kwDiv : List Nat := [47]

/-- Keyword text bytes of `^`. -/
def kwCaret : List Nat := [94]

/-- Keyword text bytes of `backslash`. -/
def kwIntdiv : List Nat := [92]

/-- Keyword text bytes of `GO` (the lookahead special case only; not a
table keyword). -/
def kwGO : List Nat := [71, 79]

/-- Modelled from the spec: the fixed keyword table (`basictoken.keyword`,
outside the excerpt) pairing each keyword text with its one- or two-byte
token, with the classic token byte assignments.  Only the pairing and the
distinctness of entries matter to the development. -/
def keywordTable : List (List Nat × List Nat) :=
[(kwEND, [0x81]),
   (kwFOR, [0x82]),
   (kwNEXT, [0x83]),
   (kwDATA, [0x84]),
   (kwINPUT, [0x85]),
   (kwLET, [0x88]),
   (kwGOTO, [0x89]),
   (kwRUN, [0x8A]),
   (kwIF, [0x8B]),
   (kwRESTORE, [0x8C]),
   (kwGOSUB, [0x8D]),
   (kwRETURN, [0x8E]),
   (kwREM, [0x8F]),
   (kwSTOP, [0x90]),
   (kwPRINT, [0x91]),
   (kwLIST, [0x93]),
   (kwNEW, [0x94]),
   (kwLLIST, [0x9E]),
   (kwELSE, [0xA1]),
   (kwEDIT, [0xA6]),
   (kwERROR, [0xA7]),
   (kwRESUME, [0xA8]),
   (kwDELETE, [0xA9]),
   (kwAUTO, [0xAA]),
   (kwRENUM, [0xAB]),
   (kwWHILE, [0xB1]),
   (kwWEND, [0xB2]),
   (kwCLS, [0xC0]),
   (kwBEEP, [0xC5]),
   (kwTO, [0xCD]),
   (kwTHEN, [0xCF]),
   (kwUSR, [0xD0]),
   (kwFN, [0xD1]),
   (kwSPCb, [0xD2]),
   (kwTABb, [0xD3]),
   (kwQuote, [0xD9]),
   (kwERL, [0xFF, 0x01]),
   (kwGt, [0xE6]),
   (kwEq, [0xE7]),
   (kwLt, [0xE8]),
   (kwPlus, [0xE9]),
   (kwMinus, [0xEA]),
   (kwTimes, [0xEB]),
   (kwDiv, [0xEC]),
   (kwCaret, [0xED]),
   (kwIntdiv, [0xF4])]

/-- `Tokeniser._keyword_to_token`. -/
def keyword_to_token (w : List Nat) : Option (List Nat) :=
  (keywordTable.find? (fun e => e.1 = w)).map Prod.snd

/-- `Tokeniser._token_to_keyword`. -/
def token_to_keyword (t : List Nat) : Option (List Nat) :=
  (keywordTable.find? (fun e => e.2 = t)).map Prod.fst

/-- `Tokeniser._linenum_words`: keywords that may be followed by jump
numbers. -/
def linenum_words : List (List Nat) :=
  [kwGOTO, kwTHEN, kwELSE, kwGOSUB, kwLIST, kwRENUM, kwEDIT, kwLLIST,
   kwDELETE, kwRUN, kwRESUME, kwAUTO, kwERL, kwRESTORE, kwRETURN]

/-- Operator tokens are one-byte strings; the membership tests
`s in tk.operator` of the source, on a token byte string. -/
def tokIsOperator (s : List Nat) : Bool :=
  match s with
  | [b] => tk.isOperatorToken b
  | _ => false

/-- `ascii_read_to`: read bytes until one of `fr` (or end of input) is
found; the bytes read, and the cursor left on the found byte. -/
def ascii_read_to (code : List Nat) (pos : Nat) (fr : List Nat) : List Nat × Nat :=
  let out := (code.drop pos).takeWhile (fun b => decide (b ∉ fr))
  (out, pos + out.length)

/-- Little-endian decimal digits of a number (fuelled; any fuel at least
the digit count, in particular `n + 1`, is exact). -/
def natDigitsAux : Nat → Nat → List Nat
  | 0, _ => []
  | fuel + 1, n => if n = 0 then [] else n % 10 :: natDigitsAux fuel (n / 10)

/-- Decimal text of a number (Python `str(n)` for a nonnegative int). -/
def natToDecimal (n : Nat) : List Nat :=
  if n = 0 then [48] else ((natDigitsAux (n + 1) n).map (fun d => d + 48)).reverse

/-- Modelled from the spec: `representation.uint_token_to_str` — the
decimal text of a 2-byte unsigned jump number. -/
def uint_token_to_str (bs : List Nat) : List Nat :=
  match bs with
  | [a, b] => natToDecimal (dec2 a b)
  | _ => []

/-- Modelled from the spec: `representation.tokenise_number` — re-encode
a numeric literal as a compact numeric token: inline tokens for 0-10, a
byte token up to 255, a 2-byte integer token up to 32767, the 4-byte
single-float token beyond or for fractions, and radix forms after `&`.
The spec fixes the staging, not the float byte layout; the float payload
is modelled as the two low-order bytes of each part. -/
def tokenise_number (code : List Nat) (pos : Nat) : List Nat × Nat :=
  match speek code pos with
  | none => ([], pos)
  | some c =>
    if c = 38 then
      let p1 := pos + 1
      let mk : Bool × Nat :=
        match speek code p1 with
        | some h => if h = 72 ∨ h = 104 then (true, p1 + 1) else (false, p1)
        | none => (false, p1)
      let ds := (code.drop mk.2).takeWhile (fun b => isDigit b || isLetter b)
      ((if mk.1 then [tk.T_HEX] else [tk.T_OCT]) ++
        enc2 (digitsVal (ds.filter isDigit) % 65536), mk.2 + ds.length)
    else
      let ds := (code.drop pos).takeWhile isDigit
      let p1 := pos + ds.length
      if speek code p1 = some 46 then
        let fs := (code.drop (p1 + 1)).takeWhile isDigit
        ([tk.T_SINGLE] ++ enc2 (digitsVal ds % 65536) ++ enc2 (digitsVal fs % 65536),
         p1 + 1 + fs.length)
      else
        let v := digitsVal ds
        if v ≤ 10 then ([17 + v], p1)
        else if v ≤ 255 then ([tk.T_BYTE, v], p1)
        else if v ≤ 32767 then ([tk.T_INT] ++ enc2 v, p1)
        else ([tk.T_SINGLE] ++ enc2 (v % 65536) ++ [0, 0], p1)

/-- Modelled from the spec: `representation.detokenise_number` — render a
numeric token (cursor on the lead byte) as its decimal text, with a radix
prefix for the octal and hex forms; the float forms render the modelled
two-byte payload. -/
def detokenise_number (code : List Nat) (pos : Nat) : List Nat × Nat :=
  match speek code pos with
  | none => ([], pos)
  | some b =>
    if 17 ≤ b ∧ b ≤ 27 then (natToDecimal (b - 17), pos + 1)
    else if b = tk.T_BYTE then
      (natToDecimal ((sread code (pos + 1) 1).headI, safter code (pos + 1) 1).1,
       safter code (pos + 1) 1)
    else if b = tk.T_INT then
      (uint_token_to_str (sread code (pos + 1) 2), safter code (pos + 1) 2)
    else if b = tk.T_OCT then
      ([38, 79] ++ uint_token_to_str (sread code (pos + 1) 2), safter code (pos + 1) 2)
    else if b = tk.T_HEX then
      ([38, 72] ++ uint_token_to_str (sread code (pos + 1) 2), safter code (pos + 1) 2)
    else if b = tk.T_SINGLE then
      (uint_token_to_str (sread code (pos + 1) 2), safter code (pos + 1) 4)
    else if b = tk.T_DOUBLE then
      (uint_token_to_str (sread code (pos + 1) 2), safter code (pos + 1) 8)
    else ([], pos + 1)

/-- `Tokeniser._tokenise_literal`: pass a string literal: the opening
quote, the contents, and the closing quote if present. -/
def tokenise_literal (line : List Nat) (pos : Nat) (out : List Nat) : Nat × List Nat :=
  let q := sread line pos 1
  let pos1 := safter line pos 1
  let r := ascii_read_to line pos1 [13, 0, 34]
  let out2 := out ++ q ++ r.1
  if speek line r.2 = some 34 then (safter line r.2 1, out2 ++ [34])
  else (r.2, out2)

/-- `Tokeniser._tokenise_rem`: pass anything up to end of line as is. -/
def tokenise_rem (line : List Nat) (pos : Nat) (out : List Nat) : Nat × List Nat :=
  let r := ascii_read_to line pos [13, 0]
  (r.2, out ++ r.1)

/-- `Tokeniser._tokenise_data`: pass a DATA tail as is until end of
statement, except for string literals. -/
def tokenise_data (line : List Nat) : Nat → Nat → List Nat → Nat × List Nat
  | 0, pos, out => (pos, out)
  | fuel + 1, pos, out =>
    let r := ascii_read_to line pos [13, 0, 58, 34]
    let out2 := out ++ r.1
    if speek line r.2 = some 34 then
      let l2 := tokenise_literal line r.2 out2
      tokenise_data line fuel l2.1 l2.2
    else (r.2, out2)

/-- `Tokeniser._tokenise_line_number`: encode a leading line number as
NUL + a 2-byte placeholder + the 2-byte number, eating one following
space; an absent number encodes a `:` anchor. -/
def tokenise_line_number (line : List Nat) (pos : Nat) (out : List Nat) : Nat × List Nat :=
  let u := tokenise_uint line pos
  if u.1.isEmpty then (u.2, out ++ [58])
  else
    let out2 := out ++ [0, 0xC0, 0xDE] ++ u.1
    if speek line u.2 = some 32 ∧ u.1 ≠ [0, 0] then (safter line u.2 1, out2)
    else (u.2, out2)

/-- `Tokeniser._tokenise_jump_number`: a jump number becomes the
jump-number token + 2 bytes; a bare dot passes through. -/
def tokenise_jump_number (line : List Nat) (pos : Nat) (out : List Nat) : Nat × List Nat :=
  let u := tokenise_uint line pos
  if ¬ u.1.isEmpty then (u.2, out ++ [tk.T_UINT] ++ u.1)
  else if speek line u.2 = some 46 then (safter line u.2 1, out ++ [46])
  else (u.2, out)

/-- `Tokeniser._tokenise_word`: read a keyword or name.  Accumulates the
upper-cased word; reconciles the `GO TO`/`GO SUB` lookahead; a table hit
not continued by a name character emits the token (with the `:ELSE` and
`WHILE+` rewrites); otherwise the name is emitted as text.  Returns the
word, the cursor and the output. -/
def tokenise_word_loop (line : List Nat) :
    Nat → Nat → List Nat → List Nat → List Nat × Nat × List Nat
  | 0, pos, word, out => (word, pos, out)
  | fuel + 1, pos, word, out =>
    let c? := speek line pos
    let pos1 := match c? with | none => pos | some _ => pos + 1
    let word1 := match c? with | none => word | some c => word ++ [toUpperB c]
    let go : List Nat × Nat :=
      if word1 = kwGO then
        if (sread line pos1 4).map toUpperB = [32, 83, 85, 66] then
          (kwGOSUB, safter line pos1 4)
        else
          let s := skip_white line pos1
          if (sread line s.2 2).map toUpperB = [84, 79] then (kwGOTO, safter line s.2 2)
          else (word1, pos1)
      else (word1, pos1)
    let gofix : List Nat × Nat :=
      if go.1 = kwGOTO ∨ go.1 = kwGOSUB then
        match speek line go.2 with
        | some nxt => if tk.isNameChar nxt then (kwGO, pos1) else go
        | none => go
      else go
    let word3 := gofix.1
    let pos3 := gofix.2
    match keyword_to_token word3 with
    | some token =>
      let longer : Bool :=
        if word3 = kwFN ∨ word3 = kwSPCb ∨ word3 = kwTABb ∨ word3 = kwUSR then false
        else
          match speek line pos3 with
          | some nxt => tk.isNameChar nxt
          | none => false
      if longer then tokenise_word_loop line fuel pos3 word3 out
      else
        let out2 :=
          if word3 = kwELSE then out ++ [58] ++ token
          else if word3 = kwWHILE then out ++ token ++ [tk.O_PLUS]
          else out ++ token
        (word3, pos3, out2)
    | none =>
      match c? with
      | none => (word3, pos3, out ++ word3)
      | some c =>
        if tk.isNameChar c then tokenise_word_loop line fuel pos3 word3 out
        else (word3.dropLast, pos3 - 1, out ++ word3.dropLast)

/-- The main loop of `Tokeniser.tokenise_line` (lines 213-291): dispatch
on the next character, tracking the jump-number, number and SPC(/TAB(
modes. -/
def tokenise_main (line : List Nat) :
    Nat → Nat → List Nat → Bool → Bool → Bool → List Nat
  | 0, _, out, _, _, _ => out
  | fuel + 1, pos, out, allow_jumpnum, allow_number, spc_or_tab =>
    match speek line pos with
    | none => out
    | some c =>
      if c = 0 then out
      else if c = 13 then out
      else if isWS c then
        tokenise_main line fuel (pos + 1) (out ++ [c]) allow_jumpnum allow_number spc_or_tab
      else if c = 34 then
        let l := tokenise_literal line pos out
        tokenise_main line fuel l.1 l.2 allow_jumpnum allow_number spc_or_tab
      else if allow_number = true ∧ allow_jumpnum = true ∧ (isDigit c = true ∨ c = 46) then
        let j := tokenise_jump_number line pos out
        tokenise_main line fuel j.1 j.2 allow_jumpnum allow_number spc_or_tab
      else if c = 38 ∨ c = 46 ∨
          (allow_number = true ∧ allow_jumpnum = false ∧ isDigit c = true) then
        let n := tokenise_number line pos
        tokenise_main line fuel n.2 (out ++ n.1) allow_jumpnum allow_number spc_or_tab
      else if isOperatorChar c then
        tokenise_main line fuel (pos + 1) (out ++ (keyword_to_token [c]).getD [])
          allow_jumpnum true spc_or_tab
      else if c = 39 then
        let r := tokenise_rem line (pos + 1) (out ++ [58, tk.REM, tk.O_REM])
        tokenise_main line fuel r.1 r.2 allow_jumpnum allow_number spc_or_tab
      else if c = 63 then
        tokenise_main line fuel (pos + 1) (out ++ [tk.PRINT]) allow_jumpnum true spc_or_tab
      else if isLetter c then
        let w := tokenise_word_loop line (line.length + 1) pos [] out
        if w.1 = kwREM ∨ w.1 = [39] then
          let r := tokenise_rem line w.2.1 w.2.2
          tokenise_main line fuel r.1 r.2 allow_jumpnum allow_number spc_or_tab
        else if w.1 = kwDATA then
          let d := tokenise_data line (line.length + 1) w.2.1 w.2.2
          tokenise_main line fuel d.1 d.2 allow_jumpnum allow_number spc_or_tab
        else
          tokenise_main line fuel w.2.1 w.2.2 (decide (w.1 ∈ linenum_words))
            (keyword_to_token w.1).isSome
            (if w.1 = kwSPCb ∨ w.1 = kwTABb then true else spc_or_tab)
      else
        let flags : Bool × Bool × Bool :=
          if c = 44 ∨ c = 35 ∨ c = 59 then (allow_jumpnum, true, spc_or_tab)
          else if c = 40 ∨ c = 91 then (false, true, spc_or_tab)
          else if c = 41 ∧ spc_or_tab = true then (false, true, false)
          else (false, false, spc_or_tab)
        tokenise_main line fuel (pos + 1)
          (out ++ [if 32 ≤ c ∧ c ≤ 127 then c else 32]) flags.1 flags.2.1 flags.2.2

/-- `Tokeniser.tokenise_line`: skip leading whitespace, encode the line
number, then tokenise the statement text.  Returns the output buffer. -/
def tokenise_line (line : List Nat) : List Nat :=
  let s := skip_white line 0
  match s.1 with
  | none => []
  | some _ =>
    let h := tokenise_line_number line s.2 []
    tokenise_main line (line.length + 1) h.1 h.2 false true false

/-- `Tokeniser._detokenise_keyword`: convert a one- or two-byte keyword
token to text, inserting a separating space after a letter or digit,
handling the REM-quote collapse and the `:REM` / `WHILE+` / `ELSE` tail
rewrites, and appending a separating space before a following token or
number.  Returns the comment flag, the cursor and the output. -/
def detokenise_keyword (code : List Nat) (pos : Nat) (out : List Nat) :
    Bool × Nat × List Nat :=
  let s1 := sread code pos 1
  let pos1 := safter code pos 1
  let hit : Option (List Nat × List Nat × Nat) :=
    match token_to_keyword s1 with
    | some kw => some (s1, kw, pos1)
    | none =>
      let s2 := s1 ++ sread code pos1 1
      match token_to_keyword s2 with
      | some kw => some (s2, kw, safter code pos1 1)
      | none => none
  match hit with
  | none => (false, pos1, out ++ s1.take 1)
  | some (s, kw, p) =>
    let out1 :=
      if out ≠ [] ∧ (isDigit (out.getLastD 48) = true ∨ isLetter (out.getLastD 48) = true) ∧
          tokIsOperator s = false then
        out ++ [32]
      else out
    let out2 := out1 ++ kw
    let rem : Bool × Nat × List Nat :=
      if kw = [39] then (true, p, out2)
      else if kw = kwREM then
        match speek code p with
        | none => (true, p, out2)
        | some nb => if nb = tk.O_REM then (true, p + 1, out2 ++ [39]) else (true, p, out2)
      else (false, p, out2)
    let o := rem.2.2
    let o1 :=
      if 4 < o.length ∧ o.drop (o.length - 5) = [58, 82, 69, 77, 39] then
        o.take (o.length - 5) ++ [39]
      else if 5 < o.length ∧ o.drop (o.length - 6) = [87, 72, 73, 76, 69, 43] then
        o.dropLast
      else if 4 < o.length ∧ o.drop (o.length - 4) = [69, 76, 83, 69] then
        if 5 < o.length ∧ o.get? (o.length - 5) = some 58 ∧
            ((o.get? (o.length - 6)).getD 0 |> isDigit) = true then
          o.take (o.length - 5) ++ [32, 69, 76, 83, 69]
        else o.take (o.length - 5) ++ [69, 76, 83, 69]
      else o
    let sep : Bool :=
      if rem.1 = true then false
      else
        match speek code rem.2.1 with
        | none => false
        | some nb =>
          if nb = 0 ∨ tk.isOperatorToken nb = true ∨ nb = tk.O_REM ∨ nb = 34 ∨ nb = 44 ∨
              nb = 32 ∨ nb = 58 ∨ nb = 40 ∨ nb = 41 ∨ nb = 36 ∨ nb = 37 ∨ nb = 33 ∨
              nb = 35 ∨ nb = 95 ∨ nb = 64 ∨ nb = 126 ∨ nb = 124 ∨ nb = 96 then false
          else if tokIsOperator s = true ∨ s = [tk.SPC] ∨ s = [tk.TAB] ∨ s = [tk.USR] ∨
              s = [tk.FN] then false
          else true
    (rem.1, rem.2.1, if sep then o1 ++ [32] else o1)

/-- The loop of `Tokeniser.detokenise_compound_statement`: detokenise
tokens until end of line, tracking the literal-string and comment
modes. -/
def detok_loop (code : List Nat) :
    Nat → Nat → List Nat → Bool → Bool → List Nat × Nat
  | 0, pos, out, _, _ => (out, pos)
  | fuel + 1, pos, out, litstring, comment =>
    match speek code pos with
    | none => (out, pos)
    | some s =>
      if s = 0 then (out, pos + 1)
      else if s = 34 then detok_loop code fuel (pos + 1) (out ++ [34]) (!litstring) comment
      else if tk.isNumberToken s then
        let n := detokenise_number code pos
        detok_loop code fuel n.2 (out ++ n.1) litstring comment
      else if tk.isLinenumToken s then
        detok_loop code fuel (safter code (pos + 1) 2)
          (out ++ uint_token_to_str (sread code (pos + 1) 2)) litstring comment
      else if comment = true ∨ litstring = true ∨ (32 ≤ s ∧ s ≤ 126) then
        detok_loop code fuel (pos + 1) (out ++ [s]) litstring comment
      else if s = 10 then detok_loop code fuel (pos + 1) (out ++ [10, 13]) litstring comment
      else if s ≤ 9 then detok_loop code fuel (pos + 1) (out ++ [s]) litstring comment
      else
        let k := detokenise_keyword code pos out
        detok_loop code fuel k.2.1 k.2.2 litstring k.1

/-- `Tokeniser.detokenise_line`: parse the line-number header, render the
line number followed by one space (unless a tab follows, or after line
number 0 with its optional space), then detokenise the statement text.
Returns the line number (-1 at end of program), the text and the final
cursor. -/
def detokenise_line (code : List Nat) (pos : Nat) : Int × List Nat × Nat :=
  let h := parse_line_number code pos
  match h.1 with
  | none => (-1, [], h.2)
  | some current_line =>
    let pos2 :=
      if current_line = 0 ∧ speek code h.2 = some 32 then h.2 + 1 else h.2
    let linum := natToDecimal current_line
    let linum2 := if speek code pos2 = some 9 then linum else linum ++ [32]
    let b := detok_loop code (code.length + 1) pos2 [] false false
    ((current_line : Int), linum2 ++ b.1, b.2)

/-! ## A text grammar for the round-trip property

A simple statement line: a line number (decimal digits without a leading
zero, value below 65530), one space, then a body of spaces and keyword
words.  A keyword word is typed in either case, is letters only, maps to
a one-byte statement token, is none of the keywords with special
tokenisation (REM, DATA, ELSE, WHILE, the bracket/function keywords) nor
a word starting with the `GO` lookahead prefix, has no proper prefix in
the keyword table, and is followed by a space or the end of the line. -/

/-- One body item: a space or a keyword word (its bytes as typed). -/
inductive BItem where
  | sp
  | kw (w : List Nat)
deriving Repr, DecidableEq

/-- Text bytes of one body item, as typed. -/
def bitemText : BItem → List Nat
  | .sp => [32]
  | .kw w => w

/-- Text of a body. -/
def bodyText (items : List BItem) : List Nat := (items.map bitemText).join

/-- Canonical (listed) text of one body item: keywords upper-cased. -/
def bitemCanon : BItem → List Nat
  | .sp => [32]
  | .kw w => w.map toUpperB

/-- Canonical text of a body. -/
def bodyCanon (items : List BItem) : List Nat := (items.map bitemCanon).join

/-- Token bytes of one body item. -/
def bitemToken : BItem → List Nat
  | .sp => [32]
  | .kw w => (keyword_to_token (w.map toUpperB)).getD []

/-- Token bytes of a body. -/
def btokens (items : List BItem) : List Nat := (items.map bitemToken).join

/-- A simple keyword word (see the section comment). -/
def simpleKW (w : List Nat) : Bool :=
  decide (w ≠ []) && w.all (fun b => isLetter b) &&
  decide ((w.map toUpperB).take 2 ≠ kwGO) &&
  (keyword_to_token (w.map toUpperB)).isSome &&
  decide (((keyword_to_token (w.map toUpperB)).getD []).length = 1) &&
  decide (128 ≤ ((keyword_to_token (w.map toUpperB)).getD []).getD 0 0) &&
  decide (w.map toUpperB ∉ [kwREM, kwDATA, kwELSE, kwWHILE, kwFN, kwSPCb, kwTABb, kwUSR]) &&
  !([69, 76, 83, 69].isSuffixOf (w.map toUpperB)) &&
  (List.range w.length).all (fun k => (keyword_to_token ((w.map toUpperB).take k)).isNone)

/-- A well-formed body: every keyword is simple and is followed by a
space or the end of the line. -/
def bodyOK : List BItem → Bool
  | [] => true
  | .sp :: rest => bodyOK rest
  | .kw w :: rest =>
    simpleKW w &&
    (match rest with
     | [] => true
     | .sp :: _ => true
     | .kw _ :: _ => false) &&
    bodyOK rest

/-- A simple line number: nonempty decimal digits, no leading zero,
value below 65530. -/
def simpleLineNum (ds : List Nat) : Bool :=
  decide (ds ≠ []) && ds.all isDigit && decide (ds.head? ≠ some 48) &&
  decide (digitsVal ds < 65530)


/-! # Theorems

Helper lemmas first, then the claim theorems with their witnesses
and counterexamples. -/

theorem isWS_eq_false_of_isDigit {b : Nat} (h : isDigit b = true) : isWS b = false := by
  simp only [isDigit, Bool.and_eq_true, decide_eq_true_eq] at h
  simp only [isWS, Bool.or_eq_false_iff, decide_eq_false_iff_not]
  omega

theorem takeWhile_append_all {p : Nat → Bool} {ds rest : List Nat}
    (hds : ∀ b ∈ ds, p b = true)
    (hrest : ∀ b, rest.head? = some b → p b = false) :
    (ds ++ rest).takeWhile p = ds := by
  induction ds with
  | nil =>
    simp only [List.nil_append]
    cases rest with
    | nil => rfl
    | cons r rs =>
      have := hrest r rfl
      simp [List.takeWhile_cons, this]
  | cons d ds ih =>
    have hd : p d = true := hds d (by simp)
    simp only [List.cons_append, List.takeWhile_cons, hd]
    have := ih (fun b hb => hds b (by simp [hb]))
    simp [this]

theorem dropWhile_eq_self_of_head {p : Nat → Bool} {l : List Nat}
    (h : ∀ b, l.head? = some b → p b = false) :
    l.dropWhile p = l := by
  cases l with
  | nil => rfl
  | cons x xs =>
    have := h x rfl
    simp [List.dropWhile_cons, this]

/-- Claim C8 (counterexample): on the digit run `65530 1` (with an embedded
space) in jump-number position, the claim demands that only the first four
digits `6553` be consumed, leaving the cursor at offset 4 so the remaining
digits `01` are pushed back.  The code instead backtracks by the number of
digits only: it leaves the cursor at offset 5, so the fifth digit `0` is
consumed but neither part of the returned number (6553) nor pushed back. -/
theorem C8_counterexample :
    tokenise_uint [54, 53, 53, 51, 48, 32, 49] 0 = ([153, 25], 5) ∧
    (tokenise_uint [54, 53, 53, 51, 48, 32, 49] 0).2 ≠ 4 := by
  constructor
  · decide
  · decide

/-- Claim C8 (amended): when tokenising a jump number whose digit sequence
denotes a value of 65530 or more and contains no embedded whitespace, only
the first four digits are consumed as the jump number (the cursor ends
exactly four characters past its start) and the remaining digits are pushed
back onto the input to be tokenised as a separate trailing token; the
returned token payload encodes the value of the first four digits. -/
theorem C8_tokenise_uint_four_digits (pre ds rest : List Nat)
    (hne : ds ≠ [])
    (hdig : ∀ b ∈ ds, isDigit b = true)
    (hval : 65530 ≤ digitsVal ds)
    (hrest : ∀ b, rest.head? = some b → isDigit b = false ∧ isWS b = false) :
    tokenise_uint (pre ++ (ds ++ rest)) pre.length =
      (enc2 (digitsVal (ds.take 4)), pre.length + 4) := by
  have pred_ds : ∀ b ∈ ds, (isDigit b || isWS b) = true := fun b hb => by
    simp [hdig b hb]
  have pred_rest : ∀ b, rest.head? = some b → (isDigit b || isWS b) = false := fun b hb => by
    rcases hrest b hb with ⟨h1, h2⟩
    simp [h1, h2]
  have hrun : (ds ++ rest).takeWhile (fun b => isDigit b || isWS b) = ds :=
    takeWhile_append_all pred_ds pred_rest
  have hws_rev : ds.reverse.dropWhile isWS = ds.reverse :=
    dropWhile_eq_self_of_head (fun b hb => by
      have hmem : b ∈ ds := by
        have hrev : b ∈ ds.reverse := List.mem_of_mem_head? hb
        simpa [List.mem_reverse] using hrev
      exact isWS_eq_false_of_isDigit (hdig b hmem))
  have hfil : ds.filter isDigit = ds := List.filter_eq_self.mpr hdig
  have hemp : ds.isEmpty = false := by
    cases ds with
    | nil => exact absurd rfl hne
    | cons a l => rfl
  unfold tokenise_uint
  rw [List.drop_left, hrun]
  simp only [hws_rev, List.reverse_reverse, hfil, hemp, Bool.false_eq_true, if_false,
    ge_iff_le, hval, if_true, Nat.sub_self, Nat.sub_zero]
  refine Prod.ext rfl ?_
  simp only []
  omega

/-- Claim C8 (witness for the amended theorem): the digit run `655301`
with value 655301 ≥ 65530 yields the encoded number 6553 and a cursor
four characters in. -/
theorem C8_tokenise_uint_four_digits_witness :
    tokenise_uint (([] : List Nat) ++ ([54, 53, 53, 51, 48, 49] ++ [0]))
        (([] : List Nat)).length =
      (enc2 (digitsVal ([54, 53, 53, 51, 48, 49].take 4)),
        (([] : List Nat)).length + 4) := by
  exact C8_tokenise_uint_four_digits [] [54, 53, 53, 51, 48, 49] [0]
    (by decide) (by decide) (by decide) (by decide)

/-- Claim C7: during expression evaluation, when no error trap is armed, an
Overflow or DivisionByZero arising from an operator or function application
does not abort evaluation: a message is printed and the operation's result
is replaced by the representable maximum-magnitude value of the appropriate
numeric type (the maxed value carried by the exception, or `Single.max`
when none is carried); when a trap is armed, the same condition instead
raises Overflow or DivisionByZero as a runtime error; math-domain errors
always raise IllegalFunctionCall immediately. -/
theorem C7_handle_math_error (st : ParserState) (e : PyExc) :
    (trapArmed st = false →
      (∀ f, e = .overflowErr (some f) →
        handle_math_error st e =
          .ok ({ st with screen_output := st.screen_output ++ [.errmsg err.OVERFLOW] }, f)) ∧
      (e = .overflowErr none →
        handle_math_error st e =
          .ok ({ st with screen_output := st.screen_output ++ [.errmsg err.OVERFLOW] },
            Single_max)) ∧
      (∀ f, e = .zeroDivErr (some f) →
        handle_math_error st e =
          .ok ({ st with screen_output :=
            st.screen_output ++ [.errmsg err.DIVISION_BY_ZERO] }, f)) ∧
      (e = .zeroDivErr none →
        handle_math_error st e =
          .ok ({ st with screen_output :=
            st.screen_output ++ [.errmsg err.DIVISION_BY_ZERO] }, Single_max))) ∧
    (trapArmed st = true →
      (∀ a, e = .overflowErr a →
        handle_math_error st e = .error (.basic ⟨err.OVERFLOW, none⟩)) ∧
      (∀ a, e = .zeroDivErr a →
        handle_math_error st e = .error (.basic ⟨err.DIVISION_BY_ZERO, none⟩))) ∧
    (e = .valueErr → handle_math_error st e = .error (.basic ⟨err.IFC, none⟩)) := by
  refine ⟨fun hnt => ⟨?_, ?_, ?_, ?_⟩, fun ht => ⟨?_, ?_⟩, ?_⟩ <;>
    intros <;> subst e <;>
    simp [handle_math_error, handle_ovf_dbz, *]

/-- Claim C7 (witness): an untrapped overflow carrying no value prints the
Overflow message and substitutes `Single.max`. -/
theorem C7_handle_math_error_witness :
    handle_math_error baseState (PyExc.overflowErr none) =
      .ok ({ baseState with
        screen_output := baseState.screen_output ++ [.errmsg err.OVERFLOW] },
        Single_max) :=
  ((C7_handle_math_error baseState (PyExc.overflowErr none)).1 rfl).2.1 rfl

/-- Claim C9: for every call to `read_entry` that returns a value, the
program bytecode stream's read position after the call equals its position
before the call — a successful READ advances only the DATA cursor and
leaves the execution cursor unchanged. -/
theorem C9_read_entry_frame (st : ParserState) (v : List Nat) (st2 : ParserState)
    (h : read_entry st = .ok (v, st2)) :
    st2.program_pos = st.program_pos := by
  unfold read_entry at h
  dsimp only at h
  split at h
  next b hb =>
    split at h
    next hbd =>
      split at h
      next vals p hloop =>
        injection h with h
        injection h with hv hst
        subst hst
        rfl
      next e p hloop => exact absurd h (by simp)
    next hbd => exact absurd h (by simp)
  next hb => exact absurd h (by simp)

/-- Claim C9 (witness): reading the single DATA entry of `dataState`
succeeds, moves the DATA cursor, and restores the execution cursor. -/
theorem C9_read_entry_frame_witness :
    read_entry dataState = .ok ([49], { dataState with data_pos := 7 }) ∧
    ({ dataState with data_pos := 7 } : ParserState).program_pos
      = dataState.program_pos :=
  ⟨by rfl, C9_read_entry_frame dataState [49] { dataState with data_pos := 7 } (by rfl)⟩

/-! ### Field-preservation lemmas for the pointer primitives -/

theorem seek_ins_fields (st : ParserState) (p : Nat) :
    (seek_ins st p).run_mode = st.run_mode ∧
    (seek_ins st p).error_num = st.error_num ∧
    (seek_ins st p).error_pos = st.error_pos ∧
    (seek_ins st p).error_handle_mode = st.error_handle_mode ∧
    (seek_ins st p).error_resume = st.error_resume ∧
    (seek_ins st p).suspend_all = st.suspend_all ∧
    (seek_ins st p).on_error = st.on_error ∧
    (seek_ins st p).line_numbers = st.line_numbers ∧
    (seek_ins st p).current_statement = st.current_statement ∧
    (seek_ins st p).for_stack = st.for_stack ∧
    (seek_ins st p).scalars = st.scalars ∧
    (seek_ins st p).screen_output = st.screen_output ∧
    (seek_ins st p).data_pos = st.data_pos ∧
    (seek_ins st p).program_code = st.program_code ∧
    (seek_ins st p).direct_line = st.direct_line ∧
    (seek_ins st p).events = st.events ∧
    (seek_ins st p).gosub_stack = st.gosub_stack := by
  unfold seek_ins
  split <;> exact ⟨rfl, rfl, rfl, rfl, rfl, rfl, rfl, rfl, rfl, rfl, rfl, rfl, rfl, rfl,
    rfl, rfl, rfl⟩

theorem set_pointer_fields (st : ParserState) (rm : Bool) (pos : Option Nat) :
    (set_pointer st rm pos).run_mode = rm ∧
    (set_pointer st rm pos).error_num = st.error_num ∧
    (set_pointer st rm pos).error_pos = st.error_pos ∧
    (set_pointer st rm pos).error_handle_mode = st.error_handle_mode ∧
    (set_pointer st rm pos).error_resume = st.error_resume ∧
    (set_pointer st rm pos).for_stack = st.for_stack ∧
    (set_pointer st rm pos).scalars = st.scalars := by
  unfold set_pointer
  cases pos with
  | some p =>
    dsimp only
    have h := seek_ins_fields { st with run_mode := rm } p
    exact ⟨h.1, h.2.1, h.2.2.1, h.2.2.2.1, h.2.2.2.2.1, h.2.2.2.2.2.2.2.2.2.1,
      h.2.2.2.2.2.2.2.2.2.2.1⟩
  | none =>
    dsimp only
    have h := seek_ins_fields { st with run_mode := rm }
      (cs_code { st with run_mode := rm }).length
    exact ⟨h.1, h.2.1, h.2.2.1, h.2.2.2.1, h.2.2.2.2.1, h.2.2.2.2.2.2.2.2.2.1,
      h.2.2.2.2.2.2.2.2.2.2.1⟩

/-- A successful `jump` preserves the error bookkeeping fields and lands
in run mode. -/
theorem jump_ok_fields {st : ParserState} {jn : Option Nat} {en : Nat} {st2 : ParserState}
    (h : jump st jn en = .ok st2) :
    st2.error_num = st.error_num ∧ st2.error_pos = st.error_pos ∧
    st2.error_handle_mode = st.error_handle_mode ∧
    st2.error_resume = st.error_resume ∧ st2.run_mode = true := by
  unfold jump at h
  cases jn with
  | none =>
    injection h with h
    subst h
    have hf := set_pointer_fields st true (some 0)
    exact ⟨hf.2.1, hf.2.2.1, hf.2.2.2.1, hf.2.2.2.2.1, hf.1⟩
  | some n =>
    dsimp only at h
    cases hl : lookupLine st.line_numbers n with
    | some p =>
      rw [hl] at h
      injection h with h
      subst h
      have hf := set_pointer_fields st true (some p)
      exact ⟨hf.2.1, hf.2.2.1, hf.2.2.2.1, hf.2.2.2.2.1, hf.1⟩
    | none =>
      rw [hl] at h
      exact absurd h (by simp)


/-! ### Projection simp lemmas for `seek_ins` -/

@[simp] theorem seek_ins_run_mode (st : ParserState) (p : Nat) :
    (seek_ins st p).run_mode = st.run_mode := (seek_ins_fields st p).1

@[simp] theorem seek_ins_error_num (st : ParserState) (p : Nat) :
    (seek_ins st p).error_num = st.error_num := (seek_ins_fields st p).2.1

@[simp] theorem seek_ins_error_pos (st : ParserState) (p : Nat) :
    (seek_ins st p).error_pos = st.error_pos := (seek_ins_fields st p).2.2.1

@[simp] theorem seek_ins_error_handle_mode (st : ParserState) (p : Nat) :
    (seek_ins st p).error_handle_mode = st.error_handle_mode :=
  (seek_ins_fields st p).2.2.2.1

@[simp] theorem seek_ins_error_resume (st : ParserState) (p : Nat) :
    (seek_ins st p).error_resume = st.error_resume := (seek_ins_fields st p).2.2.2.2.1

@[simp] theorem seek_ins_suspend_all (st : ParserState) (p : Nat) :
    (seek_ins st p).suspend_all = st.suspend_all := (seek_ins_fields st p).2.2.2.2.2.1

@[simp] theorem seek_ins_on_error (st : ParserState) (p : Nat) :
    (seek_ins st p).on_error = st.on_error := (seek_ins_fields st p).2.2.2.2.2.2.1

@[simp] theorem seek_ins_line_numbers (st : ParserState) (p : Nat) :
    (seek_ins st p).line_numbers = st.line_numbers :=
  (seek_ins_fields st p).2.2.2.2.2.2.2.1

@[simp] theorem seek_ins_current_statement (st : ParserState) (p : Nat) :
    (seek_ins st p).current_statement = st.current_statement :=
  (seek_ins_fields st p).2.2.2.2.2.2.2.2.1

@[simp] theorem seek_ins_for_stack (st : ParserState) (p : Nat) :
    (seek_ins st p).for_stack = st.for_stack :=
  (seek_ins_fields st p).2.2.2.2.2.2.2.2.2.1

@[simp] theorem seek_ins_scalars (st : ParserState) (p : Nat) :
    (seek_ins st p).scalars = st.scalars :=
  (seek_ins_fields st p).2.2.2.2.2.2.2.2.2.2.1

@[simp] theorem seek_ins_screen_output (st : ParserState) (p : Nat) :
    (seek_ins st p).screen_output = st.screen_output :=
  (seek_ins_fields st p).2.2.2.2.2.2.2.2.2.2.2.1

@[simp] theorem seek_ins_data_pos (st : ParserState) (p : Nat) :
    (seek_ins st p).data_pos = st.data_pos :=
  (seek_ins_fields st p).2.2.2.2.2.2.2.2.2.2.2.2.1

@[simp] theorem seek_ins_program_code (st : ParserState) (p : Nat) :
    (seek_ins st p).program_code = st.program_code :=
  (seek_ins_fields st p).2.2.2.2.2.2.2.2.2.2.2.2.2.1

@[simp] theorem seek_ins_direct_line (st : ParserState) (p : Nat) :
    (seek_ins st p).direct_line = st.direct_line :=
  (seek_ins_fields st p).2.2.2.2.2.2.2.2.2.2.2.2.2.2.1

@[simp] theorem seek_ins_events (st : ParserState) (p : Nat) :
    (seek_ins st p).events = st.events :=
  (seek_ins_fields st p).2.2.2.2.2.2.2.2.2.2.2.2.2.2.2.1

@[simp] theorem seek_ins_gosub_stack (st : ParserState) (p : Nat) :
    (seek_ins st p).gosub_stack = st.gosub_stack :=
  (seek_ins_fields st p).2.2.2.2.2.2.2.2.2.2.2.2.2.2.2.2

@[simp] theorem cs_code_seek_ins (st : ParserState) (p : Nat) :
    cs_code (seek_ins st p) = cs_code st := by
  unfold cs_code
  rw [seek_ins_run_mode, seek_ins_program_code, seek_ins_direct_line]

@[simp] theorem cs_pos_seek_ins (st : ParserState) (p : Nat) :
    cs_pos (seek_ins st p) = p := by
  unfold cs_pos seek_ins
  split
  next h => simp only [h, if_true]
  next h => simp only [if_neg h]

/-- Claim C3 (counterexample): an error with no position trapped at
`cexState` is recorded at position 8 — the current stream position minus
one — not at the current statement's position 5, refuting the clause that
the unset position is assigned from the current statement. -/
theorem C3_counterexample :
    (trap_error cexState ⟨err.IFC, none⟩).1.error_pos = 8 ∧
    cexState.current_statement = 5 ∧ (8 : Int) ≠ 5 :=
  ⟨rfl, rfl, by decide⟩

/-- Claim C3 (amended): for every error `e` passed to `trap_error`: `e`'s
position, if unset, is assigned from the current stream position (cursor
minus one in run mode, -1 in direct mode) and (error number, error
position) are recorded for ERR/ERL; if a trap target is armed (a nonzero
line present in the index) and error handling is not already in progress,
the current (statement position, run_mode) is saved for RESUME, execution
jumps to the trap line, the handling-in-progress flag is set and all other
event dispatch is suspended; otherwise the handling flag is cleared,
run-mode is deactivated, and the error propagates to the caller. -/
theorem C3_trap_error (st : ParserState) (e : RunErrorT) :
    (trap_error st e).1.error_num = e.errnum ∧
    (trap_error st e).1.error_pos = trapPos st e ∧
    (∀ n p, st.on_error = some n → n ≠ 0 → st.error_handle_mode = false →
      lookupLine st.line_numbers n = some p →
      trap_error st e =
        ({ st with
            error_num := e.errnum
            error_pos := trapPos st e
            error_resume := some (st.current_statement, st.run_mode)
            run_mode := true
            program_pos := p
            error_handle_mode := true
            suspend_all := true }, none)) ∧
    ((st.on_error = none ∨ st.on_error = some 0 ∨ st.error_handle_mode = true) →
      (trap_error st e).2 = some ⟨e.errnum, some (trapPos st e)⟩ ∧
      (trap_error st e).1.error_handle_mode = false ∧
      (trap_error st e).1.run_mode = false) := by
  refine ⟨?_, ?_, ?_, ?_⟩
  · unfold trap_error
    dsimp only
    split
    · split
      next st2 heq => simpa using (jump_ok_fields heq).1
      next je heq => rfl
    · have hf := set_pointer_fields
        { st with
            error_num := e.errnum
            error_pos := trapPos st e
            error_handle_mode := false } false none
      simpa using hf.2.1
  · unfold trap_error trapPos
    dsimp only
    split
    · split
      next st2 heq => simpa using (jump_ok_fields heq).2.1
      next je heq => rfl
    · have hf := set_pointer_fields
        { st with
            error_num := e.errnum
            error_pos := trapPos st e
            error_handle_mode := false } false none
      simpa [trapPos] using hf.2.2.1
  · intro n p hn hne hehm hlook
    unfold trap_error trapPos jump
    rw [hn]
    simp only [hehm, Bool.not_false, bne_iff_ne, ne_eq, hne, not_false_eq_true,
      Bool.and_true, if_true, hlook, set_pointer, seek_ins]
  · intro h
    have harm :
        ((match st.on_error with
          | some n => n != 0
          | none => false) && !st.error_handle_mode) = false := by
      rcases h with h | h | h
      · rw [h]; rfl
      · rw [h]; rfl
      · rw [h]; simp
    unfold trap_error trapPos
    dsimp only
    rw [harm]
    have hf := set_pointer_fields
      { st with
          error_num := e.errnum
          error_pos :=
            match e.pos with
            | some p => p
            | none => if st.run_mode then (st.program_pos : Int) - 1 else -1
          error_handle_mode := false } false none
    exact ⟨rfl, by simpa using hf.2.2.2.1, by simpa using hf.1⟩

/-- Claim C3 (witness): trapping IllegalFunctionCall at `armedState` saves
(5, true) for RESUME, jumps to offset 13, sets the handling flag and
suspends events, and nothing propagates. -/
theorem C3_trap_error_witness :
    trap_error armedState ⟨err.IFC, some 3⟩ =
      ({ armedState with
          error_num := err.IFC
          error_pos := trapPos armedState ⟨err.IFC, some 3⟩
          error_resume := some (armedState.current_statement, armedState.run_mode)
          run_mode := true
          program_pos := 13
          error_handle_mode := true
          suspend_all := true }, none) :=
  (C3_trap_error armedState ⟨err.IFC, some 3⟩).2.2.1 900 13 rfl (by decide) rfl rfl

/-- A trivial statement table: no keys, handlers leave the state alone. -/
def tblTrivial : StmtTable where
  keys := []
  run := fun _ s => .ok s
  exec_let := fun s => .ok s

/-- A parser in run mode at the end-of-program sentinel with an
outstanding error-resume position. -/
def endState : ParserState :=
  { baseState with run_mode := true, error_resume := some (0, true) }

/-- Claim C10: if `parse_statement` reaches the end-of-program sentinel
while a saved error-resume position exists (an error handler was entered
and no RESUME has executed), it raises NoResume with the error-handling
flag set — so the trap does not catch it and the error propagates to the
caller — instead of deactivating run mode and reporting a normal end of
stream. -/
theorem C10_parse_statement_no_resume (tbl : StmtTable) (st : ParserState) (r : Nat × Bool)
    (hev : st.events = [])
    (h0 : (cs_code st).get? (cs_pos st) = some 0)
    (hend : sread (cs_code st) (cs_pos st + 1) 2 = [0, 0])
    (hres : st.error_resume = some r) :
    (∃ stR, parse_statement_body tbl st =
        .error (⟨err.NO_RESUME, some ((cs_pos st : Int) - 1)⟩, stR) ∧
        stR.error_handle_mode = true) ∧
    (∃ stF, parse_statement tbl st =
        .error (⟨err.NO_RESUME, some ((cs_pos st : Int) - 1)⟩, stF)) := by
  have hhbe : handle_basic_events st = .ok st := by
    unfold handle_basic_events hbe_go
    rw [hev]
    split <;> rfl
  have hhead : ((cs_code st).drop (cs_pos st)).head? = some 0 := by
    cases hd : (cs_code st).drop (cs_pos st) with
    | nil =>
      have hn : (cs_code st).get? (cs_pos st) = none := by
        have hlen : (cs_code st).length ≤ cs_pos st := by
          have hl := congrArg List.length hd
          simpa [List.length_drop] using Nat.le_of_sub_eq_zero (by simpa using hl)
        exact List.get?_eq_none.mpr hlen
      rw [hn] at h0
      exact absurd h0 (by simp)
    | cons a l =>
      have ha : a = 0 := by
        have h1 : (cs_code st).get? (cs_pos st + 0) = some a := by
          rw [← List.get?_drop, hd]
          rfl
        rw [Nat.add_zero, h0] at h1
        injection h1 with h1
        exact h1.symm
      subst ha
      rfl
  have htw : ((cs_code st).drop (cs_pos st)).takeWhile isWS = [] := by
    cases hd : (cs_code st).drop (cs_pos st) with
    | nil => rfl
    | cons a l =>
      have ha : a = 0 := by
        rw [hd] at hhead
        simpa using hhead
      subst ha
      simp [List.takeWhile_cons, isWS]
  have hsw : skip_white (cs_code st) (cs_pos st) = (some 0, cs_pos st) := by
    unfold skip_white
    rw [htw]
    simp only [List.length_nil, Nat.add_zero, speek]
    rw [h0]
  have hpl : parse_line_number (cs_code st) (cs_pos st + 1) = (none, cs_pos st + 1) := by
    unfold parse_line_number
    rw [hend]
    rfl
  have hbody : parse_statement_body tbl st =
      .error (⟨err.NO_RESUME, some ((cs_pos st : Int) - 1)⟩,
        { seek_ins (seek_ins (seek_ins { st with current_statement := cs_pos st }
            (cs_pos st)) (cs_pos st + 1)) (cs_pos st + 1) with
          error_handle_mode := true }) := by
    unfold parse_statement_body
    rw [hhbe]
    dsimp only
    have hc1 : cs_code { st with current_statement := cs_pos st } = cs_code st := rfl
    have hp1 : cs_pos { st with current_statement := cs_pos st } = cs_pos st := rfl
    rw [hc1, hp1, hsw]
    dsimp only
    rw [hpl]
    dsimp only
    simp only [seek_ins_error_resume]
    have hr2 : ({ st with current_statement := cs_pos st } : ParserState).error_resume
        = some r := hres
    rw [hr2]
    rfl
  refine ⟨⟨_, hbody, rfl⟩, ?_⟩
  · unfold parse_statement
    rw [hbody]
    dsimp only
    unfold trap_error
    dsimp only
    simp only [Bool.not_true, Bool.and_false, Bool.false_eq_true, if_false]
    exact ⟨_, rfl⟩

/-- Claim C10 (witness): at `endState` — run mode, cursor on the
`00 00 00` sentinel, a saved resume record — the statement step raises
NoResume at position -1 instead of reporting a normal end of stream. -/
theorem C10_parse_statement_no_resume_witness :
    (∃ stR, parse_statement_body tblTrivial endState =
        .error (⟨err.NO_RESUME, some ((cs_pos endState : Int) - 1)⟩, stR) ∧
        stR.error_handle_mode = true) ∧
    (∃ stF, parse_statement tblTrivial endState =
        .error (⟨err.NO_RESUME, some ((cs_pos endState : Int) - 1)⟩, stF)) :=
  C10_parse_statement_no_resume tblTrivial endState (0, true) rfl rfl rfl rfl

/-! ### FOR/NEXT helper lemmas -/

theorem updf_updf (f : String → Int) (x : String) (a b : Int) :
    updf (updf f x a) x b = updf f x b := by
  funext y
  unfold updf
  by_cases h : y = x <;> simp [h]

theorem updf_self (f : String → Int) (x : String) (v : Int) : updf f x v x = v := by
  unfold updf
  simp

/-- `number_inc_gt` at positive step sign: add the step in place and
compare against the stop value. -/
theorem number_inc_gt_pos (st : ParserState) (varname : String) (stop stepv : Int) :
    number_inc_gt st varname stop stepv 1 =
      ({ st with scalars := updf st.scalars varname (st.scalars varname + stepv) },
        decide (stop < st.scalars varname + stepv)) := by
  unfold number_inc_gt
  rw [if_neg one_ne_zero]
  dsimp only
  rw [if_pos one_pos]

/-- One NEXT at the matching offset when the top FOR record has positive
step sign: the loop variable advances by `step`; the loop either continues
(seek back to the body) or ends (record popped). -/
theorem loop_iterate_top (s : ParserState) (l : List ForRecord) (r : ForRecord)
    (hstack : s.for_stack = l ++ [r]) (hsgn : r.sgn = 1) :
    loop_iterate s r.nextpos =
      if r.stop < s.scalars r.varname + r.step then
        .ok ({ s with
            for_stack := l
            scalars := updf s.scalars r.varname (s.scalars r.varname + r.step) }, false)
      else
        .ok (seek_ins { s with
            scalars := updf s.scalars r.varname (s.scalars r.varname + r.step) }
          r.forpos, true) := by
  unfold loop_iterate
  rw [hstack]
  have hrev : (l ++ [r]).reverse = r :: l.reverse := by simp
  rw [hrev]
  have hfind : List.findIdx? (fun x => decide (x.nextpos = r.nextpos)) (r :: l.reverse)
      = some 0 := by
    simp
  rw [hfind]
  dsimp only
  have htake : List.take ((l ++ [r]).length - 0) (l ++ [r]) = l ++ [r] := by simp
  rw [htake, List.getLast?_concat]
  dsimp only
  rw [hsgn, number_inc_gt_pos]
  dsimp only
  by_cases hlt : r.stop < s.scalars r.varname + r.step
  · rw [if_pos (decide_eq_true hlt), if_pos hlt]
    simp only [List.dropLast_concat]
  · rw [if_neg (by simpa using hlt), if_neg hlt]

/-- Invariant of the amended FOR/NEXT count: while the loop continues,
after `j` NEXT calls the loop variable holds `start + (j-1)*step` and the
FOR record is still on the stack. -/
theorem c6_invariant (st0 : ParserState) (forpos nextpos : Nat) (varname : String)
    (start stop stepv : Int) (hstep : 0 < stepv) (hstop : start ≤ stop) :
    ∀ j, 1 ≤ j → j ≤ (stop - start).toNat / stepv.toNat + 1 →
      ∃ sj, iterateCalls nextpos j
          (loop_init st0 forpos nextpos varname start stop stepv) = .ok (sj, true) ∧
        sj.for_stack = st0.for_stack ++
          [⟨forpos, nextpos, varname.toList.getLastD '!', varname, stop, stepv, 1⟩] ∧
        sj.scalars = updf st0.scalars varname (start + ((j : Int) - 1) * stepv) := by
  have hsgn1 : Int.sign stepv = 1 := Int.sign_eq_one_iff_pos.mpr hstep
  have hs : ((stepv.toNat : Int)) = stepv := Int.toNat_of_nonneg (le_of_lt hstep)
  have hq : (((stop - start).toNat : Int)) = stop - start :=
    Int.toNat_of_nonneg (by omega)
  have hspos : 0 < stepv.toNat := by omega
  set rec : ForRecord :=
    ⟨forpos, nextpos, varname.toList.getLastD '!', varname, stop, stepv, 1⟩ with hrec
  have hst1stack :
      (loop_init st0 forpos nextpos varname start stop stepv).for_stack =
        st0.for_stack ++ [rec] := by
    unfold loop_init
    rw [seek_ins_for_stack]
    dsimp only
    rw [hsgn1]
  have hst1sc :
      (loop_init st0 forpos nextpos varname start stop stepv).scalars =
        updf st0.scalars varname (start + (-stepv)) := by
    unfold loop_init
    rw [seek_ins_scalars]
  intro j
  induction j with
  | zero => intro h1 _; exact absurd h1 (by omega)
  | succ n ih =>
    intro _ hle
    cases Nat.eq_zero_or_pos n with
    | inl hn0 =>
      subst hn0
      have hit : iterateCalls nextpos 1
          (loop_init st0 forpos nextpos varname start stop stepv) =
          loop_iterate (loop_init st0 forpos nextpos varname start stop stepv) nextpos := rfl
      rw [hit]
      have hnext : rec.nextpos = nextpos := rfl
      rw [← hnext, loop_iterate_top _ st0.for_stack rec hst1stack rfl]
      have hval : (loop_init st0 forpos nextpos varname start stop stepv).scalars
          rec.varname = start + (-stepv) := by
        rw [hst1sc]
        exact updf_self _ _ _
      rw [hval]
      have hnoend : ¬ (rec.stop < start + (-stepv) + rec.step) := by
        show ¬ (stop < start + (-stepv) + stepv)
        omega
      rw [if_neg hnoend]
      refine ⟨_, rfl, ?_, ?_⟩
      · rw [seek_ins_for_stack]
        exact hst1stack
      · rw [seek_ins_scalars]
        dsimp only
        rw [hst1sc, updf_updf]
        norm_num
    | inr hnpos =>
      have hle2 : n ≤ (stop - start).toNat / stepv.toNat + 1 := by omega
      obtain ⟨sn, hsn, hsnstack, hsnsc⟩ := ih hnpos hle2
      have hit : iterateCalls nextpos (n + 1)
          (loop_init st0 forpos nextpos varname start stop stepv) =
          loop_iterate sn nextpos := by
        unfold iterateCalls
        rw [hsn]
      rw [hit]
      have hnext : rec.nextpos = nextpos := rfl
      rw [← hnext, loop_iterate_top sn st0.for_stack rec hsnstack rfl]
      have hval : sn.scalars rec.varname = start + ((n : Int) - 1) * stepv := by
        rw [hsnsc]
        exact updf_self _ _ _
      rw [hval]
      have hmul : ((n : Int)) * stepv ≤ stop - start := by
        have hn : n ≤ (stop - start).toNat / stepv.toNat := by omega
        have := (Nat.le_div_iff_mul_le hspos).mp hn
        have hcast : ((n * stepv.toNat : Nat) : Int) ≤ (((stop - start).toNat : Nat) : Int) := by
          exact_mod_cast this
        rw [hq] at hcast
        push_cast at hcast
        rw [hs] at hcast
        exact hcast
      have hnoend : ¬ (rec.stop < start + ((n : Int) - 1) * stepv + rec.step) := by
        show ¬ (stop < start + ((n : Int) - 1) * stepv + stepv)
        have : start + ((n : Int) - 1) * stepv + stepv = start + (n : Int) * stepv := by ring
        rw [this]
        omega
      rw [if_neg hnoend]
      refine ⟨_, rfl, ?_, ?_⟩
      · rw [seek_ins_for_stack]
        dsimp only
        exact hsnstack
      · rw [seek_ins_scalars]
        dsimp only
        rw [hsnsc, updf_updf]
        have : start + ((n : Int) - 1) * stepv + stepv = start + (((n : Int) + 1) - 1) * stepv := by
          ring
        rw [this]
        push_cast
        ring_nf

/-- The state after `loop_init` at start=stop=step=1 on a quiescent
parser: one FOR record, loop variable pre-decremented to 0. -/
def c6start : ParserState := loop_init baseState 100 200 "I%" 1 1 1

/-- Claim C6 (counterexample): for the ascending loop start=1, stop=1,
step=1, the claim's count is ceil((stop-start)/step)+1 = ceil(0)+1 = 1
call; but the first `loop_iterate` call does not end the loop (it returns
true: the variable moves 0 → 1, and 1 > 1 fails) and leaves the FOR stack
one deeper than before `loop_init`, refuting the claimed count for every
case where step divides stop-start. -/
theorem C6_counterexample :
    (iterateCalls 200 1 c6start).toOption.map Prod.snd = some true ∧
    (iterateCalls 200 1 c6start).toOption.map (fun p => p.1.for_stack.length) = some 1 ∧
    baseState.for_stack.length = 0 := by
  refine ⟨?_, ?_, rfl⟩ <;> rfl

/-- Claim C6 (amended): for every well-formed ascending FOR loop
(positive step, stop ≥ start): `loop_init` sets the loop variable to
start minus step, and calling `loop_iterate` exactly
`floor((stop-start)/step) + 2` times — which equals the claim's
`ceil((stop-start)/step) + 1` whenever step does not divide stop-start —
ends the loop on the final call (`loop_iterate` returns false; every
earlier call returns true) and leaves the FOR-stack depth equal to its
depth before `loop_init`. -/
theorem C6_loop_count (st0 : ParserState) (forpos nextpos : Nat) (varname : String)
    (start stop stepv : Int) (hstep : 0 < stepv) (hstop : start ≤ stop) :
    (loop_init st0 forpos nextpos varname start stop stepv).scalars varname
        = start - stepv ∧
    (∀ j, 0 < j → j < (stop - start).toNat / stepv.toNat + 2 →
      ∃ sj, iterateCalls nextpos j
        (loop_init st0 forpos nextpos varname start stop stepv) = .ok (sj, true)) ∧
    (∃ sfin, iterateCalls nextpos ((stop - start).toNat / stepv.toNat + 2)
        (loop_init st0 forpos nextpos varname start stop stepv) = .ok (sfin, false) ∧
      sfin.for_stack.length = st0.for_stack.length) := by
  have hsgn1 : Int.sign stepv = 1 := Int.sign_eq_one_iff_pos.mpr hstep
  have hs : ((stepv.toNat : Int)) = stepv := Int.toNat_of_nonneg (le_of_lt hstep)
  have hq : (((stop - start).toNat : Int)) = stop - start :=
    Int.toNat_of_nonneg (by omega)
  have hspos : 0 < stepv.toNat := by omega
  refine ⟨?_, ?_, ?_⟩
  · unfold loop_init
    rw [seek_ins_scalars]
    dsimp only
    rw [updf_self]
    omega
  · intro j hj0 hjlt
    obtain ⟨sj, hsj, _, _⟩ := c6_invariant st0 forpos nextpos varname start stop stepv
      hstep hstop j hj0 (by omega)
    exact ⟨sj, hsj⟩
  · obtain ⟨sn, hsn, hsnstack, hsnsc⟩ := c6_invariant st0 forpos nextpos varname
      start stop stepv hstep hstop ((stop - start).toNat / stepv.toNat + 1)
      (Nat.le_add_left 1 _) (le_refl _)
    have hit : iterateCalls nextpos ((stop - start).toNat / stepv.toNat + 2)
        (loop_init st0 forpos nextpos varname start stop stepv) =
        loop_iterate sn nextpos := by
      unfold iterateCalls
      rw [hsn]
    rw [hit]
    set rec : ForRecord :=
      ⟨forpos, nextpos, varname.toList.getLastD '!', varname, stop, stepv, 1⟩ with hrec
    have hnext : rec.nextpos = nextpos := rfl
    rw [← hnext, loop_iterate_top sn st0.for_stack rec hsnstack rfl]
    have hval : sn.scalars rec.varname =
        start + ((((stop - start).toNat / stepv.toNat + 1 : Nat) : Int) - 1) * stepv := by
      rw [hsnsc]
      exact updf_self _ _ _
    rw [hval]
    have hendN : (stop - start).toNat <
        stepv.toNat * ((stop - start).toNat / stepv.toNat) + stepv.toNat := by
      have h1 := Nat.div_add_mod (stop - start).toNat stepv.toNat
      have h2 := Nat.mod_lt (stop - start).toNat hspos
      omega
    have h3 : ((stop - start).toNat : Int) <
        ((stepv.toNat : Nat) : Int) * (((stop - start).toNat / stepv.toNat : Nat) : Int)
          + ((stepv.toNat : Nat) : Int) := by
      exact_mod_cast hendN
    rw [hq, hs] at h3
    have hvsimp : start + ((((stop - start).toNat / stepv.toNat + 1 : Nat) : Int) - 1)
          * stepv + stepv =
        start + stepv * (((stop - start).toNat / stepv.toNat : Nat) : Int) + stepv := by
      push_cast
      ring
    have hend : rec.stop < start +
        ((((stop - start).toNat / stepv.toNat + 1 : Nat) : Int) - 1) * stepv + rec.step := by
      show stop < start +
        ((((stop - start).toNat / stepv.toNat + 1 : Nat) : Int) - 1) * stepv + stepv
      rw [hvsimp]
      linarith [h3]
    rw [if_pos hend]
    exact ⟨_, rfl, rfl⟩

/-- Claim C6 (witness): for start=1, stop=3, step=2 (so
floor((3-1)/2)+2 = 3), the third NEXT ends the loop and the FOR stack is
back to its depth before `loop_init`. -/
theorem C6_loop_count_witness :
    (0 : Int) < 2 ∧ (1 : Int) ≤ 3 ∧
    (∃ sfin, iterateCalls 200 ((3 - 1 : Int).toNat / (2 : Int).toNat + 2)
        (loop_init baseState 100 200 "I%" 1 3 2) = .ok (sfin, false) ∧
      sfin.for_stack.length = baseState.for_stack.length) :=
  ⟨by decide, by decide,
    (C6_loop_count baseState 100 200 "I%" 1 3 2 (by decide) (by decide)).2.2⟩

/-! ### Program-buffer claim evaluations -/

/-- Claim C1 (evaluation at the failing input): after storing lines 10
and 20, renumbering 20 to 5 (which `renum` permits although it breaks the
numeric ordering of the stream), and storing line 7, every operation
succeeds, yet the index maps line 5 to offset 6 while the line header at
offset 6 encodes line number 10 — the index invariant the claim states is
violated by this legal operation sequence. -/
theorem C1_index_invariant_violation :
    (c1run.map fun s => (lookupLine s.line_numbers 5, readLineHeader s.bytecode 6)) =
      some (some 6, some 10) ∧ some (10 : Nat) ≠ some (5 : Nat) := by
  constructor
  · decide
  · decide

/-- Claim C5 (counterexample): renumbering the program whose only line is
65535 with `renum(65530, 0, 10)` succeeds — no IllegalFunctionCall — and
assigns the non-terminal old line 65535 the new number 65530 ≥ 65530,
refuting the claim for old line numbers equal to 65535 (the code's guard
is `old_line < 65535`, not `old_line != 65536`). -/
theorem C5_counterexample :
    (match renum c5state (some 65530) (some 0) (some 10) with
      | .ok (_, _, m) => m
      | .error _ => []) = [(65535, 65530)] ∧
    (65530 ≤ 65530 ∧ (65535 : Nat) ≠ 65536) := by
  constructor
  · decide
  · decide

/-- Claim C4 (counterexample): in the program `100 GOTO 50`,
`renum(50, 0, 10)` renumbers line 100 to 50, so the jump target 50 is
absent before renumbering but present after it.  The claim then demands
the jump be rewritten to a renumbered target and not reported; the code
instead leaves the jump number at 50 (bytes `[50, 0]` at the payload) and
prints an `Undefined line 50 in 100` notice, because its test consults
only the pre-renumber index. -/
theorem C4_counterexample :
    (match renum c4state (some 50) (some 0) (some 10) with
      | .ok (s, n, _) => (n, lookupLine s.line_numbers 50, sread s.bytecode 7 2)
      | .error _ => ([], none, [])) =
      ([.undefLine 50 100], some 0, [50, 0]) := by
  decide

/-- The assignment loop of `renum` raises IllegalFunctionCall whenever
some sorted old line number below 65535 would receive a new number above
65529. -/
theorem renum_assign_error (stepn : Nat) :
    ∀ (keys : List Nat) (new_line : Nat) (ls0 : Option Int) (i k : Nat),
      keys.get? i = some k → k < 65535 → 65529 < new_line + i * stepn →
      List.Sorted (· ≤ ·) keys →
      ∃ ls2, renum_assign stepn keys new_line ls0 = (.error ⟨err.IFC, none⟩, ls2) := by
  intro keys
  induction keys with
  | nil =>
    intro new_line ls0 i k hget _ _ _
    simp at hget
  | cons k0 rest ih =>
    intro new_line ls0 i k hget hk hbig hsort
    by_cases h0 : k0 < 65535 ∧ 65529 < new_line
    · refine ⟨ls0, ?_⟩
      unfold renum_assign
      rw [if_pos h0]
    · cases i with
      | zero =>
        simp only [List.get?] at hget
        injection hget with hget
        subst hget
        exact absurd ⟨hk, by omega⟩ h0
      | succ n =>
        simp only [List.get?] at hget
        have hk0le : k0 ≤ k := by
          have hmem : k ∈ rest := List.get?_mem hget
          exact ((List.sorted_cons.mp hsort).1 k hmem)
        have h65536 : ¬ (k0 = 65536) := by omega
        obtain ⟨ls2, hrec⟩ := ih (new_line + stepn) (some (new_line : Int)) n k hget hk
          (by have h := hbig; rw [Nat.succ_mul] at h; omega) (List.sorted_cons.mp hsort).2
        refine ⟨ls2, ?_⟩
        unfold renum_assign
        rw [if_neg h0, if_neg h65536, hrec]

/-- Claim C5 (amended): `renum` fails with IllegalFunctionCall whenever
any old line number below 65535 (at or above the start line) would be
assigned a new line number of 65530 or more; on failure no renumbering is
applied — the bytecode stream and the index are untouched (only the
`last_stored` bookkeeping may already have moved).  A stored line 65535,
although not the end sentinel, is exempt from the check. -/
theorem C5_renum_ifc (st : ProgramState) (new_line start_line stepn : Nat) (i k : Nat)
    (hget : (sortNat ((st.line_numbers.map Prod.fst).filter
        (fun x => start_line ≤ x))).get? i = some k)
    (hk : k < 65535)
    (hbig : 65529 < new_line + i * stepn) :
    ∃ ls2, renum st (some new_line) (some start_line) (some stepn) =
      .error (⟨err.IFC, none⟩, { st with last_stored := ls2 }) := by
  obtain ⟨ls2, hassign⟩ := renum_assign_error stepn
    (sortNat ((st.line_numbers.map Prod.fst).filter (fun x => start_line ≤ x)))
    new_line st.last_stored i k hget hk hbig
    (List.sorted_insertionSort _ _)
  refine ⟨ls2, ?_⟩
  unfold renum
  dsimp only [Option.getD]
  rw [hassign]

/-- Claim C5 (witness): on the program with lines 10 and 20,
`renum(65525, 0, 10)` would assign 65535 to line 20, so it fails with
IllegalFunctionCall and leaves the stream and index untouched. -/
theorem C5_renum_ifc_witness :
    ∃ ls2, renum c5wit (some 65525) (some 0) (some 10) =
      .error (⟨err.IFC, none⟩, { c5wit with last_stored := ls2 }) :=
  C5_renum_ifc c5wit 65525 0 10 1 20 (by decide) (by decide) (by decide)

/-! ### Stream-walking lemmas for the renumber jump loop -/

/-- `skip_to_aux` is insensitive to the fuel once it exceeds the number of
bytes left: every step strictly advances the cursor. -/
theorem skip_to_aux_fuel (code : List Nat) (fr : List Nat) :
    ∀ f1 pos l r f2, code.length - pos < f1 → code.length - pos < f2 →
      skip_to_aux code fr f1 pos l r = skip_to_aux code fr f2 pos l r := by
  intro f1
  induction f1 with
  | zero =>
    intro pos l r f2 h1 _
    exact absurd h1 (Nat.not_lt_zero _)
  | succ f ih =>
    intro pos l r f2 h1 h2
    cases f2 with
    | zero => exact absurd h2 (Nat.not_lt_zero _)
    | succ g =>
      unfold skip_to_aux
      cases hget : code.get? pos with
      | none => rfl
      | some c =>
        have hlen : pos < code.length := by
          by_contra hcon
          rw [List.get?_eq_none.mpr (by omega)] at hget
          exact absurd hget (by simp)
        dsimp only
        generalize (if c = 34 then !l else if c = 0 then false else l) = l2
        generalize (if c = tk.REM then true else if c = 0 then false else r) = r2
        cases hc : (l2 || r2) with
        | true =>
          simp only [hc, if_true]
          exact ih (pos + 1) l2 r2 g (by omega) (by omega)
        | false =>
          simp only [hc, Bool.false_eq_true, if_false]
          split
          · rfl
          · split
            · split
              · split
                · rfl
                · refine ih _ _ _ g ?_ ?_ <;>
                    · simp only [safter]
                      omega
              · rfl
            · refine ih _ _ _ g ?_ ?_ <;>
                · simp only [safter]
                  omega

theorem get?_some_lt {code : List Nat} {pos b : Nat} (h : code.get? pos = some b) :
    pos < code.length := by
  by_contra hcon
  rw [List.get?_eq_none.mpr (by omega)] at h
  exact absurd h (by simp)

/-- One `skip_to` step over a plain byte: no flag change, no match, no
payload — the cursor advances by one. -/
theorem skip_to_plain {code : List Nat} {fr : List Nat} {pos b : Nat}
    (hget : code.get? pos = some b) (hb0 : b ≠ 0) (hq : b ≠ 34) (hrem : b ≠ tk.REM)
    (hpb : tk.plus_bytes b = 0) (hfr : b ∉ fr) :
    skip_to code pos fr = skip_to code (pos + 1) fr := by
  have hlen : pos < code.length := get?_some_lt hget
  unfold skip_to
  conv_lhs => rw [skip_to_aux]
  rw [hget]
  dsimp only
  rw [if_neg hq, if_neg hrem, if_neg hb0, if_neg hb0]
  simp only [Bool.or_self, Bool.false_eq_true, if_false]
  rw [if_neg hfr, hpb]
  have hsf : safter code (pos + 1) 0 = pos + 1 := by
    simp only [safter]
    omega
  rw [hsf]
  exact skip_to_aux_fuel code fr _ (pos + 1) false false _ (by omega) (by omega)

/-- One `skip_to` step over a line header whose offset field is not the
end marker: the five header bytes are skipped whole. -/
theorem skip_to_header {code : List Nat} {fr : List Nat} {pos a1 a2 : Nat}
    (hget : code.get? pos = some 0) (hfr : (0 : Nat) ∉ fr)
    (hs : sread code (pos + 1) 2 = [a1, a2]) (hne : ¬(a1 = 0 ∧ a2 = 0))
    (hin : pos + 5 ≤ code.length) :
    skip_to code pos fr = skip_to code (pos + 5) fr := by
  have hlen : pos < code.length := get?_some_lt hget
  unfold skip_to
  conv_lhs => rw [skip_to_aux]
  rw [hget]
  dsimp only
  rw [if_neg (by decide : ¬ ((0 : Nat) = 34)), if_neg (by decide : ¬ ((0 : Nat) = tk.REM)),
    if_pos rfl, if_pos rfl]
  simp only [Bool.or_self, Bool.false_eq_true, if_false]
  rw [if_neg hfr, hs]
  dsimp only
  have hcond : (decide (a1 = 0) && decide (a2 = 0)) = false := by
    rcases Decidable.em (a1 = 0) with h1 | h1
    · rcases Decidable.em (a2 = 0) with h2 | h2
      · exact absurd ⟨h1, h2⟩ hne
      · simp [h2]
    · simp [h1]
  rw [hcond]
  simp only [Bool.false_eq_true, if_false]
  have hsf : safter code (pos + 1) 4 = pos + 5 := by
    simp only [safter]
    omega
  rw [hsf]
  exact skip_to_aux_fuel code fr _ (pos + 5) false false _ (by omega) (by omega)

/-- `skip_to` stops on a byte of the find range (cursor on the byte). -/
theorem skip_to_found {code : List Nat} {fr : List Nat} {pos b : Nat}
    (hget : code.get? pos = some b) (hb : b ∈ fr)
    (hb0 : b ≠ 0) (hq : b ≠ 34) (hrem : b ≠ tk.REM) :
    skip_to code pos fr = pos := by
  unfold skip_to
  conv_lhs => rw [skip_to_aux]
  rw [hget]
  dsimp only
  rw [if_neg hq, if_neg hrem, if_neg hb0, if_neg hb0]
  simp only [Bool.or_self, Bool.false_eq_true, if_false]
  rw [if_pos hb]

/-- `skip_to` at the end-of-program sentinel: the cursor stops after the
`00 00` offset field. -/
theorem skip_to_end {code : List Nat} {fr : List Nat} {pos : Nat}
    (hget : code.get? pos = some 0) (hfr : (0 : Nat) ∉ fr)
    (hs : sread code (pos + 1) 2 = [0, 0]) :
    skip_to code pos fr = pos + 3 := by
  unfold skip_to
  conv_lhs => rw [skip_to_aux]
  rw [hget]
  dsimp only
  rw [if_neg (by decide : ¬ ((0 : Nat) = 34)), if_neg (by decide : ¬ ((0 : Nat) = tk.REM)),
    if_pos rfl, if_pos rfl]
  simp only [Bool.or_self, Bool.false_eq_true, if_false]
  rw [if_neg hfr, hs]
  rfl

/-- `backskip_white` described by the bytes before the cursor, reversed:
it lands on the first non-white byte going backwards. -/
theorem backskip_white_spec (code : List Nat) :
    ∀ p, p ≤ code.length →
      backskip_white code p =
        match (code.take p).reverse.dropWhile isWS with
        | b :: _ => (some b, p - 1 - ((code.take p).reverse.takeWhile isWS).length)
        | [] => (none, 0) := by
  intro p
  induction p with
  | zero =>
    intro _
    rfl
  | succ q ih =>
    intro hle
    have hget : code.get? q = some (code.get ⟨q, by omega⟩) := List.get?_eq_get (by omega)
    set b := code.get ⟨q, by omega⟩ with hb
    have hgetElem : code[q]? = some b := by
      rw [← List.get?_eq_getElem?]
      exact hget
    have htake : (code.take (q + 1)).reverse = b :: (code.take q).reverse := by
      rw [List.take_succ, hgetElem]
      simp
    unfold backskip_white
    rw [hget]
    dsimp only
    by_cases hws : isWS b = true
    · rw [if_pos hws, ih (by omega), htake]
      rw [List.dropWhile_cons_of_pos hws, List.takeWhile_cons_of_pos hws]
      cases hdw : (code.take q).reverse.dropWhile isWS with
      | nil => rfl
      | cons x xs =>
        have hlen2 : ((code.take q).reverse.takeWhile isWS).length ≤ q - 1 := by
          have h1 : ((code.take q).reverse.takeWhile isWS).length +
              ((code.take q).reverse.dropWhile isWS).length =
              (code.take q).reverse.length := by
            rw [← List.length_append, List.takeWhile_append_dropWhile]
          rw [hdw] at h1
          have h2 : (code.take q).reverse.length ≤ q := by
            simp [List.length_take]
          simp at h1
          omega
        simp only [List.length_cons]
        congr 1
        omega
    · rw [if_neg hws, htake]
      rw [List.dropWhile_cons_of_neg hws, List.takeWhile_cons_of_neg hws]
      simp

/-- Overwriting a same-length slice at a component boundary. -/
theorem swrite_append (A bs bs2 B : List Nat) (h : bs2.length = bs.length) :
    swrite (A ++ (bs ++ B)) A.length bs2 = A ++ (bs2 ++ B) := by
  unfold swrite
  rw [List.take_left]
  have hd : (A ++ (bs ++ B)).drop (A.length + bs2.length) = B := by
    rw [h, ← List.length_append]
    have : A ++ (bs ++ B) = (A ++ bs) ++ B := by simp
    rw [this, List.drop_left]
  rw [hd]
  simp

/-- Reading at a component boundary. -/
theorem sread_at (A B : List Nat) (n : Nat) : sread (A ++ B) A.length n = B.take n := by
  unfold sread
  rw [List.drop_left]

theorem get?_at (A : List Nat) (b : Nat) (B : List Nat) :
    (A ++ (b :: B)).get? A.length = some b := by
  rw [List.get?_append_right (le_refl _)]
  simp

/-- `renum_jumps` only looks at its cursor through `skip_to`. -/
theorem renum_jumps_congr (lnsOld o2n : List (Nat × Nat)) (fuel : Nat)
    (code : List Nat) (pos pos2 : Nat) (acc : List ScreenMsg)
    (h : skip_to code pos [tk.T_UINT] = skip_to code pos2 [tk.T_UINT]) :
    renum_jumps lnsOld o2n fuel code pos acc = renum_jumps lnsOld o2n fuel code pos2 acc := by
  cases fuel with
  | zero => rfl
  | succ f =>
    unfold renum_jumps skip_to_read
    rw [h]

/-- The double-backskip `ERROR GOTO` test of the renumber loop, applied
at a jump token sitting right after prefix `A`, is `errorGotoZero` of the
reversed prefix. -/
theorem errGotoCheck_spec (A B : List Nat) :
    errGotoCheck (A ++ B) (A.length + 3) = errorGotoZero A.reverse := by
  unfold errGotoCheck
  have h3 : A.length + 3 - 3 = A.length := by omega
  rw [h3]
  rw [backskip_white_spec (A ++ B) A.length (by simp)]
  rw [List.take_left]
  unfold errorGotoZero
  cases hdw : A.reverse.dropWhile isWS with
  | nil => rfl
  | cons b1 rest1 =>
    dsimp only
    by_cases hg : b1 = tk.GOTO
    · rw [if_pos hg, if_pos hg]
      set w := A.reverse.takeWhile isWS with hw
      have hsplit : A.reverse = w ++ (b1 :: rest1) := by
        conv_lhs => rw [← List.takeWhile_append_dropWhile (p := isWS) (l := A.reverse)]
        rw [hdw]
      have hlenA : A.length = w.length + 1 + rest1.length := by
        have hl := congrArg List.length hsplit
        simp only [List.length_reverse, List.length_append, List.length_cons] at hl
        omega
      have hq1 : A.length - 1 - w.length = rest1.length := by
        omega
      have hA : A = rest1.reverse ++ ([b1] ++ w.reverse) := by
        have hr := congrArg List.reverse hsplit
        simp only [List.reverse_reverse, List.reverse_append, List.reverse_cons] at hr
        simpa [List.append_assoc] using hr
      have htq : ((A ++ B).take (A.length - 1 - w.length)).reverse = rest1 := by
        rw [hq1]
        have hle : rest1.length ≤ A.length := by omega
        rw [List.take_append_of_le_length hle]
        conv_lhs => rw [hA]
        rw [List.take_append_of_le_length (by simp)]
        rw [show rest1.length = rest1.reverse.length from by simp]
        rw [List.take_length]
        simp
      rw [backskip_white_spec (A ++ B) (A.length - 1 - w.length) (by simp; omega)]
      rw [htq]
      cases hdw2 : rest1.dropWhile isWS with
      | nil => rfl
      | cons b2 r2 => rfl
    · rw [if_neg hg, if_neg hg]

theorem skip_to_read_some {code : List Nat} {pos p c : Nat} {fr : List Nat}
    (hsk : skip_to code pos fr = p) (hget : code.get? p = some c) :
    skip_to_read code pos fr = (some c, p + 1) := by
  unfold skip_to_read
  rw [hsk]
  dsimp only
  rw [hget]

theorem skip_to_read_none {code : List Nat} {pos p : Nat} {fr : List Nat}
    (hsk : skip_to code pos fr = p) (hget : code.get? p = none) :
    skip_to_read code pos fr = (none, p) := by
  unfold skip_to_read
  rw [hsk]
  dsimp only
  rw [hget]

/-- Little-endian decode inverts encode below 65536. -/
theorem dec2_enc2 (v : Nat) (h : v < 65536) : dec2 (encLo v) (encHi v) = v := by
  unfold dec2 encLo encHi
  omega

/-- Unit-sequence bytes unfold one unit at a time. -/
theorem susBytes_cons (u : SU) (us : List SU) :
    susBytes (u :: us) = suBytes u ++ susBytes us := by
  simp [susBytes]

/-- The jump-rewrite loop at the end-of-program sentinel: it stops and
returns the stream and the notices unchanged. -/
theorem renum_jumps_end (lnsOld o2n : List (Nat × Nat)) (f : Nat) (A : List Nat)
    (acc : List ScreenMsg) :
    renum_jumps lnsOld o2n (f + 1) (A ++ [0, 0, 0]) A.length acc = (A ++ [0, 0, 0], acc) := by
  have hget : (A ++ [0, 0, 0]).get? A.length = some 0 := get?_at A 0 [0, 0]
  have hs : sread (A ++ [0, 0, 0]) (A.length + 1) 2 = [0, 0] := by
    rw [show A ++ [0, 0, 0] = (A ++ [0]) ++ [0, 0] from by simp]
    rw [show A.length + 1 = (A ++ [(0 : Nat)]).length from by simp]
    rw [sread_at]
    rfl
  have hsk : skip_to (A ++ [0, 0, 0]) A.length [tk.T_UINT] = A.length + 3 :=
    skip_to_end hget (by decide) hs
  have hnone : (A ++ [0, 0, 0]).get? (A.length + 3) = none :=
    List.get?_eq_none.mpr (by simp)
  have hsr : skip_to_read (A ++ [0, 0, 0]) A.length [tk.T_UINT] = (none, A.length + 3) :=
    skip_to_read_none hsk hnone
  unfold renum_jumps
  rw [hsr]

/-- One step of the jump-rewrite loop over a plain byte: the cursor moves
on without touching the stream or the notices. -/
theorem renum_jumps_pl_step (lnsOld o2n : List (Nat × Nat)) (f : Nat) (A : List Nat)
    (b : Nat) (R : List Nat) (acc : List ScreenMsg)
    (hb0 : b ≠ 0) (hq : b ≠ 34) (hrem : b ≠ tk.REM) (hpb : tk.plus_bytes b = 0)
    (hne : b ≠ tk.T_UINT) :
    renum_jumps lnsOld o2n f (A ++ (b :: R)) A.length acc =
      renum_jumps lnsOld o2n f (A ++ (b :: R)) (A.length + 1) acc := by
  apply renum_jumps_congr
  exact skip_to_plain (get?_at A b R) hb0 hq hrem hpb (by simpa using hne)

/-- One step of the jump-rewrite loop over a line header: the five header
bytes are skipped whole. -/
theorem renum_jumps_hd_step (lnsOld o2n : List (Nat × Nat)) (f : Nat) (A : List Nat)
    (addr num : Nat) (R : List Nat) (acc : List ScreenMsg)
    (hne : ¬(encLo addr = 0 ∧ encHi addr = 0)) :
    renum_jumps lnsOld o2n f (A ++ (0 :: (enc2 addr ++ (enc2 num ++ R)))) A.length acc =
      renum_jumps lnsOld o2n f (A ++ (0 :: (enc2 addr ++ (enc2 num ++ R))))
        (A.length + 5) acc := by
  apply renum_jumps_congr
  have hs : sread (A ++ (0 :: (enc2 addr ++ (enc2 num ++ R)))) (A.length + 1) 2 =
      [encLo addr, encHi addr] := by
    rw [show A ++ (0 :: (enc2 addr ++ (enc2 num ++ R))) =
        (A ++ [0]) ++ (enc2 addr ++ (enc2 num ++ R)) from by simp]
    rw [show A.length + 1 = (A ++ [(0 : Nat)]).length from by simp]
    rw [sread_at]
    rfl
  have hin : A.length + 5 ≤ (A ++ (0 :: (enc2 addr ++ (enc2 num ++ R)))).length := by
    simp [enc2]
  exact skip_to_header (get?_at A 0 _) (by decide) hs hne hin

/-- One step of the jump-rewrite loop at a jump-number token sitting
right after prefix `A`: it decodes the two payload bytes, special-cases a
zero target after `ERROR GOTO`, rewrites a renumbered target, and
otherwise keeps the value, noting it when absent from the old index. -/
theorem renum_jumps_un_step (lnsOld o2n : List (Nat × Nat)) (f : Nat) (A : List Nat)
    (v : Nat) (R : List Nat) (acc : List ScreenMsg) (hv : v < 65536) :
    renum_jumps lnsOld o2n (f + 1) (A ++ (tk.T_UINT :: (enc2 v ++ R))) A.length acc =
      if v = 0 ∧ errorGotoZero A.reverse = true then
        renum_jumps lnsOld o2n f (A ++ (tk.T_UINT :: (enc2 v ++ R))) (A.length + 3) acc
      else
        match lookupLine o2n v with
        | some nj =>
          renum_jumps lnsOld o2n f (A ++ (tk.T_UINT :: (enc2 nj ++ R))) (A.length + 3) acc
        | none =>
          renum_jumps lnsOld o2n f (A ++ (tk.T_UINT :: (enc2 v ++ R))) (A.length + 3)
            (if (lookupLine lnsOld v).isSome then acc
             else acc ++ [.undefLine v (get_line_number lnsOld (A.length + 2))]) := by
  have hget : (A ++ (tk.T_UINT :: (enc2 v ++ R))).get? A.length = some tk.T_UINT :=
    get?_at A tk.T_UINT _
  have hsk : skip_to (A ++ (tk.T_UINT :: (enc2 v ++ R))) A.length [tk.T_UINT] = A.length :=
    skip_to_found hget (by simp) (by decide) (by decide) (by decide)
  have hsr : skip_to_read (A ++ (tk.T_UINT :: (enc2 v ++ R))) A.length [tk.T_UINT] =
      (some tk.T_UINT, A.length + 1) := skip_to_read_some hsk hget
  have hread : sread (A ++ (tk.T_UINT :: (enc2 v ++ R))) (A.length + 1) 2 =
      [encLo v, encHi v] := by
    rw [show A ++ (tk.T_UINT :: (enc2 v ++ R)) =
        (A ++ [tk.T_UINT]) ++ (enc2 v ++ R) from by simp]
    rw [show A.length + 1 = (A ++ [tk.T_UINT]).length from by simp]
    rw [sread_at]
    rfl
  have hpP : safter (A ++ (tk.T_UINT :: (enc2 v ++ R))) (A.length + 1) 2 =
      A.length + 3 := by
    simp [safter, enc2]
    omega
  have hsw : ∀ m : Nat,
      swrite (A ++ (tk.T_UINT :: (enc2 v ++ R))) (A.length + 1) (enc2 m) =
        A ++ (tk.T_UINT :: (enc2 m ++ R)) := by
    intro m
    rw [show A ++ (tk.T_UINT :: (enc2 v ++ R)) =
        (A ++ [tk.T_UINT]) ++ (enc2 v ++ R) from by simp]
    rw [show A.length + 1 = (A ++ [tk.T_UINT]).length from by simp]
    rw [swrite_append _ _ _ _ (by simp [enc2])]
    simp
  have hb : ((if v = 0 then
        errGotoCheck (A ++ (tk.T_UINT :: (enc2 v ++ R))) (A.length + 3) else false) = true) ↔
      (v = 0 ∧ errorGotoZero A.reverse = true) := by
    rw [errGotoCheck_spec A (tk.T_UINT :: (enc2 v ++ R))]
    by_cases hv0 : v = 0 <;> simp [hv0]
  conv_lhs => unfold renum_jumps
  rw [hsr]
  dsimp only
  rw [if_pos rfl, hread]
  dsimp only
  rw [dec2_enc2 v hv, hpP]
  rw [show A.length + 3 - 2 = A.length + 1 from by omega,
      show A.length + 3 - 1 = A.length + 2 from by omega]
  rw [if_congr hb rfl rfl]
  by_cases hc : v = 0 ∧ errorGotoZero A.reverse = true
  · rw [if_pos hc, if_pos hc]
  · rw [if_neg hc, if_neg hc]
    cases hl : lookupLine o2n v with
    | some nj =>
      dsimp only
      rw [hsw nj]
    | none =>
      dsimp only
      rw [hsw v]

/-- `renumJumpSpec` at the empty unit sequence. -/
theorem renumJumpSpec_nil (lnsOld o2n : List (Nat × Nat)) (prev : List Nat) (pos : Nat) :
    renumJumpSpec lnsOld o2n [] prev pos = ([], []) := rfl

/-- `renumJumpSpec` over a plain byte. -/
theorem renumJumpSpec_pl (lnsOld o2n : List (Nat × Nat)) (b : Nat) (us : List SU)
    (prev : List Nat) (pos : Nat) :
    renumJumpSpec lnsOld o2n (.pl b :: us) prev pos =
      (.pl b :: (renumJumpSpec lnsOld o2n us (b :: prev) (pos + 1)).1,
       (renumJumpSpec lnsOld o2n us (b :: prev) (pos + 1)).2) := rfl

/-- `renumJumpSpec` over a line header. -/
theorem renumJumpSpec_hd (lnsOld o2n : List (Nat × Nat)) (addr num : Nat) (us : List SU)
    (prev : List Nat) (pos : Nat) :
    renumJumpSpec lnsOld o2n (.hd addr num :: us) prev pos =
      (.hd addr num :: (renumJumpSpec lnsOld o2n us
          (encHi num :: encLo num :: encHi addr :: encLo addr :: 0 :: prev) (pos + 5)).1,
       (renumJumpSpec lnsOld o2n us
          (encHi num :: encLo num :: encHi addr :: encLo addr :: 0 :: prev) (pos + 5)).2) := rfl

/-- `renumJumpSpec` at an `ERROR GOTO 0` jump token. -/
theorem renumJumpSpec_un_skip (lnsOld o2n : List (Nat × Nat)) (v : Nat) (us : List SU)
    (prev : List Nat) (pos : Nat) (h : v = 0 ∧ errorGotoZero prev = true) :
    renumJumpSpec lnsOld o2n (.un v :: us) prev pos =
      (.un v :: (renumJumpSpec lnsOld o2n us
          (encHi v :: encLo v :: tk.T_UINT :: prev) (pos + 3)).1,
       (renumJumpSpec lnsOld o2n us
          (encHi v :: encLo v :: tk.T_UINT :: prev) (pos + 3)).2) := by
  conv_lhs => rw [renumJumpSpec]
  rw [if_pos h]

/-- `renumJumpSpec` at a jump token with a renumbered target. -/
theorem renumJumpSpec_un_rw (lnsOld o2n : List (Nat × Nat)) (v nj : Nat) (us : List SU)
    (prev : List Nat) (pos : Nat) (h : ¬(v = 0 ∧ errorGotoZero prev = true))
    (hl : lookupLine o2n v = some nj) :
    renumJumpSpec lnsOld o2n (.un v :: us) prev pos =
      (.un nj :: (renumJumpSpec lnsOld o2n us
          (encHi nj :: encLo nj :: tk.T_UINT :: prev) (pos + 3)).1,
       (renumJumpSpec lnsOld o2n us
          (encHi nj :: encLo nj :: tk.T_UINT :: prev) (pos + 3)).2) := by
  conv_lhs => rw [renumJumpSpec]
  rw [if_neg h, hl]

/-- `renumJumpSpec` at a jump token with no renumbered target. -/
theorem renumJumpSpec_un_keep (lnsOld o2n : List (Nat × Nat)) (v : Nat) (us : List SU)
    (prev : List Nat) (pos : Nat) (h : ¬(v = 0 ∧ errorGotoZero prev = true))
    (hl : lookupLine o2n v = none) :
    renumJumpSpec lnsOld o2n (.un v :: us) prev pos =
      (if (lookupLine lnsOld v).isSome then
        (.un v :: (renumJumpSpec lnsOld o2n us
            (encHi v :: encLo v :: tk.T_UINT :: prev) (pos + 3)).1,
         (renumJumpSpec lnsOld o2n us
            (encHi v :: encLo v :: tk.T_UINT :: prev) (pos + 3)).2)
       else
        (.un v :: (renumJumpSpec lnsOld o2n us
            (encHi v :: encLo v :: tk.T_UINT :: prev) (pos + 3)).1,
         .undefLine v (get_line_number lnsOld (pos + 2)) ::
           (renumJumpSpec lnsOld o2n us
             (encHi v :: encLo v :: tk.T_UINT :: prev) (pos + 3)).2)) := by
  conv_lhs => rw [renumJumpSpec]
  rw [if_neg h, hl]

/-- The jump-rewrite loop of `renum` computes `renumJumpSpec`, unit by
unit: induction over the unit stream, generalising the already-walked
byte prefix `A`, the accumulated notices and the fuel. -/
theorem renum_jumps_spec_aux (lnsOld o2n : List (Nat × Nat)) :
    ∀ us : List SU, (∀ u ∈ us, suOK u) →
    ∀ (A : List Nat) (acc : List ScreenMsg) (fuel : Nat), uintCount us + 1 ≤ fuel →
    renum_jumps lnsOld o2n fuel (A ++ (susBytes us ++ [0, 0, 0])) A.length acc =
      (A ++ (susBytes (renumJumpSpec lnsOld o2n us A.reverse A.length).1 ++ [0, 0, 0]),
       acc ++ (renumJumpSpec lnsOld o2n us A.reverse A.length).2) := by
  intro us
  induction us with
  | nil =>
    intro _ A acc fuel hfuel
    simp only [uintCount] at hfuel
    obtain ⟨f, rfl⟩ : ∃ f, fuel = f + 1 := ⟨fuel - 1, by omega⟩
    rw [show susBytes [] = ([] : List Nat) from rfl]
    rw [List.nil_append, renum_jumps_end, renumJumpSpec_nil]
    simp [susBytes]
  | cons u us ih =>
    intro hok A acc fuel hfuel
    have hoku : suOK u := hok u (by simp)
    have hokus : ∀ w ∈ us, suOK w := fun w hw => hok w (List.mem_cons_of_mem u hw)
    cases u with
    | pl b =>
      obtain ⟨hb0, _, hbq, hbrem, hbpb⟩ := hoku
      have hbne : b ≠ tk.T_UINT := by
        intro hbe
        rw [hbe] at hbpb
        exact absurd hbpb (by decide)
      rw [show susBytes (SU.pl b :: us) ++ [0, 0, 0] =
          b :: (susBytes us ++ [0, 0, 0]) from by simp [susBytes_cons, suBytes]]
      rw [renum_jumps_pl_step lnsOld o2n fuel A b _ acc (by omega) hbq hbrem hbpb hbne]
      rw [show A ++ (b :: (susBytes us ++ [0, 0, 0])) =
          (A ++ [b]) ++ (susBytes us ++ [0, 0, 0]) from by simp]
      rw [show A.length + 1 = (A ++ [b]).length from by simp]
      rw [ih hokus (A ++ [b]) acc fuel (by simpa [uintCount] using hfuel)]
      rw [renumJumpSpec_pl]
      simp [susBytes_cons, suBytes]
    | hd addr num =>
      have hne : ¬(encLo addr = 0 ∧ encHi addr = 0) := hoku
      rw [show susBytes (SU.hd addr num :: us) ++ [0, 0, 0] =
          0 :: (enc2 addr ++ (enc2 num ++ (susBytes us ++ [0, 0, 0]))) from by
        simp [susBytes_cons, suBytes]]
      rw [renum_jumps_hd_step lnsOld o2n fuel A addr num _ acc hne]
      rw [show A ++ (0 :: (enc2 addr ++ (enc2 num ++ (susBytes us ++ [0, 0, 0])))) =
          (A ++ (0 :: (enc2 addr ++ enc2 num))) ++ (susBytes us ++ [0, 0, 0]) from by simp]
      rw [show A.length + 5 = (A ++ (0 :: (enc2 addr ++ enc2 num))).length from by
        simp [enc2]]
      rw [ih hokus _ acc fuel (by simpa [uintCount] using hfuel)]
      rw [renumJumpSpec_hd]
      simp [susBytes_cons, suBytes, enc2, encLo, encHi]
    | un v =>
      have hv : v < 65536 := hoku
      simp only [uintCount] at hfuel
      obtain ⟨f, rfl⟩ : ∃ f, fuel = f + 1 := ⟨fuel - 1, by omega⟩
      rw [show susBytes (SU.un v :: us) ++ [0, 0, 0] =
          tk.T_UINT :: (enc2 v ++ (susBytes us ++ [0, 0, 0])) from by
        simp [susBytes_cons, suBytes]]
      rw [renum_jumps_un_step lnsOld o2n f A v _ acc hv]
      by_cases hc : v = 0 ∧ errorGotoZero A.reverse = true
      · rw [if_pos hc, renumJumpSpec_un_skip lnsOld o2n v us A.reverse A.length hc]
        rw [show A ++ (tk.T_UINT :: (enc2 v ++ (susBytes us ++ [0, 0, 0]))) =
            (A ++ (tk.T_UINT :: enc2 v)) ++ (susBytes us ++ [0, 0, 0]) from by simp]
        rw [show A.length + 3 = (A ++ (tk.T_UINT :: enc2 v)).length from by simp [enc2]]
        rw [ih hokus _ acc f (by omega)]
        simp [susBytes_cons, suBytes, enc2, encLo, encHi]
      · rw [if_neg hc]
        cases hl : lookupLine o2n v with
        | some nj =>
          dsimp only
          rw [renumJumpSpec_un_rw lnsOld o2n v nj us A.reverse A.length hc hl]
          rw [show A ++ (tk.T_UINT :: (enc2 nj ++ (susBytes us ++ [0, 0, 0]))) =
              (A ++ (tk.T_UINT :: enc2 nj)) ++ (susBytes us ++ [0, 0, 0]) from by simp]
          rw [show A.length + 3 = (A ++ (tk.T_UINT :: enc2 nj)).length from by
            simp [enc2]]
          rw [ih hokus _ acc f (by omega)]
          simp [susBytes_cons, suBytes, enc2, encLo, encHi]
        | none =>
          dsimp only
          rw [renumJumpSpec_un_keep lnsOld o2n v us A.reverse A.length hc hl]
          rw [show A ++ (tk.T_UINT :: (enc2 v ++ (susBytes us ++ [0, 0, 0]))) =
              (A ++ (tk.T_UINT :: enc2 v)) ++ (susBytes us ++ [0, 0, 0]) from by simp]
          rw [show A.length + 3 = (A ++ (tk.T_UINT :: enc2 v)).length from by
            simp [enc2]]
          rw [ih hokus _ _ f (by omega)]
          by_cases ho : (lookupLine lnsOld v).isSome
          · rw [if_pos ho, if_pos ho]
            simp [susBytes_cons, suBytes, enc2, encLo, encHi]
          · rw [if_neg ho, if_neg ho]
            simp [susBytes_cons, suBytes, enc2, encLo, encHi]

/-- Claim C4 (amended): on a well-formed tokenised stream — a sequence of
plain bytes, line headers and jump-number tokens closed by the `00 00 00`
sentinel — the jump-rewrite pass of `renum` behaves exactly as
`renumJumpSpec`: every jump-number token whose target is in the
old-to-new map is rewritten to the renumbered target; a jump number of
literal 0 immediately preceded by the `ERROR GOTO` token pair is left
untouched; every other jump number keeps its original value and is
reported with an `Undefined line` notice exactly when its target is
absent from the pre-renumbering line-number index — regardless of whether
the target is present in the index after renumbering. -/
theorem C4_renum_jump_rewrite (lnsOld o2n : List (Nat × Nat)) (us : List SU)
    (hok : ∀ u ∈ us, suOK u) (fuel : Nat) (hfuel : uintCount us + 1 ≤ fuel) :
    renum_jumps lnsOld o2n fuel (susBytes us ++ [0, 0, 0]) 0 [] =
      (susBytes (renumJumpSpec lnsOld o2n us [] 0).1 ++ [0, 0, 0],
       (renumJumpSpec lnsOld o2n us [] 0).2) := by
  have h := renum_jumps_spec_aux lnsOld o2n us hok [] [] fuel hfuel
  simpa using h

/-- Claim C4 (witness): the stream `10 GOTO 20:GOTO 30` with line 20
renumbered to 5 and line 30 absent from the old index — the loop rewrites
the first jump and reports the second, exactly as `renumJumpSpec`. -/
theorem C4_renum_jump_rewrite_witness :
    renum_jumps [(20, 1)] [(20, 5)] 16
        (susBytes [SU.hd 7 10, SU.pl tk.GOTO, SU.un 20,
          SU.pl 58, SU.pl tk.GOTO, SU.un 30] ++ [0, 0, 0]) 0 [] =
      (susBytes (renumJumpSpec [(20, 1)] [(20, 5)]
          [SU.hd 7 10, SU.pl tk.GOTO, SU.un 20,
            SU.pl 58, SU.pl tk.GOTO, SU.un 30] [] 0).1 ++ [0, 0, 0],
       (renumJumpSpec [(20, 1)] [(20, 5)]
          [SU.hd 7 10, SU.pl tk.GOTO, SU.un 20,
            SU.pl 58, SU.pl tk.GOTO, SU.un 30] [] 0).2) :=
  C4_renum_jump_rewrite [(20, 1)] [(20, 5)]
    [SU.hd 7 10, SU.pl tk.GOTO, SU.un 20, SU.pl 58, SU.pl tk.GOTO, SU.un 30]
    (by
      intro u hu
      simp only [List.mem_cons, List.not_mem_nil, or_false] at hu
      rcases hu with rfl | rfl | rfl | rfl | rfl | rfl <;> simp only [suOK] <;> decide)
    16 (by decide)

/-- Claim C2 (counterexample): the line `10 ?` is syntactically valid and
contains no letters at all, so none of the four listed canonicalisations
(keyword upper-casing, the `:REM` quote collapse, the WHILE-marker
collapse, ELSE spacing) can rewrite it; yet tokenising and detokenising
it yields `10 PRINT` — the tokeniser expands the `?` abbreviation to the
PRINT token, a rewrite outside the claimed list. -/
theorem C2_counterexample :
    detokenise_line (tokenise_line [49, 48, 32, 63]) 1 =
      (10, [49, 48, 32, 80, 82, 73, 78, 84], 6) ∧
    [49, 48, 32, 80, 82, 73, 78, 84] ≠ [49, 48, 32, 63] ∧
    [49, 48, 32, 63].all (fun b => !(isLetter b)) = true := by
  refine ⟨by decide, by decide, by decide⟩

/-- The fuelled digit expansion agrees with `Nat.digits` once the fuel
reaches the number. -/
theorem natDigitsAux_eq_digits : ∀ fuel n, n ≤ fuel → natDigitsAux fuel n = Nat.digits 10 n := by
  intro fuel
  induction fuel with
  | zero =>
    intro n h
    have h0 : n = 0 := by omega
    subst h0
    simp [natDigitsAux]
  | succ f ih =>
    intro n h
    unfold natDigitsAux
    by_cases h0 : n = 0
    · subst h0
      simp
    · rw [if_neg h0]
      rw [Nat.digits_def' (by norm_num : (1 : ℕ) < 10) (Nat.pos_of_ne_zero h0)]
      rw [ih (n / 10) (by omega)]

theorem digitsVal_append (ds : List Nat) (d : Nat) :
    digitsVal (ds ++ [d]) = digitsVal ds * 10 + (d - 48) := by
  unfold digitsVal
  rw [List.foldl_append]
  rfl

/-- The most-significant-first fold of `digitsVal` is `Nat.ofDigits` of
the reversed digit values. -/
theorem digitsVal_eq_ofDigits (ds : List Nat) :
    digitsVal ds = Nat.ofDigits 10 ((ds.map (fun b => b - 48)).reverse) := by
  induction ds using List.reverseRecOn with
  | nil => rfl
  | append_singleton ds d ih =>
    rw [digitsVal_append, ih]
    rw [List.map_append, List.reverse_append]
    simp [Nat.ofDigits_cons]
    ring

/-- Decimal rendering inverts the digit-string value on digit strings
without a leading zero (Python `str(int(ds)) == ds`). -/
theorem natToDecimal_digitsVal (ds : List Nat) (hne : ds ≠ [])
    (hdig : ∀ b ∈ ds, isDigit b = true) (hlead : ds.head? ≠ some 48) :
    natToDecimal (digitsVal ds) = ds := by
  have hofd := digitsVal_eq_ofDigits ds
  have hL : ∀ l ∈ (ds.map (fun b => b - 48)).reverse, l < 10 := by
    intro l hl
    rw [List.mem_reverse, List.mem_map] at hl
    obtain ⟨b, hb, rfl⟩ := hl
    have := hdig b hb
    simp [isDigit] at this
    omega
  have hlast : ∀ h : (ds.map (fun b => b - 48)).reverse ≠ [],
      ((ds.map (fun b => b - 48)).reverse).getLast h ≠ 0 := by
    intro h
    rw [List.getLast_reverse]
    cases ds with
    | nil => exact absurd rfl hne
    | cons d0 rest =>
      simp only [List.map_cons, List.head_cons]
      have hd0 := hdig d0 (by simp)
      simp [isDigit] at hd0
      have : d0 ≠ 48 := by
        intro hc
        rw [hc] at hlead
        simp at hlead
      omega
  have hdg : Nat.digits 10 (digitsVal ds) = (ds.map (fun b => b - 48)).reverse := by
    rw [hofd]
    exact Nat.digits_ofDigits 10 (by norm_num) _ hL hlast
  have hne2 : (ds.map (fun b => b - 48)).reverse ≠ [] := by
    simp only [ne_eq, List.reverse_eq_nil_iff, List.map_eq_nil_iff]
    exact hne
  have hn0 : digitsVal ds ≠ 0 := by
    intro hc
    rw [hc] at hdg
    simp at hdg
    exact hne2 (by simp [hdg])
  unfold natToDecimal
  rw [if_neg hn0]
  rw [natDigitsAux_eq_digits _ _ (by omega), hdg]
  rw [← List.map_reverse, List.reverse_reverse, List.map_map]
  have : ∀ b ∈ ds, (((fun d => d + 48) ∘ fun b => b - 48) b) = id b := by
    intro b hb
    have := hdig b hb
    simp [isDigit] at this
    simp
    omega
  rw [List.map_congr_left this, List.map_id]

theorem speek_at (A B : List Nat) : speek (A ++ B) A.length = B.head? := by
  unfold speek
  cases B with
  | nil =>
    rw [List.get?_eq_none.mpr (by simp)]
    rfl
  | cons b bs => exact get?_at A b bs

theorem isDigit_eq_false_of_isLetter {b : Nat} (h : isLetter b = true) : isDigit b = false := by
  simp [isLetter] at h
  simp [isDigit]
  omega

theorem isWS_eq_false_of_isLetter {b : Nat} (h : isLetter b = true) : isWS b = false := by
  simp [isLetter] at h
  simp [isWS]
  omega

theorem takeWhile_append_of_all {p : Nat → Bool} {l1 : List Nat} (l2 : List Nat)
    (h : ∀ b ∈ l1, p b = true) :
    (l1 ++ l2).takeWhile p = l1 ++ l2.takeWhile p := by
  induction l1 with
  | nil => simp
  | cons a l ih =>
    rw [List.cons_append, List.takeWhile_cons_of_pos (h a (by simp))]
    rw [ih (fun b hb => h b (by simp [hb]))]
    rfl

theorem dropWhile_append_of_all {p : Nat → Bool} {l1 : List Nat} (l2 : List Nat)
    (h : ∀ b ∈ l1, p b = true) :
    (l1 ++ l2).dropWhile p = l2.dropWhile p := by
  induction l1 with
  | nil => simp
  | cons a l ih =>
    rw [List.cons_append, List.dropWhile_cons_of_pos (h a (by simp))]
    exact ih (fun b hb => h b (by simp [hb]))

/-- Each keyword-table entry is recovered by the inverse lookup: the
token bytes of the table are pairwise distinct. -/
theorem tableInv_entries : ∀ e ∈ keywordTable, token_to_keyword e.2 = some e.1 := by
  decide

/-- The token table inverse: a keyword looked up forward is recovered
backward from its token. -/
theorem token_to_keyword_of_keyword_to_token {u t : List Nat}
    (h : keyword_to_token u = some t) : token_to_keyword t = some u := by
  unfold keyword_to_token at h
  cases hf : keywordTable.find? (fun e => e.1 = u) with
  | none => rw [hf] at h; exact absurd h (by simp)
  | some e =>
    rw [hf] at h
    have hmem : e ∈ keywordTable := List.mem_of_find?_eq_some hf
    have hfst : e.1 = u := by
      have := List.find?_some hf
      exact of_decide_eq_true this
    have := tableInv_entries e hmem
    rw [hfst] at this
    have ht : e.2 = t := by simpa using h
    rw [ht] at this
    exact this

/-- The word loop of the tokeniser, on a simple keyword word followed by
a non-name byte (or the end of the line): it consumes exactly the word,
upper-cases it, and emits its token.  `v` is the consumed prefix and `u`
the rest of the word. -/
theorem tokenise_word_trace_aux (w : List Nat) (hw : simpleKW w = true) (A R : List Nat)
    (hR : ∀ b, R.head? = some b → tk.isNameChar b = false) :
    ∀ u v : List Nat, w = v ++ u → u ≠ [] →
    ∀ fuel, u.length ≤ fuel → ∀ out,
    tokenise_word_loop (A ++ (w ++ R)) fuel (A.length + v.length) (v.map toUpperB) out =
      (w.map toUpperB, A.length + w.length,
       out ++ (keyword_to_token (w.map toUpperB)).getD []) := by
  simp only [simpleKW, Bool.and_eq_true, decide_eq_true_eq, List.all_eq_true,
    Bool.not_eq_true', Option.isSome_iff_exists, List.mem_cons] at hw
  obtain ⟨⟨⟨⟨⟨⟨⟨⟨hwne, hlet⟩, hgo⟩, hsome⟩, hlen1⟩, h128⟩, hnotin⟩, helse⟩, hpre⟩ := hw
  have hpre2 : ∀ k, k < w.length → keyword_to_token ((w.map toUpperB).take k) = none := by
    intro k hk
    have := hpre k (by simpa using hk)
    exact Option.isNone_iff_eq_none.mp this
  intro u
  induction u with
  | nil =>
    intro v _ hne
    exact absurd rfl hne
  | cons c u2 ih =>
    intro v hsplit _ fuel hfuel out
    obtain ⟨f, rfl⟩ : ∃ f, fuel = f + 1 := ⟨fuel - 1, by simp at hfuel; omega⟩
    have hcw : c ∈ w := by
      rw [hsplit]
      simp
    have hclet : isLetter c = true := hlet c hcw
    have hshape : A ++ (w ++ R) = (A ++ v) ++ (c :: (u2 ++ R)) := by
      rw [hsplit]
      simp
    have hget : (A ++ (w ++ R)).get? (A.length + v.length) = some c := by
      rw [hshape, show A.length + v.length = (A ++ v).length from by simp]
      exact get?_at _ c _
    have hpref : (w.map toUpperB).take (v.length + 1) = v.map toUpperB ++ [toUpperB c] := by
      rw [hsplit]
      rw [List.map_append, List.map_cons, List.take_append_eq_append_take]
      rw [List.take_all_of_le (by simp)]
      congr 1
      simp
    have hnego : v.map toUpperB ++ [toUpperB c] ≠ kwGO := by
      intro hc
      have hlv : v.length + 1 = 2 := by
        have := congrArg List.length hc
        simpa [kwGO] using this
      apply hgo
      rw [show (2 : Nat) = v.length + 1 from by omega, hpref, hc]
    have htake2 : ∀ kwx : List Nat, kwx.length = 4 ∨ kwx.length = 5 →
        kwx.take 2 = kwGO →
        v.map toUpperB ++ [toUpperB c] = kwx → False := by
      intro kwx hlx htk hc
      have hlv : v.length + 1 = kwx.length := by
        have := congrArg List.length hc
        simpa using this
      apply hgo
      have h2le : 2 ≤ v.length + 1 := by omega
      rw [show (2 : Nat) = min 2 (v.length + 1) from by omega, ← List.take_take, hpref, hc, htk]
    have hnegoto : v.map toUpperB ++ [toUpperB c] ≠ kwGOTO := fun hc =>
      htake2 kwGOTO (by left; rfl) (by rfl) hc
    have hnegosub : v.map toUpperB ++ [toUpperB c] ≠ kwGOSUB := fun hc =>
      htake2 kwGOSUB (by right; rfl) (by rfl) hc
    conv_lhs => unfold tokenise_word_loop
    rw [show speek (A ++ (w ++ R)) (A.length + v.length) = some c from hget]
    dsimp only
    rw [if_neg hnego]
    dsimp only
    rw [if_neg (by
      intro hc
      rcases hc with hc | hc
      · exact hnegoto hc
      · exact hnegosub hc)]
    dsimp only
    cases u2 with
    | nil =>
      have hwv : w = v ++ [c] := by simpa using hsplit
      have hword : v.map toUpperB ++ [toUpperB c] = w.map toUpperB := by
        rw [hwv]
        simp
      obtain ⟨tok, htok⟩ := hsome
      rw [hword, htok]
      dsimp only
      have hfour : ¬(w.map toUpperB = kwFN ∨ w.map toUpperB = kwSPCb ∨
          w.map toUpperB = kwTABb ∨ w.map toUpperB = kwUSR) := by
        intro hc
        apply hnotin
        rcases hc with hc | hc | hc | hc <;> simp [hc]
      rw [if_neg hfour]
      have hpos3 : A.length + v.length + 1 = (A ++ w).length := by
        rw [hwv]
        simp
        omega
      have hspk : speek (A ++ (w ++ R)) (A.length + v.length + 1) = R.head? := by
        rw [show A ++ (w ++ R) = (A ++ w) ++ R from by simp, hpos3]
        exact speek_at _ _
      rw [hspk]
      have hlonger :
          (match R.head? with
            | some nxt => tk.isNameChar nxt
            | none => false) = false := by
        cases hRh : R.head? with
        | none => rfl
        | some b => exact hR b hRh
      rw [hlonger]
      rw [if_neg (by decide : ¬(false = true))]
      rw [if_neg (by
        intro hc
        exact hnotin (by simp [hc]))]
      rw [if_neg (by
        intro hc
        exact hnotin (by simp [hc]))]
      have hlw : A.length + v.length + 1 = A.length + w.length := by
        rw [hwv]
        simp
        omega
      rw [hlw]
      rfl
    | cons c2 u3 =>
      have hklt : v.length + 1 < w.length := by
        rw [hsplit]
        simp
      have hnone : keyword_to_token (v.map toUpperB ++ [toUpperB c]) = none := by
        rw [← hpref]
        exact hpre2 (v.length + 1) hklt
      rw [hnone]
      dsimp only
      rw [if_pos (by simp [tk.isNameChar, hclet])]
      have hv2 : w = (v ++ [c]) ++ (c2 :: u3) := by
        rw [hsplit]
        simp
      have := ih (v ++ [c]) hv2 (by simp) f (by simp at hfuel ⊢; omega) out
      rw [show A.length + v.length + 1 = A.length + (v ++ [c]).length from by simp; omega]
      rw [show v.map toUpperB ++ [toUpperB c] = (v ++ [c]).map toUpperB from by simp]
      exact this

/-- The word loop from the start of a simple keyword word. -/
theorem tokenise_word_trace (w : List Nat) (hw : simpleKW w = true) (A R : List Nat)
    (hR : ∀ b, R.head? = some b → tk.isNameChar b = false)
    (fuel : Nat) (hfuel : w.length ≤ fuel) (out : List Nat) :
    tokenise_word_loop (A ++ (w ++ R)) fuel A.length [] out =
      (w.map toUpperB, A.length + w.length,
       out ++ (keyword_to_token (w.map toUpperB)).getD []) := by
  have hne : w ≠ [] := by
    simp only [simpleKW, Bool.and_eq_true, decide_eq_true_eq] at hw
    exact hw.1.1.1.1.1.1.1.1
  have := tokenise_word_trace_aux w hw A R hR w [] (by simp) hne fuel
    (by simpa using hfuel) out
  simpa using this

theorem bodyText_cons (it : BItem) (rest : List BItem) :
    bodyText (it :: rest) = bitemText it ++ bodyText rest := by
  simp [bodyText]

theorem btokens_cons (it : BItem) (rest : List BItem) :
    btokens (it :: rest) = bitemToken it ++ btokens rest := by
  simp [btokens]

theorem bodyCanon_cons (it : BItem) (rest : List BItem) :
    bodyCanon (it :: rest) = bitemCanon it ++ bodyCanon rest := by
  simp [bodyCanon]

theorem upper_letters_ne {w : List Nat} (hlet : ∀ b ∈ w, isLetter b = true)
    {x : Nat} (hx : x < 65 ∨ 90 < x) : w.map toUpperB ≠ [x] := by
  intro hc
  cases w with
  | nil => simp at hc
  | cons c w2 =>
    simp only [List.map_cons, List.cons.injEq] at hc
    have hl := hlet c (by simp)
    simp [isLetter] at hl
    have : toUpperB c = x := hc.1
    simp only [toUpperB] at this
    split at this <;> omega

/-- The main tokeniser loop over a well-formed body of spaces and simple
keywords: it emits exactly the body tokens, whatever the mode flags. -/
theorem tokenise_main_trace (items : List BItem) (hok : bodyOK items = true) :
    ∀ (A out : List Nat) (aj an st : Bool) (fuel : Nat), items.length + 1 ≤ fuel →
    tokenise_main (A ++ bodyText items) fuel A.length out aj an st =
      out ++ btokens items := by
  induction items with
  | nil =>
    intro A out aj an st fuel hfuel
    obtain ⟨f, rfl⟩ : ∃ f, fuel = f + 1 := ⟨fuel - 1, by omega⟩
    have hend : speek (A ++ bodyText []) A.length = none := by
      show speek (A ++ bodyText []) A.length = ([] : List Nat).head?
      rw [show bodyText [] = ([] : List Nat) from rfl]
      exact speek_at A []
    conv_lhs => unfold tokenise_main
    rw [hend]
    simp [btokens]
  | cons it rest ih =>
    intro A out aj an st fuel hfuel
    obtain ⟨f, rfl⟩ : ∃ f, fuel = f + 1 := ⟨fuel - 1, by omega⟩
    cases it with
    | sp =>
      have hok2 : bodyOK rest = true := by
        simpa [bodyOK] using hok
      rw [bodyText_cons]
      have hshape : A ++ (bitemText BItem.sp ++ bodyText rest) =
          A ++ (32 :: bodyText rest) := rfl
      rw [hshape]
      have hget : speek (A ++ (32 :: bodyText rest)) A.length = some 32 :=
        get?_at A 32 _
      conv_lhs => unfold tokenise_main
      rw [hget]
      dsimp only
      rw [if_neg (by decide : ¬((32 : Nat) = 0)), if_neg (by decide : ¬((32 : Nat) = 13)),
        if_pos (by decide : isWS 32 = true)]
      rw [show A ++ (32 :: bodyText rest) = (A ++ [32]) ++ bodyText rest from by simp]
      rw [show A.length + 1 = (A ++ [32]).length from by simp]
      rw [ih hok2 (A ++ [32]) (out ++ [32]) aj an st f (by simp at hfuel; omega)]
      rw [btokens_cons]
      simp [bitemToken]
    | kw w =>
      have hok3 := hok
      simp only [bodyOK, Bool.and_eq_true] at hok3
      obtain ⟨⟨hw, hfollow⟩, hok2⟩ := hok3
      have hwprops := hw
      simp only [simpleKW, Bool.and_eq_true, decide_eq_true_eq, List.all_eq_true] at hwprops
      obtain ⟨⟨⟨⟨⟨⟨⟨⟨hwne, hlet⟩, hgo⟩, hsome⟩, hlen1⟩, h128⟩, hnotin⟩, helse⟩, hpre⟩ :=
        hwprops
      have hR : ∀ b, (bodyText rest).head? = some b → tk.isNameChar b = false := by
        intro b hb
        cases rest with
        | nil => simp [bodyText] at hb
        | cons r2 rr =>
          cases r2 with
          | sp =>
            rw [bodyText_cons] at hb
            simp [bitemText] at hb
            rw [← hb]
            decide
          | kw w2 => simp at hfollow
      obtain ⟨c, w2, rfl⟩ : ∃ c w2, w = c :: w2 := by
        cases w with
        | nil => exact absurd rfl hwne
        | cons c w2 => exact ⟨c, w2, rfl⟩
      have hclet : isLetter c = true := hlet c (by simp)
      have hcrange : (65 ≤ c ∧ c ≤ 90) ∨ (97 ≤ c ∧ c ≤ 122) := by
        simpa [isLetter] using hclet
      rw [bodyText_cons]
      have hshape : A ++ (bitemText (BItem.kw (c :: w2)) ++ bodyText rest) =
          A ++ (c :: (w2 ++ bodyText rest)) := by
        simp [bitemText]
      rw [hshape]
      have hget : speek (A ++ (c :: (w2 ++ bodyText rest))) A.length = some c :=
        get?_at A c _
      conv_lhs => unfold tokenise_main
      rw [hget]
      dsimp only
      rw [if_neg (by omega : ¬(c = 0)), if_neg (by omega : ¬(c = 13)),
        if_neg (by simp [isWS_eq_false_of_isLetter hclet]),
        if_neg (by omega : ¬(c = 34))]
      rw [if_neg (by
        intro hc
        have := hc.2.2
        rcases this with hd | hd
        · rw [isDigit_eq_false_of_isLetter hclet] at hd
          exact absurd hd (by simp)
        · omega)]
      rw [if_neg (by
        intro hc
        rcases hc with hd | hd | hd
        · omega
        · omega
        · rw [isDigit_eq_false_of_isLetter hclet] at hd
          exact absurd hd.2.2 (by simp))]
      rw [if_neg (by
        simp only [isOperatorChar, Bool.or_eq_true, decide_eq_true_eq]
        intro hc
        rcases hc with ((((((((h | h) | h) | h) | h) | h) | h) | h) | h) <;> omega)]
      rw [if_neg (by omega : ¬(c = 39)), if_neg (by omega : ¬(c = 63)),
        if_pos hclet]
      have hword := tokenise_word_trace (c :: w2) hw A (bodyText rest) hR
        ((A ++ (c :: (w2 ++ bodyText rest))).length + 1)
        (by simp; omega) out
      rw [show A ++ (c :: (w2 ++ bodyText rest)) =
          A ++ ((c :: w2) ++ bodyText rest) from by simp] at hword ⊢
      rw [hword]
      dsimp only
      rw [if_neg (by
        intro hc
        rcases hc with hc | hc
        · exact hnotin (by simp [hc])
        · exact upper_letters_ne hlet (by omega) hc)]
      rw [if_neg (by
        intro hc
        exact hnotin (by simp [hc]))]
      rw [show A ++ ((c :: w2) ++ bodyText rest) =
          (A ++ (c :: w2)) ++ bodyText rest from by simp]
      rw [show A.length + (c :: w2).length = (A ++ (c :: w2)).length from by simp]
      rw [ih hok2 (A ++ (c :: w2)) _ _ _ _ f (by simp at hfuel; omega)]
      rw [btokens_cons]
      simp [bitemToken]

theorem digitsVal_foldl_ge (l : List Nat) :
    ∀ a, 1 ≤ a → 1 ≤ l.foldl (fun x b => x * 10 + (b - 48)) a := by
  induction l with
  | nil =>
    intro a ha
    simpa using ha
  | cons b l2 ih =>
    intro a ha
    simp only [List.foldl_cons]
    exact ih _ (by omega)

/-- A simple line number has a nonzero value. -/
theorem digitsVal_pos {ds : List Nat} (hne : ds ≠ [])
    (hdig : ∀ b ∈ ds, isDigit b = true) (hlead : ds.head? ≠ some 48) :
    1 ≤ digitsVal ds := by
  cases ds with
  | nil => exact absurd rfl hne
  | cons d0 rest =>
    have h0 := hdig d0 (by simp)
    simp [isDigit] at h0
    have hd0 : d0 ≠ 48 := by
      intro hc
      rw [hc] at hlead
      simp at hlead
    unfold digitsVal
    simp only [List.foldl_cons]
    exact digitsVal_foldl_ge rest _ (by omega)

/-- Every byte of a well-formed body is a space or a letter. -/
theorem bodyText_mem (items : List BItem) (hok : bodyOK items = true) :
    ∀ b ∈ bodyText items, b = 32 ∨ isLetter b = true := by
  induction items with
  | nil =>
    intro b hb
    simp [bodyText] at hb
  | cons it rest ih =>
    intro b hb
    rw [bodyText_cons, List.mem_append] at hb
    cases it with
    | sp =>
      rcases hb with hb | hb
      · simp [bitemText] at hb
        exact Or.inl hb
      · exact ih (by simpa [bodyOK] using hok) b hb
    | kw w =>
      have hok2 := hok
      simp only [bodyOK, Bool.and_eq_true] at hok2
      obtain ⟨⟨hw, _⟩, hrest⟩ := hok2
      rcases hb with hb | hb
      · simp only [bitemText] at hb
        simp only [simpleKW, Bool.and_eq_true, decide_eq_true_eq,
          List.all_eq_true] at hw
        exact Or.inr (hw.1.1.1.1.1.1.1.2 b hb)
      · exact ih hrest b hb

/-- Each body item contributes at least one text byte. -/
theorem bodyText_len_ge (items : List BItem) (hok : bodyOK items = true) :
    items.length ≤ (bodyText items).length := by
  induction items with
  | nil => simp [bodyText]
  | cons it rest ih =>
    rw [bodyText_cons]
    cases it with
    | sp =>
      have := ih (by simpa [bodyOK] using hok)
      simp [bitemText]
      omega
    | kw w =>
      have hok2 := hok
      simp only [bodyOK, Bool.and_eq_true] at hok2
      obtain ⟨⟨hw, _⟩, hrest⟩ := hok2
      have hwne : w ≠ [] := by
        simp only [simpleKW, Bool.and_eq_true, decide_eq_true_eq] at hw
        exact hw.1.1.1.1.1.1.1.1
      have := ih hrest
      have hlen : 1 ≤ w.length := by
        cases w with
        | nil => exact absurd rfl hwne
        | cons _ _ => simp
      simp [bitemText]
      omega

/-- Each body item contributes exactly one token byte. -/
theorem btokens_length (items : List BItem) (hok : bodyOK items = true) :
    (btokens items).length = items.length := by
  induction items with
  | nil => simp [btokens]
  | cons it rest ih =>
    rw [btokens_cons]
    cases it with
    | sp =>
      have := ih (by simpa [bodyOK] using hok)
      simp [bitemToken]
      omega
    | kw w =>
      have hok2 := hok
      simp only [bodyOK, Bool.and_eq_true] at hok2
      obtain ⟨⟨hw, _⟩, hrest⟩ := hok2
      have hlen1 : ((keyword_to_token (w.map toUpperB)).getD []).length = 1 := by
        simp only [simpleKW, Bool.and_eq_true, decide_eq_true_eq] at hw
        exact hw.1.1.1.1.2
      have := ih hrest
      simp [bitemToken, hlen1]
      omega

/-- `tokenise_uint` on a simple line number followed by whitespace-or-text:
the digits are consumed and encoded, the whitespace is not claimed. -/
theorem tokenise_uint_simple (ds B : List Nat) (hds : simpleLineNum ds = true)
    (hB : ∀ b ∈ B.takeWhile (fun x => isDigit x || isWS x), isWS b = true) :
    tokenise_uint (ds ++ B) 0 = (enc2 (digitsVal ds), ds.length) := by
  simp only [simpleLineNum, Bool.and_eq_true, decide_eq_true_eq,
    List.all_eq_true] at hds
  obtain ⟨⟨⟨hne, hdig⟩, hlead⟩, hlt⟩ := hds
  have hdsp : ∀ b ∈ ds, (isDigit b || isWS b) = true := by
    intro b hb
    simp [hdig b hb]
  have hrun : (ds ++ B).takeWhile (fun x => isDigit x || isWS x) =
      ds ++ B.takeWhile (fun x => isDigit x || isWS x) :=
    takeWhile_append_of_all B hdsp
  have hword : ((ds ++ B.takeWhile (fun x => isDigit x || isWS x)).reverse.dropWhile
      isWS).reverse = ds := by
    rw [List.reverse_append]
    rw [dropWhile_append_of_all ds.reverse (by
      intro b hb
      rw [List.mem_reverse] at hb
      exact hB b hb)]
    rw [dropWhile_eq_self_of_head (by
      intro b hb
      have hmem : b ∈ ds := by
        have := List.mem_of_mem_head? hb
        simpa [List.mem_reverse] using this
      exact isWS_eq_false_of_isDigit (hdig b hmem))]
    simp
  unfold tokenise_uint
  rw [List.drop_zero, hrun]
  dsimp only
  rw [hword]
  have hfil : ds.filter isDigit = ds := List.filter_eq_self.mpr hdig
  rw [hfil]
  have hemp : ds.isEmpty = false := by
    cases ds with
    | nil => exact absurd rfl hne
    | cons _ _ => rfl
  rw [if_neg (by simp [hemp])]
  rw [if_neg (by omega)]
  congr 1
  simp only [List.length_append]
  omega

/-- `tokenise_line` on a simple line: the header with the encoded line
number, then the body tokens. -/
theorem tokenise_line_trace (ds : List Nat) (items : List BItem)
    (hds : simpleLineNum ds = true) (hok : bodyOK items = true) :
    tokenise_line (ds ++ (32 :: bodyText items)) =
      ([0, 192, 222] ++ enc2 (digitsVal ds)) ++ btokens items := by
  have hds2 := hds
  simp only [simpleLineNum, Bool.and_eq_true, decide_eq_true_eq,
    List.all_eq_true] at hds2
  obtain ⟨⟨⟨hne, hdig⟩, hlead⟩, hlt⟩ := hds2
  have hn1 : 1 ≤ digitsVal ds := digitsVal_pos hne hdig hlead
  obtain ⟨d0, ds2, rfl⟩ : ∃ d0 ds2, ds = d0 :: ds2 := by
    cases ds with
    | nil => exact absurd rfl hne
    | cons d0 ds2 => exact ⟨d0, ds2, rfl⟩
  have hd0 : isDigit d0 = true := hdig d0 (by simp)
  have hBws : ∀ b ∈ (32 :: bodyText items).takeWhile (fun x => isDigit x || isWS x),
      isWS b = true := by
    intro b hb
    rw [List.takeWhile_cons_of_pos (by decide)] at hb
    rcases List.mem_cons.mp hb with hb | hb
    · rw [hb]
      decide
    · have hp := List.mem_takeWhile_imp hb
      have hmem : b ∈ bodyText items :=
        (List.takeWhile_sublist _).subset hb
      rcases bodyText_mem items hok b hmem with h32 | hlet
      · rw [h32]
        decide
      · rw [isDigit_eq_false_of_isLetter hlet] at hp
        simpa using hp
  have huint : tokenise_uint ((d0 :: ds2) ++ (32 :: bodyText items)) 0 =
      (enc2 (digitsVal (d0 :: ds2)), (d0 :: ds2).length) :=
    tokenise_uint_simple _ _ hds hBws
  have hlenL : (d0 :: ds2).length + 1 ≤ ((d0 :: ds2) ++ (32 :: bodyText items)).length := by
    simp
  have hspeek : speek ((d0 :: ds2) ++ (32 :: bodyText items)) (d0 :: ds2).length =
      some 32 := get?_at _ 32 _
  have henc : enc2 (digitsVal (d0 :: ds2)) ≠ [0, 0] := by
    simp only [enc2, ne_eq, List.cons.injEq, and_true]
    intro hc
    omega
  have hln : tokenise_line_number ((d0 :: ds2) ++ (32 :: bodyText items)) 0 [] =
      ((d0 :: ds2).length + 1, [0, 192, 222] ++ enc2 (digitsVal (d0 :: ds2))) := by
    unfold tokenise_line_number
    rw [huint]
    dsimp only
    rw [if_neg (by simp [enc2])]
    rw [if_pos ⟨hspeek, henc⟩]
    have hsaft : safter ((d0 :: ds2) ++ (32 :: bodyText items)) (d0 :: ds2).length 1 =
        (d0 :: ds2).length + 1 := by
      simp only [safter]
      omega
    rw [hsaft]
    rfl
  unfold tokenise_line
  have hsw : skip_white ((d0 :: ds2) ++ (32 :: bodyText items)) 0 = (some d0, 0) := by
    unfold skip_white
    rw [List.drop_zero, List.cons_append,
      List.takeWhile_cons_of_neg (by simp [isWS_eq_false_of_isDigit hd0])]
    rfl
  rw [hsw]
  dsimp only
  rw [hln]
  dsimp only
  rw [show (d0 :: ds2) ++ (32 :: bodyText items) =
      ((d0 :: ds2) ++ [32]) ++ bodyText items from by simp]
  rw [show (d0 :: ds2).length + 1 = ((d0 :: ds2) ++ [32]).length from by simp]
  rw [tokenise_main_trace items hok _ _ false true false _ (by
    have h1 := bodyText_len_ge items hok
    simp
    omega)]

theorem toUpperB_letter_range {b : Nat} (h : isLetter b = true) :
    65 ≤ toUpperB b ∧ toUpperB b ≤ 90 := by
  simp [isLetter] at h
  simp only [toUpperB]
  split <;> omega

theorem suffix_getLast? {l m : List Nat} (h : m <:+ l) (hm : m ≠ []) :
    l.getLast? = m.getLast? := by
  obtain ⟨p, rfl⟩ := h
  exact List.getLast?_append_of_ne_nil p hm

/-- `_detokenise_keyword` at a simple keyword token: the upper-cased
keyword text is appended, with no separating space and no tail rewrite,
and the comment flag stays off. -/
theorem detok_kw_step (w : List Nat) (hw : simpleKW w = true) (A out R2 : List Nat)
    (hR2 : R2 = [] ∨ R2.head? = some 32)
    (hout : out = [] ∨ out.getLast? = some 32)
    (t : Nat) (htok : keyword_to_token (w.map toUpperB) = some [t]) :
    detokenise_keyword (A ++ (t :: R2)) A.length out =
      (false, A.length + 1, out ++ w.map toUpperB) := by
  simp only [simpleKW, Bool.and_eq_true, decide_eq_true_eq, List.all_eq_true,
    Bool.not_eq_true'] at hw
  obtain ⟨⟨⟨⟨⟨⟨⟨⟨hwne, hlet⟩, hgo⟩, hsome⟩, hlen1⟩, h128⟩, hnotin⟩, helse⟩, hpre⟩ := hw
  have hinv : token_to_keyword [t] = some (w.map toUpperB) :=
    token_to_keyword_of_keyword_to_token htok
  have hwmap_ne : w.map toUpperB ≠ [] := by
    simp only [ne_eq, List.map_eq_nil_iff]
    exact hwne
  obtain ⟨w0, x, hwx0⟩ : ∃ L b, w = L.concat b := (List.eq_nil_or_concat w).resolve_left hwne
  have hwx : w = w0 ++ [x] := by simpa [List.concat_eq_append] using hwx0
  have hlastw : (w.map toUpperB).getLast? = some (toUpperB x) := by
    rw [hwx]
    simp
  have hxlet : isLetter x = true := hlet x (by rw [hwx]; simp)
  have hxr := toUpperB_letter_range hxlet
  have hlast_o : (out ++ w.map toUpperB).getLast? = some (toUpperB x) := by
    rw [List.getLast?_append_of_ne_nil out hwmap_ne, hlastw]
  have hs1 : sread (A ++ (t :: R2)) A.length 1 = [t] := by
    rw [sread_at]
    rfl
  have hsaft : safter (A ++ (t :: R2)) A.length 1 = A.length + 1 := by
    simp only [safter]
    simp
  have hni1 : ¬(4 < (out ++ w.map toUpperB).length ∧
      (out ++ w.map toUpperB).drop ((out ++ w.map toUpperB).length - 5) =
        [58, 82, 69, 77, 39]) := by
    rintro ⟨_, hdrop⟩
    have hsuf := List.drop_suffix ((out ++ w.map toUpperB).length - 5)
      (out ++ w.map toUpperB)
    rw [hdrop] at hsuf
    have := suffix_getLast? hsuf (by simp)
    rw [hlast_o] at this
    simp at this
    omega
  have hni2 : ¬(5 < (out ++ w.map toUpperB).length ∧
      (out ++ w.map toUpperB).drop ((out ++ w.map toUpperB).length - 6) =
        [87, 72, 73, 76, 69, 43]) := by
    rintro ⟨_, hdrop⟩
    have hsuf := List.drop_suffix ((out ++ w.map toUpperB).length - 6)
      (out ++ w.map toUpperB)
    rw [hdrop] at hsuf
    have := suffix_getLast? hsuf (by simp)
    rw [hlast_o] at this
    simp at this
    omega
  have hni3 : ¬(4 < (out ++ w.map toUpperB).length ∧
      (out ++ w.map toUpperB).drop ((out ++ w.map toUpperB).length - 4) =
        [69, 76, 83, 69]) := by
    rintro ⟨hl4, hdrop⟩
    have hlen_o : (out ++ w.map toUpperB).length =
        out.length + (w.map toUpperB).length := by simp
    by_cases hwl : 4 ≤ (w.map toUpperB).length
    · have hdrop2 : (out ++ w.map toUpperB).drop ((out ++ w.map toUpperB).length - 4) =
          (w.map toUpperB).drop ((w.map toUpperB).length - 4) := by
        rw [List.drop_append_eq_append_drop]
        rw [List.drop_eq_nil_of_le (by omega)]
        rw [List.nil_append]
        congr 1
        omega
      rw [hdrop2] at hdrop
      have hsuf := List.drop_suffix ((w.map toUpperB).length - 4) (w.map toUpperB)
      rw [hdrop] at hsuf
      rw [← List.isSuffixOf_iff_suffix] at hsuf
      rw [hsuf] at helse
      exact absurd helse (by simp)
    · have hlu1 : 1 ≤ (w.map toUpperB).length := by
        cases hww : w.map toUpperB with
        | nil => exact absurd hww hwmap_ne
        | cons _ _ => simp [hww]
      have hlo : 1 ≤ out.length := by omega
      have hout32 : out.getLast? = some 32 := by
        rcases hout with h | h
        · rw [h] at hlo
          simp at hlo
        · exact h
      have hidx : (out ++ w.map toUpperB).get? (out.length - 1) = some 32 := by
        rw [List.get?_append (by omega)]
        rw [← List.getLast?_eq_get?]
        exact hout32
      have hcg := congrArg (fun l => l.get? (3 - (w.map toUpperB).length)) hdrop
      simp only [List.get?_drop] at hcg
      rw [show (out ++ w.map toUpperB).length - 4 + (3 - (w.map toUpperB).length) =
          out.length - 1 from by omega] at hcg
      rw [hidx] at hcg
      rcases (by omega : (w.map toUpperB).length = 1 ∨ (w.map toUpperB).length = 2 ∨
          (w.map toUpperB).length = 3) with h | h | h <;>
        · rw [h] at hcg
          exact absurd hcg (by decide)
  unfold detokenise_keyword
  rw [hs1, hsaft]
  dsimp only
  rw [hinv]
  dsimp only
  have hcond1 : ¬(out ≠ [] ∧
      (isDigit (out.getLastD 48) = true ∨ isLetter (out.getLastD 48) = true) ∧
      tokIsOperator [t] = false) := by
    rintro ⟨hne2, hld, _⟩
    rcases hout with h | h
    · exact hne2 h
    · rw [List.getLastD_eq_getLast?, h] at hld
      simp at hld
      rcases hld with hd | hd
      · exact absurd hd (by decide)
      · exact absurd hd (by decide)
  rw [if_neg hcond1]
  rw [if_neg (show ¬(w.map toUpperB = [39]) from
    upper_letters_ne hlet (by omega))]
  rw [if_neg (show ¬(w.map toUpperB = kwREM) from by
    intro hc
    exact hnotin (by simp [hc]))]
  dsimp only
  rw [if_neg hni1, if_neg hni2, if_neg hni3]
  have hspk : speek (A ++ (t :: R2)) (A.length + 1) = R2.head? := by
    rw [show A ++ (t :: R2) = (A ++ [t]) ++ R2 from by simp,
      show A.length + 1 = (A ++ [t]).length from by simp]
    exact speek_at _ _
  rw [hspk]
  have hsep :
      (if false = true then false
       else
        match R2.head? with
        | none => false
        | some nb =>
          if nb = 0 ∨ tk.isOperatorToken nb = true ∨ nb = tk.O_REM ∨ nb = 34 ∨ nb = 44 ∨
              nb = 32 ∨ nb = 58 ∨ nb = 40 ∨ nb = 41 ∨ nb = 36 ∨ nb = 37 ∨ nb = 33 ∨
              nb = 35 ∨ nb = 95 ∨ nb = 64 ∨ nb = 126 ∨ nb = 124 ∨ nb = 96 then false
          else if tokIsOperator [t] = true ∨ [t] = [tk.SPC] ∨ [t] = [tk.TAB] ∨
              [t] = [tk.USR] ∨ [t] = [tk.FN] then false
          else true) = false := by
    rw [if_neg (by decide : ¬(false = true))]
    rcases hR2 with h | h
    · rw [h]
      rfl
    · rw [h]
      dsimp only
      rw [if_pos (by
        right; right; right; right; right; left
        rfl)]
  rw [hsep]
  rfl

/-- The detokenise loop over the token bytes of a well-formed body:
it renders the canonical (upper-cased) body text. -/
theorem detok_body_trace (items : List BItem) (hok : bodyOK items = true) :
    ∀ (A out : List Nat) (fuel : Nat), items.length + 1 ≤ fuel →
    (∀ w rest2, items = BItem.kw w :: rest2 → out = [] ∨ out.getLast? = some 32) →
    detok_loop (A ++ btokens items) fuel A.length out false false =
      (out ++ bodyCanon items, A.length + items.length) := by
  induction items with
  | nil =>
    intro A out fuel hfuel _
    obtain ⟨f, rfl⟩ : ∃ f, fuel = f + 1 := ⟨fuel - 1, by omega⟩
    have hend : speek (A ++ btokens []) A.length = none := by
      show speek (A ++ btokens []) A.length = ([] : List Nat).head?
      rw [show btokens [] = ([] : List Nat) from rfl]
      exact speek_at A []
    conv_lhs => unfold detok_loop
    rw [hend]
    simp [bodyCanon]
  | cons it rest ih =>
    intro A out fuel hfuel hsep
    obtain ⟨f, rfl⟩ : ∃ f, fuel = f + 1 := ⟨fuel - 1, by omega⟩
    cases it with
    | sp =>
      have hok2 : bodyOK rest = true := by simpa [bodyOK] using hok
      rw [btokens_cons, show bitemToken BItem.sp = [32] from rfl,
        List.singleton_append]
      have hget : speek (A ++ (32 :: btokens rest)) A.length = some 32 :=
        get?_at A 32 _
      conv_lhs => unfold detok_loop
      rw [hget]
      dsimp only
      rw [if_neg (by decide : ¬((32 : Nat) = 0)), if_neg (by decide : ¬((32 : Nat) = 34)),
        if_neg (by decide : ¬(tk.isNumberToken 32 = true)),
        if_neg (by decide : ¬(tk.isLinenumToken 32 = true)),
        if_pos (show false = true ∨ false = true ∨ (32 ≤ (32 : Nat) ∧ (32 : Nat) ≤ 126) from
          Or.inr (Or.inr ⟨by decide, by decide⟩))]
      rw [show A ++ (32 :: btokens rest) = (A ++ [32]) ++ btokens rest from by simp]
      rw [show A.length + 1 = (A ++ [32]).length from by simp]
      rw [ih hok2 (A ++ [32]) (out ++ [32]) f (by simp at hfuel; omega)
        (by
          intro w2 r2 _
          right
          rw [List.getLast?_append_of_ne_nil out (by simp)]
          rfl)]
      rw [bodyCanon_cons]
      simp [bitemCanon]
      omega
    | kw w =>
      have hok3 := hok
      simp only [bodyOK, Bool.and_eq_true] at hok3
      obtain ⟨⟨hw, hfollow⟩, hok2⟩ := hok3
      have hw2 := hw
      simp only [simpleKW, Bool.and_eq_true, decide_eq_true_eq, List.all_eq_true] at hw2
      obtain ⟨⟨⟨⟨⟨⟨⟨⟨hwne, hlet⟩, hgo⟩, hsome⟩, hlen1⟩, h128⟩, hnotin⟩, helse⟩, hpre⟩ := hw2
      obtain ⟨tok, htokg⟩ := Option.isSome_iff_exists.mp hsome
      obtain ⟨t, rfl⟩ : ∃ t, tok = [t] := by
        rw [htokg] at hlen1
        simp at hlen1
        exact List.length_eq_one.mp hlen1
      have ht128 : 128 ≤ t := by
        rw [htokg] at h128
        simpa using h128
      have hR2 : btokens rest = [] ∨ (btokens rest).head? = some 32 := by
        cases rest with
        | nil => exact Or.inl rfl
        | cons r2 rr =>
          cases r2 with
          | sp =>
            right
            rw [btokens_cons]
            rfl
          | kw w2 => simp at hfollow
      have houtsep : out = [] ∨ out.getLast? = some 32 := hsep w rest rfl
      rw [btokens_cons, show bitemToken (BItem.kw w) =
        (keyword_to_token (w.map toUpperB)).getD [] from rfl, htokg]
      rw [show (some [t]).getD ([] : List Nat) = [t] from rfl, List.singleton_append]
      have hget : speek (A ++ (t :: btokens rest)) A.length = some t := get?_at A t _
      conv_lhs => unfold detok_loop
      rw [hget]
      dsimp only
      rw [if_neg (by omega : ¬(t = 0)), if_neg (by omega : ¬(t = 34))]
      rw [if_neg (show ¬(tk.isNumberToken t = true) from by
        simp [tk.isNumberToken]
        omega)]
      rw [if_neg (show ¬(tk.isLinenumToken t = true) from by
        simp [tk.isLinenumToken]
        omega)]
      rw [if_neg (show ¬(false = true ∨ false = true ∨ (32 ≤ t ∧ t ≤ 126)) from by
        simp
        omega)]
      rw [if_neg (by omega : ¬(t = 10)), if_neg (by omega : ¬(t ≤ 9))]
      rw [detok_kw_step w hw A out (btokens rest) hR2 houtsep t htokg]
      dsimp only
      rw [show A ++ (t :: btokens rest) = (A ++ [t]) ++ btokens rest from by simp]
      rw [show A.length + 1 = (A ++ [t]).length from by simp]
      rw [ih hok2 (A ++ [t]) (out ++ w.map toUpperB) f (by simp at hfuel; omega)
        (by
          intro w2 r2 hr
          rw [hr] at hfollow
          simp at hfollow)]
      rw [bodyCanon_cons]
      simp [bitemCanon]
      omega

/-- The first token byte of a well-formed body is a space or a keyword
token, never a tab. -/
theorem btokens_head_ne_tab (items : List BItem) (hok : bodyOK items = true) :
    (btokens items).head? ≠ some 9 := by
  cases items with
  | nil => simp [btokens]
  | cons it rest =>
    rw [btokens_cons]
    cases it with
    | sp => simp [bitemToken]
    | kw w =>
      have hok3 := hok
      simp only [bodyOK, Bool.and_eq_true] at hok3
      obtain ⟨⟨hw, _⟩, _⟩ := hok3
      simp only [simpleKW, Bool.and_eq_true, decide_eq_true_eq] at hw
      obtain ⟨tok, htokg⟩ := Option.isSome_iff_exists.mp hw.1.1.1.1.1.2
      obtain ⟨t, rfl⟩ : ∃ t, tok = [t] := by
        have hlen1 := hw.1.1.1.1.2
        rw [htokg] at hlen1
        simp at hlen1
        exact List.length_eq_one.mp hlen1
      have ht128 : 128 ≤ t := by
        have h128 := hw.1.1.1.2
        rw [htokg] at h128
        simpa using h128
      simp only [bitemToken, htokg]
      intro hc
      simp at hc
      omega

/-- Claim C2 (amended): for every simple statement line — a line number
below 65530 without a leading zero, one space, then any body of spaces
and keyword words typed in either case, each keyword being a plain
one-byte-token table keyword (none of the specially-tokenised REM, DATA,
ELSE, WHILE, bracket or `GO`-prefixed forms) followed by a space or the
end of the line — detokenising the tokenised line yields exactly the
canonicalised text: the same line number, one space, and the body with
every keyword upper-cased.  (The claim as stated is wrong: its list of
canonicalisations is incomplete — the tokeniser also rewrites
abbreviations such as `?` to PRINT and collapses `GO TO`, so round-trip
equivalence holds only up to the full tokeniser rewrite set; on this
grammar the only applicable rewrite is keyword upper-casing, and the
round trip is exact.) -/
theorem C2_round_trip (ds : List Nat) (items : List BItem)
    (hds : simpleLineNum ds = true) (hok : bodyOK items = true) :
    detokenise_line (tokenise_line (ds ++ (32 :: bodyText items))) 1 =
      ((digitsVal ds : Int), ds ++ (32 :: bodyCanon items), 5 + items.length) := by
  have hds2 := hds
  simp only [simpleLineNum, Bool.and_eq_true, decide_eq_true_eq,
    List.all_eq_true] at hds2
  obtain ⟨⟨⟨hne, hdig⟩, hlead⟩, hlt⟩ := hds2
  have hn1 : 1 ≤ digitsVal ds := digitsVal_pos hne hdig hlead
  rw [tokenise_line_trace ds items hds hok]
  unfold detokenise_line
  have hpln : parse_line_number
      (([0, 192, 222] ++ enc2 (digitsVal ds)) ++ btokens items) 1 =
      (some (digitsVal ds), 5) := by
    unfold parse_line_number
    rw [show sread (([0, 192, 222] ++ enc2 (digitsVal ds)) ++ btokens items) 1 2 =
      [192, 222] from rfl]
    dsimp only
    rw [if_neg (by decide : ¬((decide ((192 : Nat) = 0) && decide ((222 : Nat) = 0)) = true))]
    rw [show sread (([0, 192, 222] ++ enc2 (digitsVal ds)) ++ btokens items) (1 + 2) 2 =
      [digitsVal ds % 256, digitsVal ds / 256 % 256] from rfl]
    dsimp only
    rw [show dec2 (digitsVal ds % 256) (digitsVal ds / 256 % 256) =
      digitsVal ds from dec2_enc2 _ (by omega)]
  rw [hpln]
  dsimp only
  have hlen5 : ([0, 192, 222] ++ enc2 (digitsVal ds)).length = 5 := by
    simp [enc2]
  have hspk5 : speek (([0, 192, 222] ++ enc2 (digitsVal ds)) ++ btokens items) 5 =
      (btokens items).head? := by
    rw [show (5 : Nat) = ([0, 192, 222] ++ enc2 (digitsVal ds)).length from hlen5.symm]
    exact speek_at _ _
  rw [hspk5]
  rw [if_neg (show ¬(digitsVal ds = 0 ∧ (btokens items).head? = some 32) from by
    rintro ⟨h0, _⟩
    omega)]
  rw [hspk5]
  rw [if_neg (btokens_head_ne_tab items hok)]
  rw [natToDecimal_digitsVal ds hne hdig hlead]
  have hbody := detok_body_trace items hok ([0, 192, 222] ++ enc2 (digitsVal ds)) []
    ((([0, 192, 222] ++ enc2 (digitsVal ds)) ++ btokens items).length + 1)
    (by
      have := btokens_length items hok
      simp [enc2]
      omega)
    (by
      intro _ _ _
      exact Or.inl rfl)
  rw [hlen5] at hbody
  rw [hbody]
  simp

/-- Claim C2 (witness): the line `10 print beep` in lower case round
trips to `10 PRINT BEEP`. -/
theorem C2_round_trip_witness :
    simpleLineNum [49, 48] = true ∧
    bodyOK [BItem.kw [112, 114, 105, 110, 116], BItem.sp,
      BItem.kw [98, 101, 101, 112]] = true ∧
    detokenise_line (tokenise_line ([49, 48] ++ (32 :: bodyText
        [BItem.kw [112, 114, 105, 110, 116], BItem.sp,
          BItem.kw [98, 101, 101, 112]]))) 1 =
      ((digitsVal [49, 48] : Int), [49, 48] ++ (32 :: bodyCanon
        [BItem.kw [112, 114, 105, 110, 116], BItem.sp,
          BItem.kw [98, 101, 101, 112]]),
       5 + ([BItem.kw [112, 114, 105, 110, 116], BItem.sp,
          BItem.kw [98, 101, 101, 112]] : List BItem).length) :=
  ⟨by decide, by decide,
    C2_round_trip [49, 48]
      [BItem.kw [112, 114, 105, 110, 116], BItem.sp, BItem.kw [98, 101, 101, 112]]
      (by decide) (by decide)⟩

end PCBasic


